import Mathlib

/-!
# Condition expressions: lexer, parser, type checker, evaluator, environment

A shallow embedding of the `conditions` package (`token.go`, `lexer.go`, `ast.go`,
`parser.go`, `semant.go`, `environment.go`, `builtin.go`, `evaluator.go`).

Conventions of the embedding.

* A Go `string` is a byte sequence; it is embedded as a Lean `String` whose
  characters stand for the bytes (`'\x00'` is the zero byte).
* `int64` values are embedded as `Int`; arithmetic that can overflow is wrapped
  by `wrapInt64`.
* A Go run-time panic is `Except.error` carrying the panic text; a call that
  ends the process by `os.Exit` has an outcome of its own (`SetOutcome.exited`).
* A Go interface value that may be `nil` is an `Option` (objects) or has a `nil`
  constructor (expressions).
* Loops are recursive functions over a step budget; each budget is chosen from
  the length of the input that is left, and a budget that runs out is reported
  as `none`, never as a result. `Lexer.NextToken_isSome` and `parse_isSome`
  show that no budget runs out.
-/

namespace Conditions

/-! ## token.go -/

/-- The Go type `TokenType` is a string type. -/
abbrev TokenType := String

/-- A lexical token: `Token{Type, Literal}` (`Type` is a Lean keyword, hence `Type_`). -/
structure Token where
  Type_ : TokenType
  Literal : String
  deriving DecidableEq, Repr, Inhabited

def ILLEGAL : TokenType := "ILLEGAL"
def EOF : TokenType := "EOF"
def IDENT : TokenType := "IDENT"
def INT : TokenType := "INT"
def FLOAT : TokenType := "FLOAT"
def STRING : TokenType := "STRING"
def BANG : TokenType := "!"
def LT : TokenType := "<"
def LT_EQUAL : TokenType := "<="
def GT : TokenType := ">"
def GT_EQUAL : TokenType := ">="
def EQ : TokenType := "=="
def NOT_EQ : TokenType := "!="
def REG : TokenType := "~="
def LPAREN : TokenType := "("
def RPAREN : TokenType := ")"
def LBRACKET : TokenType := "["
def RBRACKET : TokenType := "]"
def IN : TokenType := "in"
def AND : TokenType := "&&"
def OR : TokenType := "||"
def COMMA : TokenType := ","
def SEMICOLON : TokenType := ";"
def TRUE : TokenType := "TRUE"
def FALSE : TokenType := "FALSE"

/-- The map `keywords`. -/
def keywords (ident : String) : Option TokenType :=
  if ident = "true" then some TRUE
  else if ident = "false" then some FALSE
  else if ident = "in" then some IN
  else none

/-- The key set of the map `reserved`. -/
def reserved : List String :=
  ["break", "case", "chan", "const", "continue", "default", "defer", "else",
   "fallthrough", "for", "func", "go", "goto", "if", "import", "interface", "map",
   "package", "range", "return", "select", "struct", "switch", "type", "var", "F"]

/-- `LookupIdent`: keyword, else reserved word (illegal), else identifier. -/
def LookupIdent (ident : String) : TokenType :=
  match keywords ident with
  | some t => t
  | none => if ident ∈ reserved then ILLEGAL else IDENT

/-! ## lexer.go -/

/-- The lexer state: `input`, `position`, `readPosition`, `ch`. -/
structure Lexer where
  input : String
  position : Nat
  readPosition : Nat
  ch : Char
  deriving DecidableEq, Repr

/-- The byte `input[i]`; callers guard the index, out of range reads as zero. -/
def byteAt (input : String) (i : Nat) : Char := input.data.getD i '\x00'

/-- The slice `input[lo:hi]`. -/
def slice (input : String) (lo hi : Nat) : String :=
  String.mk ((input.data.drop lo).take (hi - lo))

def isDigit (ch : Char) : Bool := decide ('0' ≤ ch) && decide (ch ≤ '9')

def isLetter (ch : Char) : Bool :=
  (decide ('a' ≤ ch) && decide (ch ≤ 'z')) ||
  (decide ('A' ≤ ch) && decide (ch ≤ 'Z')) ||
  ch == '_'

/-- `newToken`: a token whose literal is the single byte `ch`. -/
def newToken (tokenType : TokenType) (ch : Char) : Token :=
  { Type_ := tokenType, Literal := String.mk [ch] }

namespace Lexer

/-- `readChar`: load the next byte (zero at the end) and advance both cursors. -/
def readChar (l : Lexer) : Lexer :=
  { l with
    ch := if l.readPosition ≥ l.input.length then '\x00' else byteAt l.input l.readPosition
    position := l.readPosition
    readPosition := l.readPosition + 1 }

/-- `peekChar`: the byte at `readPosition`, zero at the end. -/
def peekChar (l : Lexer) : Char :=
  if l.readPosition ≥ l.input.length then '\x00' else byteAt l.input l.readPosition

/-- A number of loop turns that no loop of the lexer reaches: after
`len(input) - readPosition + 1` calls of `readChar` the byte `ch` is zero. -/
def budget (l : Lexer) : Nat := l.input.length - l.readPosition + 2

/-- The loop of `readString`: read, then stop at a quote or a zero byte. -/
def readStringLoop : Nat → Lexer → Option Lexer
  | 0, _ => none
  | n + 1, l =>
    let l1 := l.readChar
    if l1.ch = '"' ∨ l1.ch = '\x00' then some l1 else readStringLoop n l1

/-- `readString`: the bytes between the opening quote and the closing quote (or
the end of the input). -/
def readString (l : Lexer) : Option (String × Lexer) :=
  let position := l.position + 1
  match readStringLoop l.budget l with
  | none => none
  | some l1 => some (slice l1.input position l1.position, l1)

/-- The loop `for cond(l.ch) { l.readChar() }` of `readIdentifier`,
`skipWhitespace` and `readNumber`. -/
def advanceWhile (cond : Char → Bool) : Nat → Lexer → Option Lexer
  | 0, _ => none
  | n + 1, l => if cond l.ch then advanceWhile cond n l.readChar else some l

/-- `readIdentifier`: the maximal run of letters from the current byte. -/
def readIdentifier (l : Lexer) : Option (String × Lexer) :=
  let position := l.position
  match advanceWhile isLetter l.budget l with
  | none => none
  | some l1 => some (slice l1.input position l1.position, l1)

/-- The condition of the loop of `skipWhitespace`. -/
def isWhitespace (ch : Char) : Bool := ch == ' ' || ch == '\t' || ch == '\n' || ch == '\r'

/-- `skipWhitespace`: skip spaces, tabs, line feeds and carriage returns. -/
def skipWhitespace (l : Lexer) : Option Lexer := advanceWhile isWhitespace l.budget l

/-- `readNumber`: the maximal run of digits from the current byte. -/
def readNumber (l : Lexer) : Option (String × Lexer) :=
  let position := l.position
  match advanceWhile isDigit l.budget l with
  | none => none
  | some l1 => some (slice l1.input position l1.position, l1)

/-- The switch of `NextToken` on a two-byte operator: when the next byte is
`second` the token `{ty, lit}` is produced and one more byte is consumed,
otherwise `orElse`; the final `l.readChar()` of `NextToken` follows in both
cases. -/
def twoByte (l : Lexer) (second : Char) (ty : TokenType) (lit : String)
    (orElse : Token) : Token × Lexer :=
  if l.peekChar = second then ({ Type_ := ty, Literal := lit }, l.readChar.readChar)
  else (orElse, l.readChar)

/-- The `switch l.ch` of `NextToken` with the `l.readChar()` that follows it.
The zero-value token `{"", ""}` is what the switch leaves in `tok` when a lone
`=`, `&`, `|`, `~` or an `i` not followed by `n` is met. -/
def scanToken (l : Lexer) : Option (Token × Lexer) :=
  let zero : Token := { Type_ := "", Literal := "" }
  if l.ch = '=' then some (twoByte l '=' EQ "==" zero)
  else if l.ch = '(' then some (newToken LPAREN l.ch, l.readChar)
  else if l.ch = ')' then some (newToken RPAREN l.ch, l.readChar)
  else if l.ch = ',' then some (newToken COMMA l.ch, l.readChar)
  else if l.ch = '[' then some (newToken LBRACKET l.ch, l.readChar)
  else if l.ch = ']' then some (newToken RBRACKET l.ch, l.readChar)
  else if l.ch = ';' then some (newToken SEMICOLON l.ch, l.readChar)
  else if l.ch = '&' then some (twoByte l '&' AND "&&" zero)
  else if l.ch = '|' then some (twoByte l '|' OR "||" zero)
  else if l.ch = '~' then some (twoByte l '=' REG "~=" zero)
  else if l.ch = 'i' then some (twoByte l 'n' IN "in" zero)
  else if l.ch = '!' then some (twoByte l '=' NOT_EQ "!=" (newToken BANG l.ch))
  else if l.ch = '>' then some (twoByte l '=' GT_EQUAL ">=" (newToken GT l.ch))
  else if l.ch = '<' then some (twoByte l '=' LT_EQUAL "<=" (newToken LT l.ch))
  else if l.ch = '"' then
    match l.readString with
    | none => none
    | some (lit, l1) => some ({ Type_ := STRING, Literal := lit }, l1.readChar)
  else if l.ch = '\x00' then some ({ Type_ := EOF, Literal := "" }, l.readChar)
  else if isLetter l.ch then
    match l.readIdentifier with
    | none => none
    | some (lit, l1) => some ({ Type_ := LookupIdent lit, Literal := lit }, l1)
  else if isDigit l.ch then
    match l.readNumber with
    | none => none
    | some (lit, l1) => some ({ Type_ := INT, Literal := lit }, l1)
  else some (newToken ILLEGAL l.ch, l.readChar)

/-- `NextToken`: skip white space, then produce one token and advance. -/
def NextToken (l : Lexer) : Option (Token × Lexer) :=
  match l.skipWhitespace with
  | none => none
  | some l1 => l1.scanToken

end Lexer

/-- `NewLexer`: a lexer on `input` with the first byte loaded. -/
def NewLexer (input : String) : Lexer :=
  Lexer.readChar { input := input, position := 0, readPosition := 0, ch := '\x00' }

/-! ## ast.go -/

/-- The Go type `ObjectType` is a string type. -/
abbrev ObjectType := String

def INTEGER_OBJ : ObjectType := "INTEGER"
def STRING_OBJ : ObjectType := "STRING"
def BOOLEAN_OBJ : ObjectType := "BOLLEAN"
def ARRAY_INTEGER_OBJ : ObjectType := "ARRAY_INTEGER_OBJ"
def ARRAY_STRING_OBJ : ObjectType := "ARRAY_STRING_OBJ"
def FUNCTION_OBJ : ObjectType := "FUNCTION_OBJ"
def BUILTIN_OBJ : ObjectType := "BUILTIN_OBJ"
def NULL_OBJ : ObjectType := "NULL"
def ERROR_OBJ : ObjectType := "ERROR"
def IDENT_OBJ : ObjectType := "IDENT_OBJ"

/-- The Go type `string`, under a name that stays usable where a node type called
`String` is in scope. -/
abbrev GoString := String

/-- A value of the interface `Expression`: `nil`, or a pointer to one of the
node types `Identifier`, `Integer`, `Boolean`, `String`, `ArrayInteger`,
`ArrayString`, `CallExpression`, `PrefixExpresion`, `InfixExpression`. -/
inductive Expression where
  | nil
  | Identifier (Value : String)
  | Integer (Value : Int)
  | Boolean (Value : Bool)
  | String (Value : String)
  | ArrayInteger (Value : List Int)
  | ArrayString (Value : List String)
  | CallExpression (Function : Expression) (Arguments : List Expression)
  | PrefixExpresion (Operator : TokenType) (Right : Expression)
  | InfixExpression (Left : Expression) (Operator : TokenType) (Right : Expression)
  deriving Repr, Inhabited

mutual
/-- Equality test of two expressions, node by node. -/
def Expression.beq : Expression → Expression → Bool
  | .nil, .nil => true
  | .Identifier a, .Identifier b => a == b
  | .Integer a, .Integer b => a == b
  | .Boolean a, .Boolean b => a == b
  | .String a, .String b => a == b
  | .ArrayInteger a, .ArrayInteger b => a == b
  | .ArrayString a, .ArrayString b => a == b
  | .CallExpression f as, .CallExpression g bs => Expression.beq f g && Expression.beqList as bs
  | .PrefixExpresion o a, .PrefixExpresion q b => o == q && Expression.beq a b
  | .InfixExpression l o r, .InfixExpression m q s =>
    Expression.beq l m && o == q && Expression.beq r s
  | _, _ => false
/-- Equality test of two argument lists. -/
def Expression.beqList : List Expression → List Expression → Bool
  | [], [] => true
  | a :: as, b :: bs => Expression.beq a b && Expression.beqList as bs
  | _, _ => false
end

/-- The root node `Program{Expression}`. -/
structure Program where
  Expression : Expression
  deriving Repr, Inhabited

/-- The text of the panic raised by a method call on a `nil` interface value. -/
def nilDereference : String :=
  "runtime error: invalid memory address or nil pointer dereference"

/-- The text of the panic raised by an index outside a slice. -/
def indexOutOfRange : String := "runtime error: index out of range"

/-- `%d` and `%v` of an `int64`. -/
def formatInt (i : Int) : String := toString i

/-- The tail of `ArrayInteger.String` and `ArrayString.String`: drop one final
comma, then close the bracket. -/
def closeArray (s : String) : String :=
  if s.data.getLast? = some ',' then String.mk s.data.dropLast ++ "]" else s ++ "]"

/-- `strings.Join(args, ", ")`. -/
def joinArgs : List String → String
  | [] => ""
  | [a] => a
  | a :: b :: rest => a ++ ", " ++ joinArgs (b :: rest)

mutual
/-- The method `String()` of the expression nodes; a call on `nil` panics. -/
def Expression.String_ : Expression → Except GoString GoString
  | .nil => .error nilDereference
  | .Identifier v => .ok v
  | .Integer v => .ok (formatInt v)
  | .Boolean v => .ok (if v then "true" else "false")
  | .String v => .ok ("\"" ++ v ++ "\"")
  | .ArrayInteger vs =>
    .ok (closeArray (vs.foldl (fun out item => out ++ formatInt item ++ ",") "["))
  | .ArrayString vs => .ok (closeArray (vs.foldl (fun out item => out ++ item ++ ",") "["))
  | .CallExpression f args =>
    match Expression.stringArgs args with
    | .error e => .error e
    | .ok rendered =>
      match Expression.String_ f with
      | .error e => .error e
      | .ok fs => .ok (fs ++ "(" ++ joinArgs rendered ++ ")")
  | .PrefixExpresion op right =>
    match Expression.String_ right with
    | .error e => .error e
    | .ok rs => .ok ("(" ++ op ++ rs ++ ")")
  | .InfixExpression left op right =>
    match Expression.String_ left with
    | .error e => .error e
    | .ok ls =>
      match Expression.String_ right with
      | .error e => .error e
      | .ok rs => .ok ("(" ++ ls ++ " " ++ op ++ " " ++ rs ++ ")")
/-- The loop of `CallExpression.String` that renders the arguments in order. -/
def Expression.stringArgs : List Expression → Except GoString (List GoString)
  | [] => .ok []
  | a :: rest =>
    match Expression.String_ a with
    | .error e => .error e
    | .ok s =>
      match Expression.stringArgs rest with
      | .error e => .error e
      | .ok ss => .ok (s :: ss)
end

/-- `Program.String`. -/
def Program.String_ (p : Program) : Except String String := p.Expression.String_

/-! ## strconv.ParseInt (Go standard library), as used by parser.go -/

/-- `strconv.Quote`, for the message of a failed conversion: the text between
double quotes, with `"` and `\` escaped (the escapes of control and non-ASCII
bytes are not modelled). -/
def quote (s : String) : String :=
  "\"" ++ String.mk (s.data.flatMap fun c =>
    if c = '"' then ['\\', '"'] else if c = '\\' then ['\\', '\\'] else [c]) ++ "\""

/-- The message of `*strconv.NumError` for `ParseInt`. -/
def numError (s : String) (err : String) : String :=
  "strconv.ParseInt: parsing " ++ quote s ++ ": " ++ err

def ErrSyntax : String := "invalid syntax"
def ErrRange : String := "value out of range"

/-- The value of a digit byte in `ParseUint`: `0-9`, then letters from ten on. -/
def digitVal (c : Char) : Option Nat :=
  if '0' ≤ c ∧ c ≤ '9' then some (c.toNat - '0'.toNat)
  else if 'a' ≤ c ∧ c ≤ 'z' then some (c.toNat - 'a'.toNat + 10)
  else if 'A' ≤ c ∧ c ≤ 'Z' then some (c.toNat - 'A'.toNat + 10)
  else none

/-- The digit loop of `ParseUint` with `bitSize = 64`, from the value `n` read so
far: the final value, or the first failure (a byte that is no digit of the
base, or a value that leaves `uint64`). In base-0 mode an underscore is
skipped. -/
def parseUintLoop (base : Nat) (base0 : Bool) : List Char → Nat → Except String Nat
  | [], n => .ok n
  | c :: rest, n =>
    if c = '_' ∧ base0 = true then parseUintLoop base base0 rest n
    else
      match digitVal c with
      | none => .error ErrSyntax
      | some d =>
        if d ≥ base then .error ErrSyntax
        else if n ≥ (2 ^ 64 - 1) / base + 1 then .error ErrRange
        else if n * base + d > 2 ^ 64 - 1 then .error ErrRange
        else parseUintLoop base base0 rest (n * base + d)

/-- The scan of `underscoreOK` over the number proper; `prev` is `'0'` after a
digit or base prefix, `'_'` after an underscore, `'!'` after anything else. -/
def underscoreOKLoop (hex : Bool) : List Char → Char → Bool
  | [], prev => prev != '_'
  | c :: rest, prev =>
    if ('0' ≤ c ∧ c ≤ '9') ∨
        (hex = true ∧ (('a' ≤ c ∧ c ≤ 'f') ∨ ('A' ≤ c ∧ c ≤ 'F'))) then
      underscoreOKLoop hex rest '0'
    else if c = '_' then
      if prev ≠ '0' then false else underscoreOKLoop hex rest '_'
    else if prev = '_' then false
    else underscoreOKLoop hex rest '!'

/-- `underscoreOK`: underscores only between digits or after a base prefix. -/
def underscoreOK (s : List Char) : Bool :=
  let s1 := match s with
    | '-' :: t => t
    | '+' :: t => t
    | _ => s
  match s1 with
  | '0' :: c :: t =>
    if c = 'b' ∨ c = 'B' ∨ c = 'o' ∨ c = 'O' then underscoreOKLoop false t '0'
    else if c = 'x' ∨ c = 'X' then underscoreOKLoop true t '0'
    else underscoreOKLoop false s1 '^'
  | _ => underscoreOKLoop false s1 '^'

/-- `strconv.ParseUint(s, base, 64)` for `base` 0 or 10: the value, or the kind
of failure. -/
def ParseUint (s : List Char) (base : Nat) : Except String Nat :=
  if s = [] then .error ErrSyntax
  else if base = 0 then
    let (b, digits) : Nat × List Char :=
      match s with
      | '0' :: c :: d :: t =>
        if c = 'b' ∨ c = 'B' then (2, d :: t)
        else if c = 'o' ∨ c = 'O' then (8, d :: t)
        else if c = 'x' ∨ c = 'X' then (16, d :: t)
        else (8, c :: d :: t)
      | '0' :: t => (8, t)
      | _ => (10, s)
    match parseUintLoop b true digits 0 with
    | .error e => .error e
    | .ok n => if s.contains '_' ∧ underscoreOK s = false then .error ErrSyntax else .ok n
  else parseUintLoop base false s 0

/-- `strconv.ParseInt(s, base, 64)` for `base` 0 or 10: an optional sign, the
unsigned value, and the range check of `int64`. The error is the message of
the `*NumError`. -/
def ParseInt (s : String) (base : Nat) : Except String Int :=
  if s.data = [] then .error (numError s ErrSyntax)
  else
    let (neg, rest) : Bool × List Char :=
      match s.data with
      | '+' :: t => (false, t)
      | '-' :: t => (true, t)
      | cs => (false, cs)
    match ParseUint rest base with
    | .error e => .error (numError s e)
    | .ok un =>
      if neg = false ∧ un ≥ 2 ^ 63 then .error (numError s ErrRange)
      else if neg = true ∧ un > 2 ^ 63 then .error (numError s ErrRange)
      else .ok (if neg then -(un : Int) else (un : Int))

/-! ## parser.go -/

def LOWEST : Nat := 1
def COND : Nat := 2
def ASSIGNS : Nat := 3
def EQUALS : Nat := 4
def LESSGREATER : Nat := 5
def SUM : Nat := 6
def PRODUCT : Nat := 7
def PREFIX : Nat := 8
def CALL : Nat := 9

/-- The map `precedences`. -/
def precedences (t : TokenType) : Option Nat :=
  if t = AND then some COND
  else if t = OR then some COND
  else if t = EQ then some EQUALS
  else if t = NOT_EQ then some EQUALS
  else if t = LT then some LESSGREATER
  else if t = LT_EQUAL then some LESSGREATER
  else if t = GT then some LESSGREATER
  else if t = GT_EQUAL then some LESSGREATER
  else if t = IN then some PRODUCT
  else if t = LPAREN then some CALL
  else none

/-- The handlers that `NewParser` registers with `registerPrefix`. -/
inductive PrefixParseFn where
  | parseIdentifier | parseInteger | parseString | parseBoolean | parseArray
  | presePrefixExpression | parseGroupedExpression
  deriving DecidableEq, Repr

/-- The handlers that `NewParser` registers with `registerInfix`. -/
inductive InfixParseFn where
  | parseInfixExpression | parseCallExpression
  deriving DecidableEq, Repr

/-- The map `prefixParseFns` as `NewParser` fills it. -/
def prefixParseFns (t : TokenType) : Option PrefixParseFn :=
  if t = IDENT then some .parseIdentifier
  else if t = INT then some .parseInteger
  else if t = STRING then some .parseString
  else if t = TRUE then some .parseBoolean
  else if t = FALSE then some .parseBoolean
  else if t = LBRACKET then some .parseArray
  else if t = BANG then some .presePrefixExpression
  else if t = LPAREN then some .parseGroupedExpression
  else none

/-- The map `infixParseFns` as `NewParser` fills it. -/
def infixParseFns (t : TokenType) : Option InfixParseFn :=
  if t = EQ ∨ t = NOT_EQ ∨ t = LT ∨ t = LT_EQUAL ∨ t = GT ∨ t = GT_EQUAL ∨ t = IN ∨
      t = AND ∨ t = OR then some .parseInfixExpression
  else if t = LPAREN then some .parseCallExpression
  else none

/-- The parser state: the lexer, the two tokens in view, the error list. The
two handler maps are the constants `prefixParseFns` and `infixParseFns`. -/
structure Parser where
  l : Lexer
  curToken : Token
  peekToken : Token
  errors : List String
  deriving Repr

namespace Parser

/-- `nextToken`: shift the peeked token in and read one more. -/
def nextToken (p : Parser) : Option Parser :=
  match p.l.NextToken with
  | none => none
  | some (tok, l1) => some { p with curToken := p.peekToken, peekToken := tok, l := l1 }

def curTokenIs (p : Parser) (t : TokenType) : Bool := p.curToken.Type_ == t

def peekTokenIs (p : Parser) (t : TokenType) : Bool := p.peekToken.Type_ == t

/-- `peekError`. -/
def peekError (p : Parser) (t : TokenType) : Parser :=
  { p with errors := p.errors ++
      ["expected next token to be " ++ t ++ ", got " ++ p.peekToken.Type_ ++ " instead"] }

/-- `expectPeek`: advance when the peeked token has type `t`, else record an error. -/
def expectPeek (p : Parser) (t : TokenType) : Option (Bool × Parser) :=
  if p.peekTokenIs t then
    match p.nextToken with
    | none => none
    | some p1 => some (true, p1)
  else some (false, p.peekError t)

/-- `noPrefixParseFnError`. -/
def noPrefixParseFnError (p : Parser) (t : TokenType) : Parser :=
  { p with errors := p.errors ++ ["no prefix parse function for " ++ t ++ " found"] }

def peekPrecedence (p : Parser) : Nat :=
  match precedences p.peekToken.Type_ with
  | some q => q
  | none => LOWEST

def curPrecedence (p : Parser) : Nat :=
  match precedences p.curToken.Type_ with
  | some q => q
  | none => LOWEST

def parseIdentifier (p : Parser) : Expression × Parser :=
  (.Identifier p.curToken.Literal, p)

/-- `parseInteger`: `strconv.ParseInt(literal, 0, 64)`, an error and `nil` when
it fails. -/
def parseInteger (p : Parser) : Expression × Parser :=
  match ParseInt p.curToken.Literal 0 with
  | .error _ =>
    (.nil, { p with errors := p.errors ++
      ["could not parse " ++ quote p.curToken.Literal ++ " as integer"] })
  | .ok value => (.Integer value, p)

def parseString (p : Parser) : Expression × Parser :=
  (.String p.curToken.Literal, p)

def parseBoolean (p : Parser) : Expression × Parser :=
  (.Boolean (p.curTokenIs TRUE), p)

/-- The loop of `parseArray` in the `STRING` case: the literal of every element
token is appended, whatever the token's type. -/
def parseArrayStringLoop : Nat → Parser → List String → Option (List String × Parser)
  | 0, _, _ => none
  | n + 1, p, value =>
    if p.peekTokenIs RBRACKET then some (value, p)
    else
      match p.nextToken with
      | none => none
      | some p1 =>
        let value1 := value ++ [p1.curToken.Literal]
        if p1.peekTokenIs COMMA then
          match p1.nextToken with
          | none => none
          | some p2 => parseArrayStringLoop n p2 value1
        else
          match p1.expectPeek RBRACKET with
          | none => none
          | some (_, p2) => some (value1, p2)

/-- The loop of `parseArray` in the `INT` case: the literal of every element
token goes through `strconv.ParseInt(literal, 10, 64)`; a failure records an
error and makes `parseArray` return `nil` (the result `none` in the first
component). -/
def parseArrayIntegerLoop : Nat → Parser → List Int → Option (Option (List Int) × Parser)
  | 0, _, _ => none
  | n + 1, p, value =>
    if p.peekTokenIs RBRACKET then some (some value, p)
    else
      match p.nextToken with
      | none => none
      | some p1 =>
        match ParseInt p1.curToken.Literal 10 with
        | .error e =>
          some (none, { p1 with errors := p1.errors ++
            ["the data type of the array is not a integer, err(" ++ e ++ ")"] })
        | .ok i =>
          let value1 := value ++ [i]
          if p1.peekTokenIs COMMA then
            match p1.nextToken with
            | none => none
            | some p2 => parseArrayIntegerLoop n p2 value1
          else
            match p1.expectPeek RBRACKET with
            | none => none
            | some (_, p2) => some (some value1, p2)

/-- `parseArray`: an empty array and an array that starts with neither a string
nor an integer token are errors; otherwise the first element's token type
selects the string loop or the integer loop. -/
def parseArray (n : Nat) (p : Parser) : Option (Expression × Parser) :=
  if p.peekTokenIs RBRACKET then
    match p.nextToken with
    | none => none
    | some p1 => some (.nil, { p1 with errors := p1.errors ++ ["empty array is not allowed"] })
  else if p.peekTokenIs STRING then
    match parseArrayStringLoop n p [] with
    | none => none
    | some (value, p1) => some (.ArrayString value, p1)
  else if p.peekTokenIs INT then
    match parseArrayIntegerLoop n p [] with
    | none => none
    | some (none, p1) => some (.nil, p1)
    | some (some value, p1) => some (.ArrayInteger value, p1)
  else some (.nil, { p with errors := p.errors ++ ["unknow array type"] })

mutual
/-- `parseExpression`: the prefix handler of the current token, then the loop
over the infix operators that bind tighter than `precedence`. -/
def parseExpression : Nat → Parser → Nat → Option (Expression × Parser)
  | 0, _, _ => none
  | n + 1, p, precedence =>
    match prefixParseFns p.curToken.Type_ with
    | none => some (.nil, p.noPrefixParseFnError p.curToken.Type_)
    | some fn =>
      let left : Option (Expression × Parser) :=
        match fn with
        | .parseIdentifier => some p.parseIdentifier
        | .parseInteger => some p.parseInteger
        | .parseString => some p.parseString
        | .parseBoolean => some p.parseBoolean
        | .parseArray => p.parseArray n
        | .presePrefixExpression => presePrefixExpression n p
        | .parseGroupedExpression => parseGroupedExpression n p
      match left with
      | none => none
      | some (leftExp, p1) => parseExpressionLoop n p1 precedence leftExp
/-- The loop of `parseExpression`:
`for !p.peekTokenIs(EOF) && precedence < p.peekPrecedence()`. -/
def parseExpressionLoop : Nat → Parser → Nat → Expression → Option (Expression × Parser)
  | 0, _, _, _ => none
  | n + 1, p, precedence, leftExp =>
    if !p.peekTokenIs EOF && decide (precedence < p.peekPrecedence) then
      match infixParseFns p.peekToken.Type_ with
      | none => some (leftExp, p)
      | some fn =>
        match p.nextToken with
        | none => none
        | some p1 =>
          let next : Option (Expression × Parser) :=
            match fn with
            | .parseInfixExpression => parseInfixExpression n p1 leftExp
            | .parseCallExpression => parseCallExpression n p1 leftExp
          match next with
          | none => none
          | some (leftExp1, p2) => parseExpressionLoop n p2 precedence leftExp1
    else some (leftExp, p)
/-- `presePrefixExpression`: the operator is the current literal, the operand
is parsed at `PREFIX`. -/
def presePrefixExpression : Nat → Parser → Option (Expression × Parser)
  | 0, _ => none
  | n + 1, p =>
    match p.nextToken with
    | none => none
    | some p1 =>
      match parseExpression n p1 PREFIX with
      | none => none
      | some (right, p2) => some (.PrefixExpresion p.curToken.Literal right, p2)
/-- `parseInfixExpression`: the operator is the current literal, the right
operand is parsed at the operator's own precedence. -/
def parseInfixExpression : Nat → Parser → Expression → Option (Expression × Parser)
  | 0, _, _ => none
  | n + 1, p, left =>
    match p.nextToken with
    | none => none
    | some p1 =>
      match parseExpression n p1 p.curPrecedence with
      | none => none
      | some (right, p2) => some (.InfixExpression left p.curToken.Literal right, p2)
/-- `parseGroupedExpression`: the expression between the parentheses, `nil`
when the closing one is missing. -/
def parseGroupedExpression : Nat → Parser → Option (Expression × Parser)
  | 0, _ => none
  | n + 1, p =>
    match p.nextToken with
    | none => none
    | some p1 =>
      match parseExpression n p1 LOWEST with
      | none => none
      | some (exp, p2) =>
        match p2.expectPeek RPAREN with
        | none => none
        | some (false, p3) => some (.nil, p3)
        | some (true, p3) => some (exp, p3)
/-- `parseCallExpression`. -/
def parseCallExpression : Nat → Parser → Expression → Option (Expression × Parser)
  | 0, _, _ => none
  | n + 1, p, function =>
    match parseCallArguments n p with
    | none => none
    | some (args, p1) => some (.CallExpression function args, p1)
/-- `parseCallArguments`: the comma-separated arguments up to the closing
parenthesis; the empty list when that parenthesis is missing. -/
def parseCallArguments : Nat → Parser → Option (List Expression × Parser)
  | 0, _ => none
  | n + 1, p =>
    if p.peekTokenIs RPAREN then
      match p.nextToken with
      | none => none
      | some p1 => some ([], p1)
    else
      match p.nextToken with
      | none => none
      | some p1 =>
        match parseExpression n p1 LOWEST with
        | none => none
        | some (arg, p2) =>
          match parseCallArgumentsLoop n p2 [arg] with
          | none => none
          | some (args, p3) =>
            match p3.expectPeek RPAREN with
            | none => none
            | some (false, p4) => some ([], p4)
            | some (true, p4) => some (args, p4)
/-- The loop `for p.peekTokenIs(COMMA)` of `parseCallArguments`. -/
def parseCallArgumentsLoop : Nat → Parser → List Expression → Option (List Expression × Parser)
  | 0, _, _ => none
  | n + 1, p, args =>
    if p.peekTokenIs COMMA then
      match p.nextToken with
      | none => none
      | some p1 =>
        match p1.nextToken with
        | none => none
        | some p2 =>
          match parseExpression n p2 LOWEST with
          | none => none
          | some (arg, p3) => parseCallArgumentsLoop n p3 (args ++ [arg])
    else some (args, p)
end

/-- The loop of `ParseProgram`: `for p.curToken.Type != EOF`; a parsed
expression that is not `nil` replaces the program's expression. -/
def parseProgramLoop : Nat → Parser → Program → Option (Program × Parser)
  | 0, _, _ => none
  | n + 1, p, program =>
    if p.curToken.Type_ ≠ EOF then
      match parseExpression n p LOWEST with
      | none => none
      | some (stmt, p1) =>
        let program1 : Program :=
          match stmt with
          | .nil => program
          | e => { Expression := e }
        match p1.nextToken with
        | none => none
        | some p2 => parseProgramLoop n p2 program1
    else some (program, p)

end Parser

/-! ## The runtime objects (ast.go, builtin.go) -/

/-- A non-nil value of the interface `Object`. `Integer`, `String`, `Boolean`,
`ArrayInteger`, `ArrayString` and `Identifier` are the node types that have an
`ObjectType` method; `Error` and `Builtin` are the two object-only types.
`boolTrue` and `boolFalse` are the two package-level `*Boolean` singletons,
`Boolean v` is any other `*Boolean`: the evaluator compares pointers in
`evalBangOperatorExpression`. A `*Builtin` is identified by the name it is
registered under; its function is held by the registry. -/
inductive Object where
  | Integer (Value : Int)
  | String (Value : String)
  | Boolean (Value : Bool)
  | boolTrue
  | boolFalse
  | ArrayInteger (Value : List Int)
  | ArrayString (Value : List String)
  | Identifier (Value : String)
  | Error (Message : String)
  | Builtin (Fn : String)
  deriving DecidableEq, Repr, Inhabited

/-- The method `ObjectType()`. -/
def Object.ObjectType : Object → ObjectType
  | .Integer _ => INTEGER_OBJ
  | .String _ => STRING_OBJ
  | .Boolean _ => BOOLEAN_OBJ
  | .boolTrue => BOOLEAN_OBJ
  | .boolFalse => BOOLEAN_OBJ
  | .ArrayInteger _ => ARRAY_INTEGER_OBJ
  | .ArrayString _ => ARRAY_STRING_OBJ
  | .Identifier _ => IDENT_OBJ
  | .Error _ => ERROR_OBJ
  | .Builtin _ => FUNCTION_OBJ

/-- `o.ObjectType()` on an interface value: a call on `nil` panics. -/
def objectTypeOf : Option Object → Except GoString ObjectType
  | none => .error nilDereference
  | some o => .ok o.ObjectType

/-- The field `Value` of a `*Boolean`, singleton or not. -/
def Object.boolValue : Object → Option Bool
  | .Boolean v => some v
  | .boolTrue => some true
  | .boolFalse => some false
  | _ => none

/-- The type `BuiltinFunction`: `func(args ...Object) Object`. -/
abbrev BuiltinFunction := List (Option Object) → Except GoString (Option Object)

/-- The type of the registry `builtins`: `map[string]*Builtin`. -/
abbrev BuiltinTable := GoString → Option BuiltinFunction

/-- `RegisterBuiltin`. -/
def RegisterBuiltin (table : BuiltinTable) (name : String) (fn : BuiltinFunction) :
    BuiltinTable :=
  fun key => if key = name then some fn else table key

/-- `newError` with its message already formatted. -/
def newError (message : String) : Option Object := some (.Error message)

/-- The function that `init` registers as `len`. -/
def lenBuiltin : BuiltinFunction := fun args =>
  match args with
  | [arg] =>
    match arg with
    | some (.String v) => .ok (some (.Integer v.length))
    | some (.ArrayString v) => .ok (some (.Integer v.length))
    | some (.ArrayInteger v) => .ok (some (.Integer v.length))
    | some o => .ok (newError ("argument to `len` not supported, got " ++ o.ObjectType))
    | none => .error nilDereference
  | _ => .ok (newError ("wrong number of argument. got=" ++ formatInt args.length ++ ", want=1"))

/-- The registry `builtins` after `init`. -/
def builtins : BuiltinTable := RegisterBuiltin (fun _ => none) "len" lenBuiltin

/-! ## environment.go -/

/-- The environment: the map `store` (a bound name holds an interface value,
possibly `nil`) and the key set of the map `readOnly`. -/
structure Environment where
  store : GoString → Option (Option Object)
  readOnly : GoString → Bool

/-- The end of the process by `os.Exit(code)`, with what was printed before. -/
structure Exit where
  code : Nat
  stdout : String
  deriving DecidableEq, Repr

/-- How a call of `Set` ends: it returns its value to the caller, leaving the
environment `env`, or the process ends inside the call. -/
inductive SetOutcome where
  | returned (val : Option Object) (env : Environment)
  | exited (exit : Exit)

def NewEnvironment : Environment :=
  { store := fun _ => none, readOnly := fun _ => false }

namespace Environment

/-- `Get`: the value and whether the name is bound. -/
def Get (env : Environment) (name : String) : Option Object × Bool :=
  match env.store name with
  | some obj => (obj, true)
  | none => (none, false)

/-- `Set`: on a read-only name print the refusal and call `os.Exit(3)`;
otherwise bind the name and return the value. -/
def Set (env : Environment) (name : String) (val : Option Object) : SetOutcome :=
  if env.readOnly name then
    .exited { code := 3,
              stdout := "Attempting to modify '" ++ name ++
                "' denied; it was defined as a constant.\n" }
  else
    .returned val { env with store := fun key => if key = name then some val else env.store key }

/-- `SetReadOnly`: bind the name, mark it read-only, return the value. -/
def SetReadOnly (env : Environment) (name : String) (val : Option Object) :
    Option Object × Environment :=
  (val, { store := fun key => if key = name then some val else env.store key,
          readOnly := fun key => if key = name then true else env.readOnly key })

end Environment

/-! ## semant.go -/

/-- The map `prefixProtos`. -/
def prefixProtos (op : TokenType) : Option (List ObjectType) :=
  if op = BANG then some [BOOLEAN_OBJ] else none

/-- The inner maps of `infixProtos`, as association lists. -/
def infixProtos (op : TokenType) : Option (List (ObjectType × ObjectType)) :=
  if op = GT ∨ op = GT_EQUAL ∨ op = LT ∨ op = LT_EQUAL then
    some [(INTEGER_OBJ, INTEGER_OBJ), (STRING_OBJ, STRING_OBJ)]
  else if op = EQ ∨ op = NOT_EQ then
    some [(INTEGER_OBJ, INTEGER_OBJ), (STRING_OBJ, STRING_OBJ), (BOOLEAN_OBJ, BOOLEAN_OBJ)]
  else if op = AND ∨ op = OR then some [(BOOLEAN_OBJ, BOOLEAN_OBJ)]
  else none

/-- The map `funcProtos`: for each function its overloads, each a pair of
argument types and return types. -/
def funcProtos (name : String) : Option (List (List ObjectType × List ObjectType)) :=
  if name = "len" then
    some [([STRING_OBJ], [INTEGER_OBJ]),
          ([ARRAY_STRING_OBJ], [INTEGER_OBJ]),
          ([ARRAY_INTEGER_OBJ], [INTEGER_OBJ])]
  else none

namespace Parser

/-- The state of the overload loop of `CheckType`: the parser and `returnType`. -/
abbrev Checked := Except GoString (ObjectType × Parser)

mutual
/-- `CheckType` on an expression node: the node's type, with the errors found
appended to the parser's list. A parser that already holds errors answers
`ERROR_OBJ` at once; a `nil` node matches no case and answers `ERROR_OBJ`
without an error. -/
def CheckType (p : Parser) : Expression → Checked
  | .nil => .ok (ERROR_OBJ, p)
  | .Integer _ => .ok (if p.errors.length ≠ 0 then ERROR_OBJ else INTEGER_OBJ, p)
  | .String _ => .ok (if p.errors.length ≠ 0 then ERROR_OBJ else STRING_OBJ, p)
  | .Boolean _ => .ok (if p.errors.length ≠ 0 then ERROR_OBJ else BOOLEAN_OBJ, p)
  | .Identifier _ => .ok (if p.errors.length ≠ 0 then ERROR_OBJ else IDENT_OBJ, p)
  | .ArrayString _ => .ok (if p.errors.length ≠ 0 then ERROR_OBJ else ARRAY_STRING_OBJ, p)
  | .ArrayInteger _ => .ok (if p.errors.length ≠ 0 then ERROR_OBJ else ARRAY_INTEGER_OBJ, p)
  | .PrefixExpresion op right =>
    if p.errors.length ≠ 0 then .ok (ERROR_OBJ, p)
    else
      match prefixProtos op with
      | none =>
        .ok (ERROR_OBJ, { p with errors := p.errors ++
          ["PrefixExpresion unknow operator(" ++ op ++ ")"] })
      | some expects =>
        match CheckType p right with
        | .error e => .error e
        | .ok (rightType, p1) =>
          if rightType = IDENT_OBJ then .ok (BOOLEAN_OBJ, p1)
          else if rightType ∈ expects then .ok (BOOLEAN_OBJ, p1)
          else .ok (ERROR_OBJ, p1)
  | .InfixExpression left op right =>
    if p.errors.length ≠ 0 then .ok (ERROR_OBJ, p)
    else
      match infixProtos op with
      | none =>
        .ok (ERROR_OBJ, { p with errors := p.errors ++
          ["InfixExpression unknow operator(" ++ op ++ ")"] })
      | some expects =>
        match CheckType p left with
        | .error e => .error e
        | .ok (leftType, p1) =>
          match CheckType p1 right with
          | .error e => .error e
          | .ok (rightType, p2) =>
            if leftType = IDENT_OBJ ∨ rightType = IDENT_OBJ then .ok (BOOLEAN_OBJ, p2)
            else
              match expects.lookup leftType with
              | none =>
                match (Expression.InfixExpression left op right).String_ with
                | .error e => .error e
                | .ok rendered =>
                  .ok (ERROR_OBJ, { p2 with errors := p2.errors ++
                    ["InfixExpression(" ++ rendered ++ ") unknow left type(" ++ leftType ++ ")"] })
              | some rightExpect =>
                if rightExpect ≠ rightType then
                  .ok (ERROR_OBJ, { p2 with errors := p2.errors ++
                    ["InfixExpression <exp>" ++ op ++ "<exp> right expect " ++ rightExpect ++
                      ", got " ++ rightType] })
                else .ok (BOOLEAN_OBJ, p2)
  | .CallExpression function args =>
    if p.errors.length ≠ 0 then .ok (ERROR_OBJ, p)
    else
      match function.String_ with
      | .error e => .error e
      | .ok name =>
        match funcProtos name with
        | none =>
          .ok (ERROR_OBJ, { p with errors := p.errors ++
            ["CallExpression unknow function(" ++ name ++ ")"] })
        | some expects =>
          match expects with
          | [] => .error indexOutOfRange
          | first :: _ =>
            if first.1.length ≠ args.length then
              .ok (ERROR_OBJ, { p with errors := p.errors ++
                ["CallExpression " ++ name ++ " args len error, expect " ++
                  formatInt expects.length ++ ", got " ++ formatInt args.length] })
            else
              expects.foldl
                (fun (state : Checked) expectArgs =>
                  match state with
                  | .error e => .error e
                  | .ok (returnType, p1) =>
                    if returnType ≠ ERROR_OBJ then .ok (returnType, p1)
                    else checkOverload p1 args expectArgs.1 expectArgs.2 returnType)
                (.ok (ERROR_OBJ, p))
/-- The inner loop of the `CallExpression` case, `for i, expectType := range
expectArgs[0]`, from position `i` on: `args` and `expectTypes` are the
arguments and the expected types from `i` on. A mismatch leaves the loop;
the last position sets `returnType` to `expectArgs[1][0]`. -/
def checkOverload (p : Parser) : List Expression → List ObjectType → List ObjectType →
    ObjectType → Checked
  | _, [], _, returnType => .ok (returnType, p)
  | [], _ :: _, _, _ => .error indexOutOfRange
  | arg :: args, expectType :: expectTypes, returns, returnType =>
    match CheckType p arg with
    | .error e => .error e
    | .ok (actual, p1) =>
      if expectType ≠ actual ∧ actual ≠ IDENT_OBJ then .ok (returnType, p1)
      else
        match expectTypes with
        | [] =>
          match returns with
          | [] => .error indexOutOfRange
          | r :: _ => .ok (r, p1)
        | _ :: _ => checkOverload p1 args expectTypes returns returnType
end

/-- `CheckType` on a `*Program` node. -/
def CheckTypeProgram (p : Parser) (program : Program) : Checked :=
  if p.errors.length ≠ 0 then .ok (ERROR_OBJ, p) else p.CheckType program.Expression

/-- The step budget of `ParseProgram`: every loop turn and every nested call
consumes a token, and there are no more tokens than bytes. -/
def budget (p : Parser) : Nat := 4 * p.l.input.length + 16

/-- `ParseProgram`: parse expressions until the current token is `EOF`, keep
the last one that is not `nil`, then run the type check. -/
def ParseProgram (p : Parser) : Option (Except GoString (Program × Parser)) :=
  match parseProgramLoop p.budget p { Expression := .nil } with
  | none => none
  | some (program, p1) =>
    match p1.CheckTypeProgram program with
    | .error e => some (.error e)
    | .ok (_, p2) => some (.ok (program, p2))

end Parser

/-- `NewParser`: an empty error list, then two `nextToken` calls that load
`curToken` and `peekToken`. -/
def NewParser (l : Lexer) : Option Parser :=
  let zero : Token := { Type_ := "", Literal := "" }
  let p : Parser := { l := l, curToken := zero, peekToken := zero, errors := [] }
  match p.nextToken with
  | none => none
  | some p1 => p1.nextToken

/-- The pipeline of the tests: `NewParser(NewLexer(input)).ParseProgram()`. -/
def parse (input : String) : Option (Except GoString (Program × Parser)) :=
  match NewParser (NewLexer input) with
  | none => none
  | some p => p.ParseProgram

/-! ## evaluator.go -/

/-- The wrap-around of `int64` arithmetic. -/
def wrapInt64 (x : Int) : Int := (x + 2 ^ 63) % 2 ^ 64 - 2 ^ 63

/-- The text of the panic raised by an integer division by zero. -/
def divideByZero : String := "runtime error: integer divide by zero"

/-- The text of the panic raised by a failed type assertion. -/
def interfaceConversion : String := "interface conversion: interface is not the asserted type"

/-- The scan of `fmt.Sprintf(format)` when no argument is given. `phase` is 0 in
plain text, 1 after `%` (flags), 2 in a width, 3 in a precision. Text outside
verbs is copied; `%%` gives `%`; a verb byte `v` finds no argument and gives
`%!v(MISSING)`; a format that ends inside a verb gives `%!(NOVERB)`. Flags,
width digits and precision digits are skipped (`*` and `[n]` are not
modelled). -/
def sprintfScan : Nat → List Char → List Char
  | 0, [] => []
  | _ + 1, [] => "%!(NOVERB)".data
  | 0, c :: rest => if c = '%' then sprintfScan 1 rest else c :: sprintfScan 0 rest
  | phase + 1, c :: rest =>
    if phase = 0 ∧ (c = '#' ∨ c = '0' ∨ c = '+' ∨ c = '-' ∨ c = ' ') then sprintfScan 1 rest
    else if phase ≤ 1 ∧ isDigit c = true then sprintfScan 2 rest
    else if phase ≤ 1 ∧ c = '.' then sprintfScan 3 rest
    else if phase = 2 ∧ isDigit c = true then sprintfScan 3 rest
    else if c = '%' then '%' :: sprintfScan 0 rest
    else "%!".data ++ [c] ++ "(MISSING)".data ++ sprintfScan 0 rest

/-- `fmt.Sprintf(format)` without arguments, as `newError` calls it when it is
given a message only. -/
def sprintfNoArgs (format : String) : String := String.mk (sprintfScan 0 format.data)

/-- `nativeBoolToBooleanObject`: one of the two singletons. -/
def nativeBoolToBooleanObject (input : Bool) : Object :=
  if input then .boolTrue else .boolFalse

/-- `isError`. -/
def isError (obj : Option Object) : Bool :=
  match obj with
  | some o => o.ObjectType == ERROR_OBJ
  | none => false

/-- `objectToNativeBoolean`: the truth value of an interface value; anything
that is not a `*Boolean`, `*String` or `*Integer`, `nil` included, is true. -/
def objectToNativeBoolean (o : Option Object) : Bool :=
  match o with
  | some (.Boolean v) => v
  | some .boolTrue => true
  | some .boolFalse => false
  | some (.String v) => v != ""
  | some (.Integer v) => if v = 0 then false else true
  | _ => true

/-- `evalIdentifier`: the environment first, then the registry, else an error. -/
def evalIdentifier (table : BuiltinTable) (name : String) (env : Environment) : Option Object :=
  match env.Get name with
  | (val, true) => val
  | (_, false) =>
    match table name with
    | some _ => some (.Builtin name)
    | none => newError (sprintfNoArgs ("identifier not found: " ++ name))

/-- `evalBangOperatorExpression`: a comparison of pointers with the singletons. -/
def evalBangOperatorExpression (right : Option Object) : Object :=
  match right with
  | some .boolTrue => .boolFalse
  | some .boolFalse => .boolTrue
  | _ => .boolFalse

/-- `evalPrefixOperatorExpression`. -/
def evalPrefixOperatorExpression (operator : TokenType) (right : Option Object) :
    Except GoString (Option Object) :=
  if operator = "!" then .ok (some (evalBangOperatorExpression right))
  else
    match objectTypeOf right with
    | .error e => .error e
    | .ok t => .ok (newError ("unknow operator:" ++ operator ++ t))

/-- `applyFunction`: call a `*Builtin`, anything else is "not a function". -/
def applyFunction (table : BuiltinTable) (fn : Option Object) (args : List (Option Object)) :
    Except GoString (Option Object) :=
  match fn with
  | some (.Builtin name) =>
    match table name with
    | some f => f args
    | none => .error nilDereference
  | _ =>
    match objectTypeOf fn with
    | .error e => .error e
    | .ok t => .ok (newError ("not a function: " ++ t))

/-- The message of the `default` cases of the infix evaluators. -/
def unknowOperator (left : ObjectType) (operator : String) (right : ObjectType) : Option Object :=
  newError ("unknow operator: " ++ left ++ " " ++ operator ++ " " ++ right)

/-- `evalIntegerInfixExpression`; the quotient by zero panics. -/
def evalIntegerInfixExpression (operator : TokenType) (left right : Object) :
    Except GoString (Option Object) :=
  match left, right with
  | .Integer leftVal, .Integer rightVal =>
    if operator = "+" then .ok (some (.Integer (wrapInt64 (leftVal + rightVal))))
    else if operator = "-" then .ok (some (.Integer (wrapInt64 (leftVal - rightVal))))
    else if operator = "*" then .ok (some (.Integer (wrapInt64 (leftVal * rightVal))))
    else if operator = "/" then
      if rightVal = 0 then .error divideByZero
      else .ok (some (.Integer (wrapInt64 (leftVal.tdiv rightVal))))
    else if operator = "<" then .ok (some (.Boolean (decide (leftVal < rightVal))))
    else if operator = ">" then .ok (some (.Boolean (decide (leftVal > rightVal))))
    else if operator = "==" then .ok (some (.Boolean (decide (leftVal = rightVal))))
    else if operator = "!=" then .ok (some (.Boolean (decide (leftVal ≠ rightVal))))
    else .ok (unknowOperator left.ObjectType operator right.ObjectType)
  | _, _ => .error interfaceConversion

/-- `evalStringInfixExpression`; `<` and `>` compare the lengths. -/
def evalStringInfixExpression (operator : TokenType) (left right : Object) :
    Except GoString (Option Object) :=
  match left, right with
  | .String leftVal, .String rightVal =>
    if operator = "+" then .ok (some (.String (leftVal ++ rightVal)))
    else if operator = "<" then .ok (some (.Boolean (decide (leftVal.length < rightVal.length))))
    else if operator = ">" then .ok (some (.Boolean (decide (leftVal.length > rightVal.length))))
    else if operator = "==" then .ok (some (.Boolean (decide (leftVal = rightVal))))
    else if operator = "!=" then .ok (some (.Boolean (decide (leftVal ≠ rightVal))))
    else .ok (unknowOperator left.ObjectType operator right.ObjectType)
  | _, _ => .error interfaceConversion

/-- `evalINInfixExpress`: membership of an integer in an integer array or of a
string in a string array, as a fresh `*Boolean`. -/
def evalINInfixExpress (left right : Option Object) : Except GoString (Option Object) :=
  match left, right with
  | none, _ => .error nilDereference
  | some l, right =>
    if l.ObjectType = INTEGER_OBJ then
      match right with
      | none => .error nilDereference
      | some r =>
        if r.ObjectType = ARRAY_INTEGER_OBJ then
          match l, r with
          | .Integer leftVal, .ArrayInteger rightVal => .ok (some (.Boolean (rightVal.contains leftVal)))
          | _, _ => .error interfaceConversion
        else .ok (unknowOperator l.ObjectType "IN" r.ObjectType)
    else if l.ObjectType = STRING_OBJ then
      match right with
      | none => .error nilDereference
      | some r =>
        if r.ObjectType = ARRAY_STRING_OBJ then
          match l, r with
          | .String leftVal, .ArrayString rightVal => .ok (some (.Boolean (rightVal.contains leftVal)))
          | _, _ => .error interfaceConversion
        else .ok (unknowOperator l.ObjectType "IN" r.ObjectType)
    else
      match right with
      | none => .error nilDereference
      | some r => .ok (unknowOperator l.ObjectType "IN" r.ObjectType)

/-- `evalInfixExpression`: two integers, two strings, then `&&`, `||`, `in` on
whatever is left. -/
def evalInfixExpression (operator : TokenType) (left right : Option Object) :
    Except GoString (Option Object) :=
  match left with
  | none => .error nilDereference
  | some l =>
    let both (t : ObjectType) : Except GoString Bool :=
      if l.ObjectType = t then
        match right with
        | none => .error nilDereference
        | some r => .ok (r.ObjectType == t)
      else .ok false
    match both INTEGER_OBJ, right with
    | .error e, _ => .error e
    | .ok true, some r => evalIntegerInfixExpression operator l r
    | .ok true, none => .error nilDereference
    | .ok false, _ =>
      match both STRING_OBJ, right with
      | .error e, _ => .error e
      | .ok true, some r => evalStringInfixExpression operator l r
      | .ok true, none => .error nilDereference
      | .ok false, _ =>
        if operator = AND then
          .ok (some (nativeBoolToBooleanObject
            (objectToNativeBoolean left && objectToNativeBoolean right)))
        else if operator = OR then
          .ok (some (nativeBoolToBooleanObject
            (objectToNativeBoolean left || objectToNativeBoolean right)))
        else if operator = IN then evalINInfixExpress left right
        else
          match right with
          | none => .error nilDereference
          | some r => .ok (unknowOperator l.ObjectType operator r.ObjectType)

mutual
/-- `Eval` on an expression node. A `nil` node matches no case of the type
switch and evaluates to `nil`. -/
def Eval (table : BuiltinTable) (env : Environment) : Expression → Except GoString (Option Object)
  | .nil => .ok none
  | .Integer v => .ok (some (.Integer v))
  | .String v => .ok (some (.String v))
  | .ArrayString v => .ok (some (.ArrayString v))
  | .ArrayInteger v => .ok (some (.ArrayInteger v))
  | .Boolean v => .ok (some (nativeBoolToBooleanObject v))
  | .Identifier name => .ok (evalIdentifier table name env)
  | .CallExpression function arguments =>
    match Eval table env function with
    | .error e => .error e
    | .ok fn =>
      if isError fn then .ok fn
      else
        match evalExpressions table env arguments [] with
        | .error e => .error e
        | .ok args =>
          match args with
          | [arg] => if isError arg then .ok arg else applyFunction table fn args
          | _ => applyFunction table fn args
  | .PrefixExpresion operator right =>
    match Eval table env right with
    | .error e => .error e
    | .ok r => if isError r then .ok r else evalPrefixOperatorExpression operator r
  | .InfixExpression left operator right =>
    match Eval table env left with
    | .error e => .error e
    | .ok l =>
      if isError l then .ok l
      else
        match Eval table env right with
        | .error e => .error e
        | .ok r => if isError r then .ok r else evalInfixExpression operator l r
/-- `evalExpressions`: the values of the expressions in order, appended to
`result`; the first error value replaces the whole list. -/
def evalExpressions (table : BuiltinTable) (env : Environment) :
    List Expression → List (Option Object) → Except GoString (List (Option Object))
  | [], result => .ok result
  | e :: rest, result =>
    match Eval table env e with
    | .error err => .error err
    | .ok evaluated =>
      if isError evaluated then .ok [evaluated]
      else evalExpressions table env rest (result ++ [evaluated])
end

/-- `evalProgram`, which is `Eval` on a `*Program` node. -/
def evalProgram (table : BuiltinTable) (program : Program) (env : Environment) :
    Except GoString (Option Object) :=
  Eval table env program.Expression

/-! ## Auxiliary definitions for the statements -/

/-- The environment that `TestEval` builds: `abc` bound to an integer array
and `S` bound to an integer, by two calls of `Set` on a new environment. -/
def testEnvironment (xs : List Int) (s : Int) : Option Environment :=
  match NewEnvironment.Set "abc" (some (.ArrayInteger xs)) with
  | .exited _ => none
  | .returned _ env1 =>
    match env1.Set "S" (some (.Integer s)) with
    | .exited _ => none
    | .returned _ env2 => some env2

/-- The input of `TestEval`. -/
def testInput : String := "len(abc) > 1 && S == 123"

/-- The tree of `testInput`. -/
def testProgram : Program :=
  { Expression := .InfixExpression
      (.InfixExpression (.CallExpression (.Identifier "len") [.Identifier "abc"]) ">" (.Integer 1))
      "&&" (.InfixExpression (.Identifier "S") "==" (.Integer 123)) }

/-- The parser state in which `ParseProgram` ends on `testInput`. -/
def testParser : Parser :=
  { l := { input := testInput, position := 26, readPosition := 27, ch := '\x00' },
    curToken := { Type_ := EOF, Literal := "" },
    peekToken := { Type_ := EOF, Literal := "" },
    errors := [] }

/-- The truthiness rule in the words of the specification: a Boolean gives its
value, a String is true iff it is not empty, an Integer is true iff it is not
zero, every other kind is true. -/
def truthy : Object → Bool
  | .Boolean v => v
  | .boolTrue => true
  | .boolFalse => false
  | .String v => decide (v ≠ "")
  | .Integer v => decide (v ≠ 0)
  | _ => true

/-- The error list with which the pipeline ends on `input`. -/
def parseErrors (input : String) : Option (Except GoString (List String)) :=
  match parse input with
  | none => none
  | some (.error e) => some (.error e)
  | some (.ok (_, p)) => some (.ok p.errors)

/-- The expression of the program that the pipeline returns on `input`. -/
def parseExpressionOf (input : String) : Option (Except GoString Expression) :=
  match parse input with
  | none => none
  | some (.error e) => some (.error e)
  | some (.ok (program, _)) => some (.ok program.Expression)

/-- The state of the lexer after `k` calls of `NextToken`. -/
def Lexer.afterCalls : Nat → Lexer → Option Lexer
  | 0, l => some l
  | k + 1, l =>
    match l.NextToken with
    | none => none
    | some (_, l1) => Lexer.afterCalls k l1

/-- A scan whose token, when its type is `IDENT`, has a literal that is neither
reserved nor a keyword. -/
def Lexer.IdentSound (r : Option (Token × Lexer)) : Prop :=
  ∀ tok l1, r = some (tok, l1) → tok.Type_ = IDENT →
    tok.Literal ∉ reserved ∧ keywords tok.Literal = none

/-- The pipeline followed by `Eval(program, env)` with the registry `builtins`. -/
def evalText (input : String) (env : Environment) : Option (Except GoString (Option Object)) :=
  match parse input with
  | none => none
  | some (.error e) => some (.error e)
  | some (.ok (program, _)) => some (evalProgram builtins program env)

/-- The infix operators of the precedence claim: `&&`, `||`, `==`, `!=`, `<`,
`<=`, `>`, `>=`, `in`. -/
def groupingOperators : List TokenType := [AND, OR, EQ, NOT_EQ, LT, LT_EQUAL, GT, GT_EQUAL, IN]

/-- The order of the specification on those operators:
`(&&, ||) < (==, !=) < (<, <=, >, >=) < in`. -/
def specLevel (op : TokenType) : Nat :=
  if op = AND ∨ op = OR then 1
  else if op = EQ ∨ op = NOT_EQ then 2
  else if op = LT ∨ op = LT_EQUAL ∨ op = GT ∨ op = GT_EQUAL then 3
  else if op = IN then 4
  else 0

/-- The tree that the specification gives to `a op1 b op2 c`. -/
def grouped (op1 op2 : TokenType) (a b c : Expression) : Expression :=
  if specLevel op1 < specLevel op2 then .InfixExpression a op1 (.InfixExpression b op2 c)
  else .InfixExpression (.InfixExpression a op1 b) op2 c

/-- A simple operand: a token that is an expression by itself (an identifier,
an integer that `strconv.ParseInt` accepts, a string, `true`, `false`), with the
node that its prefix handler returns. -/
def simpleOperand (tok : Token) : Option Expression :=
  if tok.Type_ = IDENT then some (.Identifier tok.Literal)
  else if tok.Type_ = INT then
    match ParseInt tok.Literal 0 with
    | .ok value => some (.Integer value)
    | .error _ => none
  else if tok.Type_ = STRING then some (.String tok.Literal)
  else if tok.Type_ = TRUE then some (.Boolean true)
  else if tok.Type_ = FALSE then some (.Boolean false)
  else none

/-- The value of `peekPrecedence` and `curPrecedence` on a token of type `t`. -/
def precedenceOf (t : TokenType) : Nat :=
  match precedences t with
  | some q => q
  | none => LOWEST

/-- An expression that `parseExpression` returned as a node: not `nil`. -/
def Expression.isPresent : Expression → Bool
  | .nil => false
  | _ => true

/-- The top-level expressions of the input in order: what the successive calls
`parseExpression(LOWEST)` of the loop of `ParseProgram` return, `nil` for a
call that failed, with the parser in which the loop ends. -/
def Parser.topLevel : Nat → Parser → Option (List Expression × Parser)
  | 0, _ => none
  | n + 1, p =>
    if p.curToken.Type_ ≠ EOF then
      match Parser.parseExpression n p LOWEST with
      | none => none
      | some (stmt, p1) =>
        match p1.nextToken with
        | none => none
        | some p2 =>
          match Parser.topLevel n p2 with
          | none => none
          | some (rest, p3) => some (stmt :: rest, p3)
    else some ([], p)

/-- The top-level expressions of `input`. -/
def topLevelOf (input : String) : Option (List Expression) :=
  match NewParser (NewLexer input) with
  | none => none
  | some p =>
    match p.topLevel p.budget with
    | none => none
    | some (stmts, _) => some stmts

/-- The last expression of `stmts` that is present, `dflt` when there is none. -/
def lastPresent (stmts : List Expression) (dflt : Expression) : Expression :=
  (stmts.reverse.find? Expression.isPresent).getD dflt

mutual
/-- A tree with no missing sub-expression: no `nil` at any position. -/
def Expression.complete : Expression → Bool
  | .nil => false
  | .Identifier _ => true
  | .Integer _ => true
  | .Boolean _ => true
  | .String _ => true
  | .ArrayInteger _ => true
  | .ArrayString _ => true
  | .CallExpression function arguments =>
    Expression.complete function && Expression.completeList arguments
  | .PrefixExpresion _ right => Expression.complete right
  | .InfixExpression left _ right => Expression.complete left && Expression.complete right
/-- A list of trees with no missing sub-expression. -/
def Expression.completeList : List Expression → Bool
  | [] => true
  | e :: rest => Expression.complete e && Expression.completeList rest
end

/-- A parsing step from `p` whose result is worth its error list: when the
list is empty afterwards it was empty before and the tree is complete. -/
def Parser.Sound (p : Parser) (r : Option (Expression × Parser)) : Prop :=
  ∀ e p1, r = some (e, p1) → p1.errors = [] → p.errors = [] ∧ e.complete = true

/-- The same for a step that extends the tree `left`. -/
def Parser.SoundFrom (p : Parser) (left : Expression) (r : Option (Expression × Parser)) :
    Prop :=
  ∀ e p1, r = some (e, p1) → p1.errors = [] →
    p.errors = [] ∧ (left.complete = true → e.complete = true)

/-- The same for a step that returns a list of arguments. -/
def Parser.SoundArgs (p : Parser) (r : Option (List Expression × Parser)) : Prop :=
  ∀ args p1, r = some (args, p1) → p1.errors = [] →
    p.errors = [] ∧ Expression.completeList args = true

/-- The same for a step that extends the list `args0`. -/
def Parser.SoundArgsFrom (p : Parser) (args0 : List Expression)
    (r : Option (List Expression × Parser)) : Prop :=
  ∀ args p1, r = some (args, p1) → p1.errors = [] →
    p.errors = [] ∧ (Expression.completeList args0 = true → Expression.completeList args = true)

open Parser in
/-- The parsing functions with budget `n` are sound in that sense. -/
def Parser.SoundAt (n : Nat) : Prop :=
  (∀ p prec, Sound p (parseExpression n p prec)) ∧
  (∀ p prec left, SoundFrom p left (parseExpressionLoop n p prec left)) ∧
  (∀ p, Sound p (presePrefixExpression n p)) ∧
  (∀ p left, SoundFrom p left (parseInfixExpression n p left)) ∧
  (∀ p, Sound p (parseGroupedExpression n p)) ∧
  (∀ p f, SoundFrom p f (parseCallExpression n p f)) ∧
  (∀ p, SoundArgs p (parseCallArguments n p)) ∧
  (∀ p args, SoundArgsFrom p args (parseCallArgumentsLoop n p args))

mutual
/-- A tree as the checker leaves it when it reports nothing: every infix
operator has an entry in `infixProtos`, every callee renders as a name that has
an entry in `funcProtos`. -/
def Expression.checked : Expression → Bool
  | .nil => true
  | .Identifier _ => true
  | .Integer _ => true
  | .Boolean _ => true
  | .String _ => true
  | .ArrayInteger _ => true
  | .ArrayString _ => true
  | .CallExpression function arguments =>
    (match function.String_ with
     | .ok name => (funcProtos name).isSome
     | .error _ => false) && Expression.checkedList arguments
  | .PrefixExpresion _ right => Expression.checked right
  | .InfixExpression left op right =>
    (infixProtos op).isSome && Expression.checked left && Expression.checked right
/-- The same for a list of trees. -/
def Expression.checkedList : List Expression → Bool
  | [] => true
  | e :: rest => Expression.checked e && Expression.checkedList rest
end

/-- An object that can be applied when it is a `*Builtin`: its function is in
the registry `builtins`. -/
def Object.plain : Object → Bool
  | .Builtin fn => (builtins fn).isSome
  | _ => true

/-- An environment whose bindings are objects (not `nil`), each of them plain. -/
def Environment.plain (env : Environment) : Prop :=
  ∀ name obj, env.store name = some obj → ∃ o, obj = some o ∧ o.plain = true

/-- The number of bytes of the UTF-8 sequence that starts with the byte `b` and
goes on with the bytes `rest`, as `utf8.RuneCountInString` steps over it: 1 for
an ASCII byte, 2 to 4 for a well-formed sequence, and 1 for a byte that starts
no well-formed sequence. -/
def utf8Size (b : Nat) (rest : List Nat) : Nat :=
  if b < 0x80 then 1
  else if 0xC2 ≤ b ∧ b ≤ 0xDF then
    match rest with
    | x :: _ => if 0x80 ≤ x ∧ x ≤ 0xBF then 2 else 1
    | _ => 1
  else if 0xE0 ≤ b ∧ b ≤ 0xEF then
    match rest with
    | x :: y :: _ =>
      if (if b = 0xE0 then 0xA0 else 0x80) ≤ x ∧ x ≤ (if b = 0xED then 0x9F else 0xBF) ∧
          0x80 ≤ y ∧ y ≤ 0xBF then 3
      else 1
    | _ => 1
  else if 0xF0 ≤ b ∧ b ≤ 0xF4 then
    match rest with
    | x :: y :: z :: _ =>
      if (if b = 0xF0 then 0x90 else 0x80) ≤ x ∧ x ≤ (if b = 0xF4 then 0x8F else 0xBF) ∧
          0x80 ≤ y ∧ y ≤ 0xBF ∧ 0x80 ≤ z ∧ z ≤ 0xBF then 4
      else 1
    | _ => 1
  else 1

/-- The loop of `utf8.RuneCountInString` over the bytes that are left, `skip`
of which belong to the character counted last. -/
def characterCountFrom : Nat → List Nat → Nat
  | _, [] => 0
  | skip + 1, _ :: rest => characterCountFrom skip rest
  | 0, b :: rest => 1 + characterCountFrom (utf8Size b rest - 1) rest

/-- The character count of a string in the words of the specification: the
number of characters that the bytes of the string encode in UTF-8
(`utf8.RuneCountInString`). A string of the embedding holds one `Char` per
byte of the Go string. -/
def characterCount (s : String) : Nat := characterCountFrom 0 (s.data.map Char.toNat)

/-! ## Measures and invariants for the budgets -/

/-- The lexer invariant that `readChar` establishes: `readPosition` is one past
`position`, and `ch` is the zero byte once `position` is at the end. -/
def Lexer.WF (l : Lexer) : Prop :=
  l.readPosition = l.position + 1 ∧ (l.input.length ≤ l.position → l.ch = '\x00')

/-- The number of bytes from `position` to the end of the input. -/
def Lexer.rem (l : Lexer) : Nat := l.input.length - l.position

/-- What a scan does to the lexer `l`: the invariant is kept, no byte comes
back, and every token but `EOF` consumes at least one byte. -/
def Lexer.Scanned (l : Lexer) (r : Option (Token × Lexer)) : Prop :=
  ∀ tok l1, r = some (tok, l1) →
    l1.WF ∧ l1.rem ≤ l.rem ∧ (tok.Type_ ≠ EOF → l1.rem + 1 ≤ l.rem)

/-- The tokens that are still to come: the bytes the lexer has not consumed,
and the peeked token unless it is `EOF`. -/
def Parser.ahead (p : Parser) : Nat :=
  p.l.rem + (if p.peekToken.Type_ = EOF then 0 else 1)

/-- A parsing step from `p` that ends: it has a result, keeps the lexer
invariant and gives no token back. -/
def Parser.Good {α : Type} (p : Parser) (r : Option (α × Parser)) : Prop :=
  ∃ a p1, r = some (a, p1) ∧ p1.l.WF ∧ p1.ahead ≤ p.ahead

open Parser in
/-- The parsing functions end with a result when their budget `n` is large
enough for the tokens that are still to come. -/
def Parser.TotalAt (n : Nat) : Prop :=
  (∀ p prec, p.l.WF → 2 * p.ahead + 4 ≤ n → Good p (parseExpression n p prec)) ∧
  (∀ p prec left, p.l.WF → 2 * p.ahead + 3 ≤ n → Good p (parseExpressionLoop n p prec left)) ∧
  (∀ p, p.l.WF → 2 * p.ahead + 3 ≤ n → Good p (presePrefixExpression n p)) ∧
  (∀ p left, p.l.WF → 2 * p.ahead + 3 ≤ n → Good p (parseInfixExpression n p left)) ∧
  (∀ p, p.l.WF → 2 * p.ahead + 3 ≤ n → Good p (parseGroupedExpression n p)) ∧
  (∀ p f, p.l.WF → 2 * p.ahead + 4 ≤ n → Good p (parseCallExpression n p f)) ∧
  (∀ p, p.l.WF → 2 * p.ahead + 3 ≤ n → Good p (parseCallArguments n p)) ∧
  (∀ p args, p.l.WF → 2 * p.ahead + 2 ≤ n → Good p (parseCallArgumentsLoop n p args))

/-! ## Decidable equality of the data, for evaluation on concrete inputs -/

mutual
theorem Expression.eq_of_beq : ∀ (a b : Expression), Expression.beq a b = true → a = b
  | .nil, b, h => by cases b <;> simp_all [Expression.beq]
  | .Identifier _, b, h => by cases b <;> simp_all [Expression.beq]
  | .Integer _, b, h => by cases b <;> simp_all [Expression.beq]
  | .Boolean _, b, h => by cases b <;> simp_all [Expression.beq]
  | .String _, b, h => by cases b <;> simp_all [Expression.beq]
  | .ArrayInteger _, b, h => by cases b <;> simp_all [Expression.beq]
  | .ArrayString _, b, h => by cases b <;> simp_all [Expression.beq]
  | .CallExpression f as, b, h => by
    cases b <;> simp [Expression.beq] at h
    rename_i g bs
    rw [Expression.eq_of_beq f g h.1, Expression.eq_of_beqList as bs h.2]
  | .PrefixExpresion o a, b, h => by
    cases b <;> simp [Expression.beq] at h
    rename_i q c
    rw [h.1, Expression.eq_of_beq a c h.2]
  | .InfixExpression l o r, b, h => by
    cases b <;> simp [Expression.beq] at h
    rename_i m q s
    rw [Expression.eq_of_beq l m h.1.1, h.1.2, Expression.eq_of_beq r s h.2]
theorem Expression.eq_of_beqList :
    ∀ (as bs : List Expression), Expression.beqList as bs = true → as = bs
  | [], bs, h => by cases bs <;> simp_all [Expression.beqList]
  | a :: as, bs, h => by
    cases bs <;> simp [Expression.beqList] at h
    rename_i b bs
    rw [Expression.eq_of_beq a b h.1, Expression.eq_of_beqList as bs h.2]
end

mutual
theorem Expression.beq_self : ∀ (a : Expression), Expression.beq a a = true
  | .nil => by simp [Expression.beq]
  | .Identifier _ => by simp [Expression.beq]
  | .Integer _ => by simp [Expression.beq]
  | .Boolean _ => by simp [Expression.beq]
  | .String _ => by simp [Expression.beq]
  | .ArrayInteger _ => by simp [Expression.beq]
  | .ArrayString _ => by simp [Expression.beq]
  | .CallExpression f as => by
    simp [Expression.beq, Expression.beq_self f, Expression.beqList_self as]
  | .PrefixExpresion _ a => by simp [Expression.beq, Expression.beq_self a]
  | .InfixExpression l _ r => by simp [Expression.beq, Expression.beq_self l, Expression.beq_self r]
theorem Expression.beqList_self : ∀ (as : List Expression), Expression.beqList as as = true
  | [] => by simp [Expression.beqList]
  | a :: as => by simp [Expression.beqList, Expression.beq_self a, Expression.beqList_self as]
end

instance : DecidableEq Expression := fun a b =>
  if h : Expression.beq a b = true then isTrue (Expression.eq_of_beq a b h)
  else isFalse (fun e => h (e ▸ Expression.beq_self a))

deriving instance DecidableEq for Program

deriving instance DecidableEq for Parser

deriving instance DecidableEq for Except

/-! ## The budgets are never used up -/

theorem Lexer.readChar_ch_of_end (l : Lexer) (h : l.input.length ≤ l.readPosition) :
    l.readChar.ch = '\x00' := by
  simp [Lexer.readChar, h]

theorem Lexer.advanceWhile_isSome (cond : Char → Bool) (h0 : cond '\x00' = false) :
    ∀ (n : Nat) (l : Lexer), l.input.length - l.readPosition + 2 ≤ n →
      (Lexer.advanceWhile cond n l).isSome = true := by
  intro n
  induction n with
  | zero => intro l h; omega
  | succ n ih =>
    intro l h
    unfold Lexer.advanceWhile
    by_cases hc : cond l.ch = true
    · rw [if_pos hc]
      by_cases hend : l.input.length ≤ l.readPosition
      · have hz := Lexer.readChar_ch_of_end l hend
        cases n with
        | zero => omega
        | succ m =>
          unfold Lexer.advanceWhile
          rw [hz, h0]
          simp
      · apply ih
        simp only [Lexer.readChar]
        omega
    · rw [if_neg hc]
      rfl

theorem Lexer.readStringLoop_isSome :
    ∀ (n : Nat) (l : Lexer), l.input.length - l.readPosition + 2 ≤ n →
      (Lexer.readStringLoop n l).isSome = true := by
  intro n
  induction n with
  | zero => intro l h; omega
  | succ n ih =>
    intro l h
    unfold Lexer.readStringLoop
    by_cases hend : l.input.length ≤ l.readPosition
    · have hz := Lexer.readChar_ch_of_end l hend
      simp [hz]
    · by_cases hs : l.readChar.ch = '"' ∨ l.readChar.ch = '\x00'
      · simp [hs]
      · simp only [hs, if_false]
        apply ih
        simp only [Lexer.readChar]
        omega

theorem isSome_ite {α : Type} {c : Prop} [Decidable c] {a b : Option α}
    (ha : a.isSome = true) (hb : b.isSome = true) : (if c then a else b).isSome = true := by
  split <;> assumption

theorem Lexer.scanToken_isSome (l : Lexer) : l.scanToken.isSome = true := by
  have hid := Lexer.advanceWhile_isSome isLetter (by decide) l.budget l (le_refl _)
  have hnum := Lexer.advanceWhile_isSome isDigit (by decide) l.budget l (le_refl _)
  have hstr := Lexer.readStringLoop_isSome l.budget l (le_refl _)
  obtain ⟨l2, h1⟩ := Option.isSome_iff_exists.mp hid
  obtain ⟨l3, h2⟩ := Option.isSome_iff_exists.mp hnum
  obtain ⟨l4, h3⟩ := Option.isSome_iff_exists.mp hstr
  unfold Lexer.scanToken Lexer.readString Lexer.readIdentifier Lexer.readNumber
  rw [h1, h2, h3]
  dsimp only
  repeat' (first | rfl | apply isSome_ite)

/-- `NextToken` returns a token in every lexer state. -/
theorem Lexer.NextToken_isSome (l : Lexer) : l.NextToken.isSome = true := by
  have hws := Lexer.advanceWhile_isSome isWhitespace (by decide) l.budget l (le_refl _)
  obtain ⟨l1, hl⟩ := Option.isSome_iff_exists.mp hws
  unfold Lexer.NextToken Lexer.skipWhitespace
  rw [hl]
  exact Lexer.scanToken_isSome l1

theorem Lexer.WF_readChar (l : Lexer) : l.readChar.WF := by
  refine ⟨rfl, ?_⟩
  intro h
  simp only [Lexer.readChar] at h ⊢
  simp [h]

theorem Lexer.rem_readChar (l : Lexer) (h : l.WF) : l.readChar.rem ≤ l.rem := by
  simp only [Lexer.rem, Lexer.readChar, h.1]
  omega

theorem Lexer.rem_readChar_lt (l : Lexer) (h : l.WF) (hc : l.ch ≠ '\x00') :
    l.readChar.rem + 1 ≤ l.rem := by
  have hp : l.position < l.input.length := by
    by_contra hn
    exact hc (h.2 (by omega))
  simp only [Lexer.rem, Lexer.readChar, h.1]
  omega

theorem Lexer.advanceWhile_rem (cond : Char → Bool) :
    ∀ (n : Nat) (l l1 : Lexer), l.WF → Lexer.advanceWhile cond n l = some l1 →
      l1.WF ∧ l1.rem ≤ l.rem := by
  intro n
  induction n with
  | zero => intro l l1 _ h; simp [Lexer.advanceWhile] at h
  | succ n ih =>
    intro l l1 hw h
    unfold Lexer.advanceWhile at h
    by_cases hc : cond l.ch = true
    · rw [if_pos hc] at h
      have := ih l.readChar l1 (Lexer.WF_readChar l) h
      exact ⟨this.1, le_trans this.2 (Lexer.rem_readChar l hw)⟩
    · rw [if_neg hc] at h
      cases h
      exact ⟨hw, le_refl _⟩

theorem Lexer.advanceWhile_rem_lt (cond : Char → Bool) (h0 : cond '\x00' = false)
    (n : Nat) (l l1 : Lexer) (hw : l.WF) (hc : cond l.ch = true)
    (h : Lexer.advanceWhile cond n l = some l1) : l1.WF ∧ l1.rem + 1 ≤ l.rem := by
  cases n with
  | zero => simp [Lexer.advanceWhile] at h
  | succ n =>
    unfold Lexer.advanceWhile at h
    rw [if_pos hc] at h
    have := Lexer.advanceWhile_rem cond n l.readChar l1 (Lexer.WF_readChar l) h
    have hz : l.ch ≠ '\x00' := by
      intro e
      rw [e, h0] at hc
      exact absurd hc (by simp)
    have := Lexer.rem_readChar_lt l hw hz
    exact ⟨by tauto, by omega⟩

theorem Lexer.readStringLoop_rem :
    ∀ (n : Nat) (l l1 : Lexer), l.WF → Lexer.readStringLoop n l = some l1 →
      l1.WF ∧ l1.rem ≤ l.readChar.rem := by
  intro n
  induction n with
  | zero => intro l l1 _ h; simp [Lexer.readStringLoop] at h
  | succ n ih =>
    intro l l1 hw h
    unfold Lexer.readStringLoop at h
    by_cases hs : l.readChar.ch = '"' ∨ l.readChar.ch = '\x00'
    · simp only [hs, if_true] at h
      cases h
      exact ⟨Lexer.WF_readChar l, le_refl _⟩
    · simp only [hs, if_false] at h
      have := ih l.readChar l1 (Lexer.WF_readChar l) h
      exact ⟨this.1, le_trans this.2 (Lexer.rem_readChar _ (Lexer.WF_readChar l))⟩

theorem Lexer.twoByte_rem (l : Lexer) (second : Char) (ty : TokenType) (lit : String)
    (orElse : Token) (hw : l.WF) (hc : l.ch ≠ '\x00') :
    (l.twoByte second ty lit orElse).2.WF ∧ (l.twoByte second ty lit orElse).2.rem + 1 ≤ l.rem := by
  have h1 := Lexer.rem_readChar_lt l hw hc
  have h2 := Lexer.rem_readChar l.readChar (Lexer.WF_readChar l)
  unfold Lexer.twoByte
  split
  · exact ⟨Lexer.WF_readChar _, by simp only; omega⟩
  · exact ⟨Lexer.WF_readChar _, by simp only; omega⟩

theorem ite_induct {α : Type} {P : Option α → Prop} {c : Prop} [Decidable c] {a b : Option α}
    (ha : c → P a) (hb : ¬ c → P b) : P (if c then a else b) := by
  split
  · exact ha ‹_›
  · exact hb ‹_›

theorem Lexer.scanned_of_lt (l l2 : Lexer) (tok : Token) (h1 : l2.WF) (h2 : l2.rem + 1 ≤ l.rem) :
    l.Scanned (some (tok, l2)) := by
  intro tok1 l1 h
  cases h
  exact ⟨h1, by omega, fun _ => h2⟩

theorem Lexer.scanned_readChar (l : Lexer) (tok : Token) (hw : l.WF) (hz : l.ch ≠ '\x00') :
    l.Scanned (some (tok, l.readChar)) :=
  Lexer.scanned_of_lt l _ tok (Lexer.WF_readChar l) (Lexer.rem_readChar_lt l hw hz)

theorem Lexer.scanned_twoByte (l : Lexer) (second : Char) (ty : TokenType) (lit : String)
    (orElse : Token) (hw : l.WF) (hz : l.ch ≠ '\x00') :
    l.Scanned (some (l.twoByte second ty lit orElse)) := by
  have h := Lexer.twoByte_rem l second ty lit orElse hw hz
  exact Lexer.scanned_of_lt l _ _ h.1 h.2

theorem Lexer.scanned_eof (l : Lexer) (hw : l.WF) :
    l.Scanned (some ({ Type_ := EOF, Literal := "" }, l.readChar)) := by
  intro tok l1 h
  cases h
  exact ⟨Lexer.WF_readChar l, Lexer.rem_readChar l hw, fun hne => absurd rfl hne⟩

theorem Lexer.scanned_string (l : Lexer) (hw : l.WF) (hz : l.ch ≠ '\x00') :
    l.Scanned (match l.readString with
      | none => none
      | some (lit, l1) => some ({ Type_ := STRING, Literal := lit }, l1.readChar)) := by
  unfold Lexer.readString
  cases hs : Lexer.readStringLoop l.budget l with
  | none => intro tok l1 h; simp at h
  | some l2 =>
    have h1 := Lexer.readStringLoop_rem _ l l2 hw hs
    have h2 := Lexer.rem_readChar_lt l hw hz
    have h3 := Lexer.rem_readChar l2 h1.1
    exact Lexer.scanned_of_lt l _ _ (Lexer.WF_readChar l2) (by omega)

theorem Lexer.scanned_identifier (l : Lexer) (hw : l.WF) (hc : isLetter l.ch = true) :
    l.Scanned (match l.readIdentifier with
      | none => none
      | some (lit, l1) => some ({ Type_ := LookupIdent lit, Literal := lit }, l1)) := by
  unfold Lexer.readIdentifier
  cases hs : Lexer.advanceWhile isLetter l.budget l with
  | none => intro tok l1 h; simp at h
  | some l2 =>
    have h1 := Lexer.advanceWhile_rem_lt isLetter (by decide) _ l l2 hw hc hs
    exact Lexer.scanned_of_lt l _ _ h1.1 h1.2

theorem Lexer.scanned_number (l : Lexer) (hw : l.WF) (hc : isDigit l.ch = true) :
    l.Scanned (match l.readNumber with
      | none => none
      | some (lit, l1) => some ({ Type_ := INT, Literal := lit }, l1)) := by
  unfold Lexer.readNumber
  cases hs : Lexer.advanceWhile isDigit l.budget l with
  | none => intro tok l1 h; simp at h
  | some l2 =>
    have h1 := Lexer.advanceWhile_rem_lt isDigit (by decide) _ l l2 hw hc hs
    exact Lexer.scanned_of_lt l _ _ h1.1 h1.2

theorem Lexer.scanToken_scanned (l : Lexer) (hw : l.WF) : l.Scanned l.scanToken := by
  unfold Lexer.scanToken
  dsimp only
  by_cases hz : l.ch = '\x00'
  · simp only [hz, Char.reduceEq, if_false, if_true]
    exact Lexer.scanned_eof l hw
  · repeat' (first
      | exact Lexer.scanned_readChar l _ hw hz
      | exact Lexer.scanned_twoByte l _ _ _ _ hw hz
      | exact Lexer.scanned_eof l hw
      | exact Lexer.scanned_string l hw hz
      | exact Lexer.scanned_identifier l hw ‹_›
      | exact Lexer.scanned_number l hw ‹_›
      | (apply ite_induct (P := Lexer.Scanned l) <;> intro _))

/-- What `NextToken` does to the lexer: the invariant is kept, no byte comes
back, and every token but `EOF` consumes at least one byte. -/
theorem Lexer.NextToken_scanned (l : Lexer) (hw : l.WF) : l.Scanned l.NextToken := by
  unfold Lexer.NextToken Lexer.skipWhitespace
  cases hs : Lexer.advanceWhile isWhitespace l.budget l with
  | none => intro tok l1 h; simp at h
  | some l2 =>
    have h1 := Lexer.advanceWhile_rem isWhitespace _ l l2 hw hs
    intro tok l1 h
    have h2 := Lexer.scanToken_scanned l2 h1.1 tok l1 h
    exact ⟨h2.1, by omega, fun hne => by have := h2.2.2 hne; omega⟩

theorem Parser.nextToken_spec (p : Parser) (hw : p.l.WF) :
    ∃ p1, p.nextToken = some p1 ∧ p1.l.WF ∧ p1.curToken = p.peekToken ∧
      p1.ahead ≤ p.ahead ∧ (p.peekToken.Type_ ≠ EOF → p1.ahead + 1 ≤ p.ahead) := by
  obtain ⟨⟨tok, l1⟩, hn⟩ := Option.isSome_iff_exists.mp (Lexer.NextToken_isSome p.l)
  have hs := Lexer.NextToken_scanned p.l hw tok l1 hn
  refine ⟨{ p with curToken := p.peekToken, peekToken := tok, l := l1 }, ?_, hs.1, rfl, ?_, ?_⟩
  · simp [Parser.nextToken, hn]
  · simp only [Parser.ahead]
    by_cases ht : tok.Type_ = EOF
    · simp only [ht, if_true]
      have := hs.2.1
      split <;> omega
    · simp only [ht, if_false]
      have := hs.2.2 ht
      split <;> omega
  · intro hp
    simp only [Parser.ahead, hp, if_false]
    by_cases ht : tok.Type_ = EOF
    · simp only [ht, if_true]
      have := hs.2.1
      omega
    · simp only [ht, if_false]
      have := hs.2.2 ht
      omega

theorem Parser.parseExpression_no_prefix (n : Nat) (p : Parser) (precedence : Nat)
    (h : prefixParseFns p.curToken.Type_ = none) :
    Parser.parseExpression (n + 1) p precedence =
      some (.nil, p.noPrefixParseFnError p.curToken.Type_) := by
  simp [Parser.parseExpression, h]

theorem Parser.Good.of_le {α : Type} {p p1 : Parser} {r : Option (α × Parser)}
    (h : Parser.Good p1 r) (hle : p1.ahead ≤ p.ahead) : Parser.Good p r := by
  obtain ⟨a, p2, hr, hw, hl⟩ := h
  exact ⟨a, p2, hr, hw, le_trans hl hle⟩

theorem Parser.good_some {α : Type} (p p1 : Parser) (a : α) (hw : p1.l.WF)
    (hl : p1.ahead ≤ p.ahead) : Parser.Good p (some (a, p1)) :=
  ⟨a, p1, rfl, hw, hl⟩

theorem Parser.peekTokenIs_ne_EOF (p : Parser) (t : TokenType) (ht : t ≠ EOF)
    (h : p.peekTokenIs t = true) : p.peekToken.Type_ ≠ EOF := by
  simp only [Parser.peekTokenIs, beq_iff_eq] at h
  rw [h]
  exact ht

theorem Parser.expectPeek_good (p : Parser) (t : TokenType) (hw : p.l.WF) :
    Parser.Good p (p.expectPeek t) := by
  unfold Parser.expectPeek
  split
  · obtain ⟨p1, h1, hw1, _, hl, _⟩ := p.nextToken_spec hw
    rw [h1]
    exact Parser.good_some p p1 true hw1 hl
  · exact Parser.good_some p _ false hw (le_refl _)

theorem Parser.parseArrayStringLoop_good :
    ∀ (n : Nat) (p : Parser) (value : List String), p.l.WF → p.ahead + 2 ≤ n →
      Parser.Good p (Parser.parseArrayStringLoop n p value) := by
  intro n
  induction n with
  | zero => intro p _ _ h; omega
  | succ n ih =>
    intro p value hw hn
    unfold Parser.parseArrayStringLoop
    split
    · exact Parser.good_some p p value hw (le_refl _)
    · obtain ⟨p1, h1, hw1, _, hl1, _⟩ := p.nextToken_spec hw
      rw [h1]
      dsimp only
      split
      · rename_i hc
        obtain ⟨p2, h2, hw2, _, _, hl2⟩ := p1.nextToken_spec hw1
        have := hl2 (Parser.peekTokenIs_ne_EOF p1 COMMA (by decide) hc)
        rw [h2]
        exact (ih p2 _ hw2 (by omega)).of_le (by omega)
      · obtain ⟨b, p2, h2, hw2, hl2⟩ := Parser.expectPeek_good p1 RBRACKET hw1
        rw [h2]
        exact Parser.good_some p p2 _ hw2 (by omega)

theorem Parser.parseArrayIntegerLoop_good :
    ∀ (n : Nat) (p : Parser) (value : List Int), p.l.WF → p.ahead + 2 ≤ n →
      Parser.Good p (Parser.parseArrayIntegerLoop n p value) := by
  intro n
  induction n with
  | zero => intro p _ _ h; omega
  | succ n ih =>
    intro p value hw hn
    unfold Parser.parseArrayIntegerLoop
    split
    · exact Parser.good_some p p _ hw (le_refl _)
    · obtain ⟨p1, h1, hw1, _, hl1, _⟩ := p.nextToken_spec hw
      rw [h1]
      dsimp only
      split
      · exact Parser.good_some p _ _ hw1 hl1
      · split
        · rename_i hc
          obtain ⟨p2, h2, hw2, _, _, hl2⟩ := p1.nextToken_spec hw1
          have := hl2 (Parser.peekTokenIs_ne_EOF p1 COMMA (by decide) hc)
          rw [h2]
          exact (ih p2 _ hw2 (by omega)).of_le (by omega)
        · obtain ⟨b, p2, h2, hw2, hl2⟩ := Parser.expectPeek_good p1 RBRACKET hw1
          rw [h2]
          exact Parser.good_some p p2 _ hw2 (by omega)

theorem Parser.parseArray_good (n : Nat) (p : Parser) (hw : p.l.WF) (hn : p.ahead + 2 ≤ n) :
    Parser.Good p (p.parseArray n) := by
  unfold Parser.parseArray
  split
  · obtain ⟨p1, h1, hw1, _, hl1, _⟩ := p.nextToken_spec hw
    rw [h1]
    exact Parser.good_some p _ _ hw1 hl1
  · split
    · obtain ⟨v, p1, h1, hw1, hl1⟩ := Parser.parseArrayStringLoop_good n p [] hw hn
      rw [h1]
      exact Parser.good_some p _ _ hw1 hl1
    · split
      · obtain ⟨v, p1, h1, hw1, hl1⟩ := Parser.parseArrayIntegerLoop_good n p [] hw hn
        rw [h1]
        cases v <;> exact Parser.good_some p _ _ hw1 hl1
      · exact Parser.good_some p _ _ hw (le_refl _)

theorem Parser.ahead_noPrefixParseFnError (p : Parser) (t : TokenType) :
    (p.noPrefixParseFnError t).ahead = p.ahead := rfl

/-- The operand that follows a `nextToken`: when the token shifted in is `EOF`
the operand ends at once, otherwise a token was consumed. -/
theorem Parser.operand_good (n : Nat) (h : Parser.TotalAt n) (p p1 : Parser) (precedence : Nat)
    (hw1 : p1.l.WF) (hcur : p1.curToken = p.peekToken)
    (hlt : p.peekToken.Type_ ≠ EOF → p1.ahead + 1 ≤ p.ahead)
    (hn : 2 * p.ahead + 2 ≤ n) (hn1 : 1 ≤ n) :
    Parser.Good p1 (Parser.parseExpression n p1 precedence) := by
  by_cases hp : p.peekToken.Type_ = EOF
  · have hnone : prefixParseFns p1.curToken.Type_ = none := by
      rw [hcur, hp]
      decide
    obtain ⟨m, rfl⟩ : ∃ m, n = m + 1 := ⟨n - 1, by omega⟩
    rw [Parser.parseExpression_no_prefix m p1 precedence hnone]
    exact Parser.good_some p1 _ _ hw1 (le_refl _)
  · have := hlt hp
    exact h.1 p1 precedence hw1 (by omega)

theorem Parser.presePrefixExpression_step (n : Nat) (h : Parser.TotalAt n) (p : Parser)
    (hw : p.l.WF) (hn : 2 * p.ahead + 3 ≤ n + 1) :
    Parser.Good p (Parser.presePrefixExpression (n + 1) p) := by
  obtain ⟨p1, h1, hw1, hcur, hl1, hlt⟩ := p.nextToken_spec hw
  obtain ⟨e, p2, h2, hw2, hl2⟩ :=
    Parser.operand_good n h p p1 PREFIX hw1 hcur hlt (by omega) (by omega)
  simp only [Parser.presePrefixExpression, h1, h2]
  exact Parser.good_some p p2 _ hw2 (by omega)

theorem Parser.parseInfixExpression_step (n : Nat) (h : Parser.TotalAt n) (p : Parser)
    (left : Expression) (hw : p.l.WF) (hn : 2 * p.ahead + 3 ≤ n + 1) :
    Parser.Good p (Parser.parseInfixExpression (n + 1) p left) := by
  obtain ⟨p1, h1, hw1, hcur, hl1, hlt⟩ := p.nextToken_spec hw
  obtain ⟨e, p2, h2, hw2, hl2⟩ :=
    Parser.operand_good n h p p1 p.curPrecedence hw1 hcur hlt (by omega) (by omega)
  simp only [Parser.parseInfixExpression, h1, h2]
  exact Parser.good_some p p2 _ hw2 (by omega)

theorem Parser.parseGroupedExpression_step (n : Nat) (h : Parser.TotalAt n) (p : Parser)
    (hw : p.l.WF) (hn : 2 * p.ahead + 3 ≤ n + 1) :
    Parser.Good p (Parser.parseGroupedExpression (n + 1) p) := by
  obtain ⟨p1, h1, hw1, hcur, hl1, hlt⟩ := p.nextToken_spec hw
  obtain ⟨e, p2, h2, hw2, hl2⟩ :=
    Parser.operand_good n h p p1 LOWEST hw1 hcur hlt (by omega) (by omega)
  obtain ⟨b, p3, h3, hw3, hl3⟩ := Parser.expectPeek_good p2 RPAREN hw2
  simp only [Parser.parseGroupedExpression, h1, h2, h3]
  cases b <;> exact Parser.good_some p p3 _ hw3 (by omega)

theorem Parser.parseCallArgumentsLoop_step (n : Nat) (h : Parser.TotalAt n) (p : Parser)
    (args : List Expression) (hw : p.l.WF) (hn : 2 * p.ahead + 2 ≤ n + 1) :
    Parser.Good p (Parser.parseCallArgumentsLoop (n + 1) p args) := by
  by_cases hc : p.peekTokenIs COMMA = true
  · obtain ⟨p1, h1, hw1, _, _, hlt1⟩ := p.nextToken_spec hw
    have hd1 := hlt1 (Parser.peekTokenIs_ne_EOF p COMMA (by decide) hc)
    obtain ⟨p2, h2, hw2, hcur2, hl2, hlt2⟩ := p1.nextToken_spec hw1
    obtain ⟨e, p3, h3, hw3, hl3⟩ :=
      Parser.operand_good n h p1 p2 LOWEST hw2 hcur2 hlt2 (by omega) (by omega)
    obtain ⟨r, p4, h4, hw4, hl4⟩ := h.2.2.2.2.2.2.2 p3 (args ++ [e]) hw3 (by omega)
    simp only [Parser.parseCallArgumentsLoop, hc, if_true, h1, h2, h3, h4]
    exact Parser.good_some p p4 _ hw4 (by omega)
  · simp only [Parser.parseCallArgumentsLoop, hc]
    exact Parser.good_some p p _ hw (le_refl _)

theorem Parser.parseCallArguments_step (n : Nat) (h : Parser.TotalAt n) (p : Parser)
    (hw : p.l.WF) (hn : 2 * p.ahead + 3 ≤ n + 1) :
    Parser.Good p (Parser.parseCallArguments (n + 1) p) := by
  obtain ⟨p1, h1, hw1, hcur, hl1, hlt⟩ := p.nextToken_spec hw
  by_cases hc : p.peekTokenIs RPAREN = true
  · simp only [Parser.parseCallArguments, hc, if_true, h1]
    exact Parser.good_some p p1 _ hw1 hl1
  · obtain ⟨e, p2, h2, hw2, hl2⟩ :=
      Parser.operand_good n h p p1 LOWEST hw1 hcur hlt (by omega) (by omega)
    obtain ⟨r, p3, h3, hw3, hl3⟩ := h.2.2.2.2.2.2.2 p2 [e] hw2 (by omega)
    obtain ⟨b, p4, h4, hw4, hl4⟩ := Parser.expectPeek_good p3 RPAREN hw3
    simp only [Parser.parseCallArguments, hc, h1, h2, h3, h4]
    cases b <;> exact Parser.good_some p p4 _ hw4 (by omega)

theorem Parser.parseCallExpression_step (n : Nat) (h : Parser.TotalAt n) (p : Parser)
    (function : Expression) (hw : p.l.WF) (hn : 2 * p.ahead + 4 ≤ n + 1) :
    Parser.Good p (Parser.parseCallExpression (n + 1) p function) := by
  obtain ⟨r, p1, h1, hw1, hl1⟩ := h.2.2.2.2.2.2.1 p hw (by omega)
  simp only [Parser.parseCallExpression, h1]
  exact Parser.good_some p p1 _ hw1 hl1

theorem Parser.parseExpressionLoop_step (n : Nat) (h : Parser.TotalAt n) (p : Parser)
    (precedence : Nat) (left : Expression) (hw : p.l.WF) (hn : 2 * p.ahead + 3 ≤ n + 1) :
    Parser.Good p (Parser.parseExpressionLoop (n + 1) p precedence left) := by
  by_cases hc : (!p.peekTokenIs EOF && decide (precedence < p.peekPrecedence)) = true
  · have hne : p.peekToken.Type_ ≠ EOF := by
      simp only [Parser.peekTokenIs, Bool.and_eq_true, Bool.not_eq_true', beq_eq_false_iff_ne,
        ne_eq] at hc
      exact hc.1
    cases hf : infixParseFns p.peekToken.Type_ with
    | none =>
      simp only [Parser.parseExpressionLoop, hc, if_true, hf]
      exact Parser.good_some p p _ hw (le_refl _)
    | some fn =>
      obtain ⟨p1, h1, hw1, _, _, hlt1⟩ := p.nextToken_spec hw
      have hd1 := hlt1 hne
      cases fn with
      | parseInfixExpression =>
        obtain ⟨e, p2, h2, hw2, hl2⟩ := h.2.2.2.1 p1 left hw1 (by omega)
        obtain ⟨r, p3, h3, hw3, hl3⟩ := h.2.1 p2 precedence e hw2 (by omega)
        simp only [Parser.parseExpressionLoop, hc, if_true, hf, h1, h2, h3]
        exact Parser.good_some p p3 _ hw3 (by omega)
      | parseCallExpression =>
        obtain ⟨e, p2, h2, hw2, hl2⟩ := h.2.2.2.2.2.1 p1 left hw1 (by omega)
        obtain ⟨r, p3, h3, hw3, hl3⟩ := h.2.1 p2 precedence e hw2 (by omega)
        simp only [Parser.parseExpressionLoop, hc, if_true, hf, h1, h2, h3]
        exact Parser.good_some p p3 _ hw3 (by omega)
  · simp only [Parser.parseExpressionLoop, hc]
    exact Parser.good_some p p _ hw (le_refl _)

theorem Parser.parseExpression_step (n : Nat) (h : Parser.TotalAt n) (p : Parser)
    (precedence : Nat) (hw : p.l.WF) (hn : 2 * p.ahead + 4 ≤ n + 1) :
    Parser.Good p (Parser.parseExpression (n + 1) p precedence) := by
  cases hf : prefixParseFns p.curToken.Type_ with
  | none =>
    rw [Parser.parseExpression_no_prefix n p precedence hf]
    exact Parser.good_some p _ _ hw (le_refl _)
  | some fn =>
    have hloop : ∀ (e : Expression) (p1 : Parser), p1.l.WF → p1.ahead ≤ p.ahead →
        Parser.Good p (Parser.parseExpressionLoop n p1 precedence e) := by
      intro e p1 hw1 hl1
      exact (h.2.1 p1 precedence e hw1 (by omega)).of_le hl1
    cases fn with
    | parseIdentifier =>
      simp only [Parser.parseExpression, hf, Parser.parseIdentifier]
      exact hloop _ p hw (le_refl _)
    | parseInteger =>
      simp only [Parser.parseExpression, hf, Parser.parseInteger]
      split <;> exact hloop _ _ hw (le_refl _)
    | parseString =>
      simp only [Parser.parseExpression, hf, Parser.parseString]
      exact hloop _ p hw (le_refl _)
    | parseBoolean =>
      simp only [Parser.parseExpression, hf, Parser.parseBoolean]
      exact hloop _ p hw (le_refl _)
    | parseArray =>
      obtain ⟨e, p1, h1, hw1, hl1⟩ := Parser.parseArray_good n p hw (by omega)
      simp only [Parser.parseExpression, hf, h1]
      exact hloop e p1 hw1 hl1
    | presePrefixExpression =>
      obtain ⟨e, p1, h1, hw1, hl1⟩ := h.2.2.1 p hw (by omega)
      simp only [Parser.parseExpression, hf, h1]
      exact hloop e p1 hw1 hl1
    | parseGroupedExpression =>
      obtain ⟨e, p1, h1, hw1, hl1⟩ := h.2.2.2.2.1 p hw (by omega)
      simp only [Parser.parseExpression, hf, h1]
      exact hloop e p1 hw1 hl1

theorem Parser.totalAt : ∀ n, Parser.TotalAt n := by
  intro n
  induction n with
  | zero =>
    refine ⟨?_, ?_, ?_, ?_, ?_, ?_, ?_, ?_⟩ <;> intros <;> omega
  | succ n ih =>
    exact ⟨fun p prec hw hn => Parser.parseExpression_step n ih p prec hw hn,
      fun p prec left hw hn => Parser.parseExpressionLoop_step n ih p prec left hw hn,
      fun p hw hn => Parser.presePrefixExpression_step n ih p hw hn,
      fun p left hw hn => Parser.parseInfixExpression_step n ih p left hw hn,
      fun p hw hn => Parser.parseGroupedExpression_step n ih p hw hn,
      fun p f hw hn => Parser.parseCallExpression_step n ih p f hw hn,
      fun p hw hn => Parser.parseCallArguments_step n ih p hw hn,
      fun p args hw hn => Parser.parseCallArgumentsLoop_step n ih p args hw hn⟩

theorem Parser.parseProgramLoop_at_EOF (n : Nat) (p : Parser) (program : Program)
    (h : p.curToken.Type_ = EOF) :
    Parser.parseProgramLoop (n + 1) p program = some (program, p) := by
  rw [Parser.parseProgramLoop]
  simp [h]

theorem Parser.parseProgramLoop_isSome :
    ∀ (n : Nat) (p : Parser) (program : Program), p.l.WF → 2 * p.ahead + 5 ≤ n →
      (Parser.parseProgramLoop n p program).isSome = true := by
  intro n
  induction n with
  | zero => intro p _ _ h; omega
  | succ n ih =>
    intro p program hw hn
    by_cases hc : p.curToken.Type_ = EOF
    · rw [Parser.parseProgramLoop_at_EOF n p program hc]
      rfl
    · obtain ⟨stmt, p1, h1, hw1, hl1⟩ := (Parser.totalAt n).1 p LOWEST hw (by omega)
      obtain ⟨p2, h2, hw2, hcur2, hl2, hlt2⟩ := p1.nextToken_spec hw1
      rw [Parser.parseProgramLoop]
      simp only [ne_eq, hc, not_false_eq_true, if_true, h1, h2]
      by_cases hp : p1.peekToken.Type_ = EOF
      · obtain ⟨m, rfl⟩ : ∃ m, n = m + 1 := ⟨n - 1, by omega⟩
        rw [Parser.parseProgramLoop_at_EOF m p2 _ (by rw [hcur2, hp])]
        rfl
      · have := hlt2 hp
        exact ih p2 _ hw2 (by omega)

theorem Parser.ahead_le (p : Parser) : p.ahead ≤ p.l.input.length + 1 := by
  unfold Parser.ahead Lexer.rem
  split <;> omega

/-- `ParseProgram` ends with a result in every parser state that keeps the
lexer invariant: its budget is never used up. -/
theorem Parser.ParseProgram_isSome (p : Parser) (hw : p.l.WF) :
    p.ParseProgram.isSome = true := by
  have hb : 2 * p.ahead + 5 ≤ p.budget := by
    have := p.ahead_le
    unfold Parser.budget
    omega
  obtain ⟨⟨program, p1⟩, h1⟩ :=
    Option.isSome_iff_exists.mp (Parser.parseProgramLoop_isSome p.budget p { Expression := .nil } hw hb)
  unfold Parser.ParseProgram
  rw [h1]
  dsimp only
  split <;> rfl

theorem NewParser_spec (l : Lexer) (hw : l.WF) : ∃ p, NewParser l = some p ∧ p.l.WF := by
  unfold NewParser
  dsimp only
  obtain ⟨p1, h1, hw1, _⟩ :=
    Parser.nextToken_spec
      { l := l, curToken := { Type_ := "", Literal := "" },
        peekToken := { Type_ := "", Literal := "" }, errors := [] } hw
  obtain ⟨p2, h2, hw2, _⟩ := p1.nextToken_spec hw1
  rw [h1]
  exact ⟨p2, h2, hw2⟩

/-- The pipeline `NewParser(NewLexer(input)).ParseProgram()` ends with a result
on every input: no budget of the embedding is ever used up. -/
theorem parse_isSome (input : String) : (parse input).isSome = true := by
  obtain ⟨p, hp, hw⟩ := NewParser_spec (NewLexer input) (Lexer.WF_readChar _)
  unfold parse
  rw [hp]
  exact p.ParseProgram_isSome hw

/-! ## C1: the test `TestEval` -/

theorem parse_testInput : parse testInput = some (.ok (testProgram, testParser)) := by
  decide!

theorem check_testProgram :
    testParser.CheckTypeProgram testProgram = .ok (BOOLEAN_OBJ, testParser) := by
  decide!

theorem eval_testProgram_of_bindings (env : Environment) (xs : List Int) (s : Int)
    (hlen : env.store "len" = none)
    (habc : env.store "abc" = some (some (.ArrayInteger xs)))
    (hS : env.store "S" = some (some (.Integer s))) :
    evalProgram builtins testProgram env =
      .ok (some (nativeBoolToBooleanObject (decide (1 < xs.length ∧ s = 123)))) := by
  simp [evalProgram, testProgram, Eval, evalExpressions, evalIdentifier, Environment.Get, builtins,
    RegisterBuiltin, hlen, habc, hS, isError, applyFunction, lenBuiltin, evalInfixExpression,
    Object.ObjectType, evalIntegerInfixExpression, objectToNativeBoolean,
    INTEGER_OBJ, ERROR_OBJ, ARRAY_INTEGER_OBJ, FUNCTION_OBJ, STRING_OBJ, BOOLEAN_OBJ, AND]

/-- C1: for every integer array `xs` and integer `s`, the text
`len(abc) > 1 && S == 123` goes through `NewParser` and `ParseProgram` to a
program with an empty error list, a second `CheckType` on that program leaves
the list empty, and in the environment that binds `abc` to `xs` and `S` to `s`
(built by two `Set` calls, as in `TestEval`) `Eval` of the program returns the
Boolean whose value is `len(xs) > 1 && s == 123`. -/
theorem C1_testEval (xs : List Int) (s : Int) :
    ∃ program p env,
      parse testInput = some (.ok (program, p)) ∧ p.errors = [] ∧
      (∃ t p1, p.CheckTypeProgram program = .ok (t, p1) ∧ p1.errors = []) ∧
      testEnvironment xs s = some env ∧
      evalProgram builtins program env =
        .ok (some (nativeBoolToBooleanObject (decide (1 < xs.length ∧ s = 123)))) := by
  refine ⟨testProgram, testParser, _, parse_testInput, rfl,
    ⟨_, _, check_testProgram, rfl⟩, rfl, ?_⟩
  apply eval_testProgram_of_bindings <;> simp [NewEnvironment]

/-! ## C2: membership expressions -/

theorem CheckType_in_unknown_operator (p : Parser) (left right : Expression)
    (h : p.errors = []) :
    p.CheckType (.InfixExpression left IN right) =
      .ok (ERROR_OBJ, { p with errors := ["InfixExpression unknow operator(in)"] }) := by
  have hp : infixProtos "in" = none := by decide
  simp [Parser.CheckType, h, hp, IN]

/-- C2 (the code at the failing inputs): the well-typed membership expressions
`1 in [1,2,3]` and `role in ["admin","owner"]` are parsed to `in` nodes, and
`CheckType` then records `InfixExpression unknow operator(in)`, because
`infixProtos` has no entry for `in`: `ParseProgram` does not end with an empty
error list. -/
theorem C2_membership_rejected :
    parse "1 in [1,2,3]" = some (.ok
      ({ Expression := .InfixExpression (.Integer 1) "in" (.ArrayInteger [1, 2, 3]) },
       { l := { input := "1 in [1,2,3]", position := 14, readPosition := 15, ch := '\x00' },
         curToken := { Type_ := EOF, Literal := "" },
         peekToken := { Type_ := EOF, Literal := "" },
         errors := ["InfixExpression unknow operator(in)"] })) ∧
    parseExpressionOf "role in [\"admin\",\"owner\"]" = some (.ok
      (.InfixExpression (.Identifier "role") "in" (.ArrayString ["admin", "owner"]))) ∧
    parseErrors "role in [\"admin\",\"owner\"]" =
      some (.ok ["InfixExpression unknow operator(in)"]) := by
  decide!

/-! ## C3: identifiers -/

/-- C3 (the code at the failing inputs): on the input `id`, a run of letters
that is neither a keyword nor reserved, `NextToken` returns the zero-value
token `{"", ""}` and consumes only the `i`, and the next call returns
`{IDENT, "d"}`; on `index` it returns `{in, "in"}` and then `{IDENT, "dex"}`.
The case `'i'` of the switch has no branch for an identifier. -/
theorem C3_identifier_starting_with_i :
    (NewLexer "id").NextToken =
      some ({ Type_ := "", Literal := "" },
            { input := "id", position := 1, readPosition := 2, ch := 'd' }) ∧
    Lexer.NextToken { input := "id", position := 1, readPosition := 2, ch := 'd' } =
      some ({ Type_ := IDENT, Literal := "d" },
            { input := "id", position := 2, readPosition := 3, ch := '\x00' }) ∧
    (NewLexer "index").NextToken =
      some ({ Type_ := IN, Literal := "in" },
            { input := "index", position := 2, readPosition := 3, ch := 'd' }) ∧
    Lexer.NextToken { input := "index", position := 2, readPosition := 3, ch := 'd' } =
      some ({ Type_ := IDENT, Literal := "dex" },
            { input := "index", position := 5, readPosition := 6, ch := '\x00' }) := by
  decide!

/-! ## C4: `&&` and `||` -/

theorem evalInfixExpression_logical (l r : Object)
    (hint : ¬ (l.ObjectType = INTEGER_OBJ ∧ r.ObjectType = INTEGER_OBJ))
    (hstr : ¬ (l.ObjectType = STRING_OBJ ∧ r.ObjectType = STRING_OBJ)) :
    evalInfixExpression AND (some l) (some r) =
        .ok (some (nativeBoolToBooleanObject (truthy l && truthy r))) ∧
      evalInfixExpression OR (some l) (some r) =
        .ok (some (nativeBoolToBooleanObject (truthy l || truthy r))) := by
  have hb : ∀ v : String, (v != "") = !decide (v = "") := by
    intro v
    by_cases h : v = "" <;> simp [h]
  cases l <;> cases r <;>
    simp_all [evalInfixExpression, Object.ObjectType, objectToNativeBoolean, truthy,
      INTEGER_OBJ, STRING_OBJ, BOOLEAN_OBJ, ARRAY_INTEGER_OBJ, ARRAY_STRING_OBJ, IDENT_OBJ,
      ERROR_OBJ, FUNCTION_OBJ, AND, OR]

/-- C4 (as amended): for runtime objects `l` and `r`, neither an Error, that
are not both Integers and not both Strings, an infix `&&` expression whose
operands evaluate to `l` and `r` evaluates to the Boolean
`truthy l && truthy r`, and `||` to the Boolean `truthy l || truthy r`. -/
theorem C4_logical_operators (table : BuiltinTable) (env : Environment)
    (le re : Expression) (l r : Object)
    (hl : Eval table env le = .ok (some l)) (hr : Eval table env re = .ok (some r))
    (hle : l.ObjectType ≠ ERROR_OBJ) (hre : r.ObjectType ≠ ERROR_OBJ)
    (hint : ¬ (l.ObjectType = INTEGER_OBJ ∧ r.ObjectType = INTEGER_OBJ))
    (hstr : ¬ (l.ObjectType = STRING_OBJ ∧ r.ObjectType = STRING_OBJ)) :
    Eval table env (.InfixExpression le AND re) =
        .ok (some (nativeBoolToBooleanObject (truthy l && truthy r))) ∧
      Eval table env (.InfixExpression le OR re) =
        .ok (some (nativeBoolToBooleanObject (truthy l || truthy r))) := by
  have h := evalInfixExpression_logical l r hint hstr
  simp only [Eval, hl, hr, isError, beq_iff_eq, hle, hre]
  simpa using h

/-- C4 (witness): `0 && "a"` is false and `0 || "a"` is true. -/
theorem C4_logical_operators_witness :
    Eval builtins NewEnvironment (.InfixExpression (.Integer 0) AND (.String "a")) =
        .ok (some (nativeBoolToBooleanObject (truthy (.Integer 0) && truthy (.String "a")))) ∧
      Eval builtins NewEnvironment (.InfixExpression (.Integer 0) OR (.String "a")) =
        .ok (some (nativeBoolToBooleanObject (truthy (.Integer 0) || truthy (.String "a")))) :=
  C4_logical_operators builtins NewEnvironment (.Integer 0) (.String "a") (.Integer 0) (.String "a")
    (by simp [Eval]) (by simp [Eval]) (by decide) (by decide) (by decide) (by decide)

/-- C4 (counterexample): with two Integer operands `&&` does not return the
Boolean of the truth values: `1 && 1` evaluates to the Error object
`unknow operator: INTEGER && INTEGER`, where the claim gives the Boolean true. -/
theorem C4_counterexample :
    Eval builtins NewEnvironment (.InfixExpression (.Integer 1) AND (.Integer 1)) =
        .ok (some (.Error "unknow operator: INTEGER && INTEGER")) ∧
      nativeBoolToBooleanObject (truthy (.Integer 1) && truthy (.Integer 1)) = .boolTrue ∧
      Eval builtins NewEnvironment (.InfixExpression (.Integer 1) AND (.Integer 1)) ≠
        .ok (some (nativeBoolToBooleanObject (truthy (.Integer 1) && truthy (.Integer 1)))) := by
  decide!

/-! ## C5, C6: read-only bindings -/

/-- C5 (as amended): after `SetReadOnly(k, v)` on any environment, a
subsequent `Set(k, w)` does not return to its caller: it prints the refusal
and ends the process by `os.Exit(3)`. No binding is written before the exit:
in the environment that `SetReadOnly` left, `Get(k)` is `(v, true)`. -/
theorem C5_set_on_readonly_exits (env : Environment) (k : String) (v w : Option Object) :
    (env.SetReadOnly k v).2.Set k w =
        .exited { code := 3,
                  stdout := "Attempting to modify '" ++ k ++
                    "' denied; it was defined as a constant.\n" } ∧
      (env.SetReadOnly k v).2.Get k = (v, true) := by
  simp [Environment.SetReadOnly, Environment.Set, Environment.Get]

/-- C5 (counterexample): after `SetReadOnly("k", Integer 1)` on a new
environment, `Set("k", Integer 2)` returns nothing to the caller, neither an
error result nor any other value: the process exits with status 3. -/
theorem C5_counterexample :
    (∀ result env1,
        (NewEnvironment.SetReadOnly "k" (some (.Integer 1))).2.Set "k" (some (.Integer 2)) ≠
          .returned result env1) ∧
      (NewEnvironment.SetReadOnly "k" (some (.Integer 1))).2.Set "k" (some (.Integer 2)) =
        .exited { code := 3,
                  stdout := "Attempting to modify 'k' denied; it was defined as a constant.\n" } := by
  simp [Environment.SetReadOnly, Environment.Set]

/-- C6 (the code at the failing input): after `SetReadOnly("k", Integer 1)`, the
completed operation `SetReadOnly("k", Integer 2)` rebinds the read-only name,
and `Get("k")` then returns `(Integer 2, true)`, not `(Integer 1, true)`. -/
theorem C6_setReadOnly_overwrites :
    ((NewEnvironment.SetReadOnly "k" (some (.Integer 1))).2.SetReadOnly "k"
        (some (.Integer 2))).2.Get "k" = (some (.Integer 2), true) ∧
      ((NewEnvironment.SetReadOnly "k" (some (.Integer 1))).2.SetReadOnly "k"
        (some (.Integer 2))).2.Get "k" ≠ (some (.Integer 1), true) := by
  decide

/-! ## C7: identifiers -/

theorem sprintfScan_of_no_percent (cs : List Char) (h : '%' ∉ cs) : sprintfScan 0 cs = cs := by
  induction cs with
  | nil => rfl
  | cons c rest ih =>
    simp only [List.mem_cons, not_or] at h
    have hc : c ≠ '%' := fun e => h.1 e.symm
    simp [sprintfScan, hc, ih h.2]

theorem sprintfNoArgs_of_no_percent (s : String) (h : '%' ∉ s.data) : sprintfNoArgs s = s := by
  simp [sprintfNoArgs, sprintfScan_of_no_percent s.data h]

/-- C7 (the code at the failing input): `evalIdentifier` returns the
environment's binding for the name when there is one, whatever the registry
holds, and otherwise the builtin registered under the name; the unbound name
`undefined_name` evaluates to the Error `identifier not found: undefined_name`.
For the unbound name `%d` the message is `identifier not found: %!d(MISSING)`
and not `identifier not found: %d`: `evalIdentifier` puts the name into the
format that `newError` passes to `fmt.Sprintf`. -/
theorem C7_evalIdentifier_format_slip :
    (∀ (table : BuiltinTable) (env : Environment) (name : String) (v : Option Object),
      Eval table (env.SetReadOnly name v).2 (.Identifier name) = .ok v) ∧
    (∀ (table : BuiltinTable) (name : String) (fn : BuiltinFunction),
      Eval (RegisterBuiltin table name fn) NewEnvironment (.Identifier name) =
        .ok (some (.Builtin name))) ∧
    Eval builtins NewEnvironment (.Identifier "undefined_name") =
      .ok (some (.Error "identifier not found: undefined_name")) ∧
    Eval builtins NewEnvironment (.Identifier "%d") =
      .ok (some (.Error "identifier not found: %!d(MISSING)")) ∧
    Eval builtins NewEnvironment (.Identifier "%d") ≠
      .ok (some (.Error "identifier not found: %d")) := by
  refine ⟨?_, ?_, by decide!, by decide!, by decide!⟩
  · intro table env name v
    simp [Eval, evalIdentifier, Environment.Get, Environment.SetReadOnly]
  · intro table name fn
    simp [Eval, evalIdentifier, Environment.Get, NewEnvironment, RegisterBuiltin]

/-! ## C8, C9: division -/

/-- C8 (the code at the failing inputs): for every integer `a`, the infix
expression `Integer a / Integer 0` does not evaluate to an Error object: the
evaluation panics with `integer divide by zero`. -/
theorem C8_division_by_zero_panics (table : BuiltinTable) (env : Environment) (a : Int) :
    Eval table env (.InfixExpression (.Integer a) "/" (.Integer 0)) = .error divideByZero := by
  simp [Eval, isError, evalInfixExpression, evalIntegerInfixExpression, Object.ObjectType,
    INTEGER_OBJ, ERROR_OBJ]

theorem wrapInt64_of_range (x : Int) (h0 : -2 ^ 63 ≤ x) (h1 : x < 2 ^ 63) : wrapInt64 x = x := by
  unfold wrapInt64
  rw [Int.emod_eq_of_lt (by omega) (by omega)]
  omega

/-- C9 (as amended): for every non-negative `int64` value `a` and positive
integer `b`, `Eval` of the tree `InfixExpression{Integer a, "/", Integer b}`
returns `Integer (a / b)`, the quotient truncated toward zero. -/
theorem C9_integer_division (table : BuiltinTable) (env : Environment) (a b : Int)
    (ha : 0 ≤ a) (ha1 : a < 2 ^ 63) (hb : 0 < b) :
    Eval table env (.InfixExpression (.Integer a) "/" (.Integer b)) =
      .ok (some (.Integer (a.tdiv b))) := by
  have hq0 : 0 ≤ a.tdiv b := Int.tdiv_nonneg ha (le_of_lt hb)
  have hq1 : a.tdiv b ≤ a := by
    rw [Int.tdiv_eq_ediv ha (le_of_lt hb)]
    exact Int.ediv_le_self b ha
  have hw := wrapInt64_of_range (a.tdiv b) (by omega) (by omega)
  have hb0 : b ≠ 0 := ne_of_gt hb
  simp [Eval, isError, evalInfixExpression, evalIntegerInfixExpression, Object.ObjectType,
    INTEGER_OBJ, ERROR_OBJ, hb0, hw]

/-- C9 (witness): the tree of `10 / 3` evaluates to `Integer 3`. -/
theorem C9_integer_division_witness :
    Eval builtins NewEnvironment (.InfixExpression (.Integer 10) "/" (.Integer 3)) =
        .ok (some (.Integer ((10 : Int).tdiv 3))) ∧ (10 : Int).tdiv 3 = 3 :=
  ⟨C9_integer_division builtins NewEnvironment 10 3 (by decide) (by decide) (by decide),
   by decide⟩

/-- C9 (counterexample): the texts `10 / 3` and `7 / 2` do not leave the error
list empty. The lexer has no token for `/`: the list ends as
`no prefix parse function for ILLEGAL found`, the program holds the last
expression, `Integer 3` and `Integer 2`, and `Eval` of the program for
`7 / 2` is `Integer 2`, not `Integer 3`. -/
theorem C9_counterexample :
    parseExpressionOf "10 / 3" = some (.ok (.Integer 3)) ∧
      parseErrors "10 / 3" = some (.ok ["no prefix parse function for ILLEGAL found"]) ∧
      parseExpressionOf "7 / 2" = some (.ok (.Integer 2)) ∧
      parseErrors "7 / 2" = some (.ok ["no prefix parse function for ILLEGAL found"]) ∧
      Eval builtins NewEnvironment (.Integer 2) = .ok (some (.Integer 2)) ∧
      (7 : Int).tdiv 2 = 3 := by
  decide!

/-! ## C10: mixed array literals -/

/-- C10 (the code at the failing inputs): `["a", 1]` is parsed, with no error,
to the string array `["a", "1"]`, and `[1, "2"]`, with no error, to the
integer array `[1, 2]`; of the mixed arrays only those whose first element is
an integer and that hold a string that is no decimal number, such as
`[1, "a"]`, record an error. -/
theorem C10_mixed_arrays_accepted :
    parseExpressionOf "[\"a\", 1]" = some (.ok (.ArrayString ["a", "1"])) ∧
      parseErrors "[\"a\", 1]" = some (.ok []) ∧
      parseExpressionOf "[1, \"2\"]" = some (.ok (.ArrayInteger [1, 2])) ∧
      parseErrors "[1, \"2\"]" = some (.ok []) ∧
      parseErrors "[1, \"a\"]" = some (.ok
        ["the data type of the array is not a integer, err(strconv.ParseInt: parsing \"a\": invalid syntax)",
         "no prefix parse function for ] found"]) := by
  decide!

/-! ## C17: the builtin `len` -/

theorem utf8Size_ascii (b : Nat) (rest : List Nat) (h : b < 0x80) : utf8Size b rest = 1 := by
  unfold utf8Size
  rw [if_pos h]

theorem characterCountFrom_ascii (bytes : List Nat) (h : ∀ b ∈ bytes, b < 0x80) :
    characterCountFrom 0 bytes = bytes.length := by
  induction bytes with
  | nil => rfl
  | cons b rest ih =>
    have hb : b < 0x80 := h b (List.mem_cons_self b rest)
    have hr : ∀ x ∈ rest, x < 0x80 := fun x hx => h x (List.mem_cons_of_mem b hx)
    rw [characterCountFrom, utf8Size_ascii b rest hb, Nat.sub_self, ih hr, List.length_cons,
      Nat.add_comm]

theorem characterCount_ascii (v : String) (h : ∀ c ∈ v.data, c.toNat < 0x80) :
    characterCount v = v.length := by
  unfold characterCount
  rw [characterCountFrom_ascii]
  · rw [List.length_map]
    cases v
    rfl
  · intro b hb
    obtain ⟨c, hc, rfl⟩ := List.mem_map.1 hb
    exact h c hc

/-- C17 (as amended): the builtin registered as `len`, applied to exactly one
argument that is a String, an ArrayString or an ArrayInteger, returns
`Integer n`, where `n` is the length of the string in bytes (`len` of the Go
string, one `Char` of the embedding per byte) or the number of elements of the
array; for a string of ASCII bytes that length is the character count. Applied
to a number of arguments other than one, or to one argument of any other kind,
it returns an Error object. -/
theorem C17_len_builtin :
    builtins "len" = some lenBuiltin ∧
    (∀ v : String, lenBuiltin [some (.String v)] = .ok (some (.Integer v.data.length))) ∧
    (∀ v : List String, lenBuiltin [some (.ArrayString v)] = .ok (some (.Integer v.length))) ∧
    (∀ v : List Int, lenBuiltin [some (.ArrayInteger v)] = .ok (some (.Integer v.length))) ∧
    (∀ args : List (Option Object), args.length ≠ 1 →
      ∃ message, lenBuiltin args = .ok (some (.Error message))) ∧
    (∀ o : Object, o.ObjectType ≠ STRING_OBJ → o.ObjectType ≠ ARRAY_STRING_OBJ →
      o.ObjectType ≠ ARRAY_INTEGER_OBJ →
      ∃ message, lenBuiltin [some o] = .ok (some (.Error message))) ∧
    (∀ v : String, (∀ c ∈ v.data, c.toNat < 0x80) →
      lenBuiltin [some (.String v)] = .ok (some (.Integer (characterCount v)))) := by
  refine ⟨by simp [builtins, RegisterBuiltin], fun _ => rfl, fun _ => rfl, fun _ => rfl,
    ?_, ?_, ?_⟩
  · intro args h
    match args, h with
    | [], _ => exact ⟨_, rfl⟩
    | [_], h => simp at h
    | _ :: _ :: _, _ => exact ⟨_, rfl⟩
  · intro o h1 h2 h3
    cases o <;> first | exact ⟨_, rfl⟩ | simp [Object.ObjectType] at h1 h2 h3
  · intro v h
    rw [characterCount_ascii v h]
    rfl

/-- C17 (witness): `len` of no argument, of two arguments and of one Integer is
an Error object; `len` of the ASCII string `abc` is its character count, 3. -/
theorem C17_len_builtin_witness :
    (∃ message, lenBuiltin [] = .ok (some (.Error message))) ∧
    (∃ message, lenBuiltin [some (.String "a"), some (.String "b")] =
      .ok (some (.Error message))) ∧
    (∃ message, lenBuiltin [some (.Integer 1)] = .ok (some (.Error message))) ∧
    lenBuiltin [some (.String "abc")] = .ok (some (.Integer (characterCount "abc"))) ∧
    characterCount "abc" = 3 :=
  ⟨C17_len_builtin.2.2.2.2.1 [] (by decide),
   C17_len_builtin.2.2.2.2.1 [some (.String "a"), some (.String "b")] (by decide),
   C17_len_builtin.2.2.2.2.2.1 (.Integer 1) (by decide) (by decide) (by decide),
   C17_len_builtin.2.2.2.2.2.2 "abc" (by decide),
   by decide⟩

/-- C17 (counterexample): the string whose bytes are `0xC3 0xA9`, the UTF-8
encoding of the one character U+00E9, has character count 1, and `len` returns
`Integer 2`, the number of its bytes; so does the program `len("..")` on that
string, with no error from the checker. -/
theorem C17_counterexample :
    characterCount "\xc3\xa9" = 1 ∧
    lenBuiltin [some (.String "\xc3\xa9")] = .ok (some (.Integer 2)) ∧
    lenBuiltin [some (.String "\xc3\xa9")] ≠
      .ok (some (.Integer (characterCount "\xc3\xa9"))) ∧
    parseErrors "len(\"\xc3\xa9\")" = some (.ok []) ∧
    evalText "len(\"\xc3\xa9\")" NewEnvironment = some (.ok (some (.Integer 2))) := by
  decide!

/-! ## C18: no short circuit -/

/-- C18: for an infix `&&` or `||` expression whose left operand evaluates to
a value that is not an Error (Boolean false under `&&` and Boolean true under
`||` included) and whose right operand evaluates to an Error `e`, `Eval`
returns `e`: the right operand is evaluated whatever the left one is. -/
theorem C18_no_short_circuit (table : BuiltinTable) (env : Environment) (le re : Expression)
    (l : Option Object) (message : String)
    (hl : Eval table env le = .ok l) (hle : isError l = false)
    (hr : Eval table env re = .ok (some (.Error message))) :
    Eval table env (.InfixExpression le AND re) = .ok (some (.Error message)) ∧
      Eval table env (.InfixExpression le OR re) = .ok (some (.Error message)) := by
  have hre : isError (some (.Error message)) = true := by
    simp [isError, Object.ObjectType]
  simp [Eval, hl, hle, hr, hre]

/-- C18 (witness): `false && x` and `true || x`, with `x` bound nowhere,
evaluate to the Error of the right operand. -/
theorem C18_no_short_circuit_witness :
    (Eval builtins NewEnvironment (.InfixExpression (.Boolean false) AND (.Identifier "x")) =
        .ok (some (.Error "identifier not found: x")) ∧
      Eval builtins NewEnvironment (.InfixExpression (.Boolean false) OR (.Identifier "x")) =
        .ok (some (.Error "identifier not found: x"))) ∧
    (Eval builtins NewEnvironment (.InfixExpression (.Boolean true) AND (.Identifier "x")) =
        .ok (some (.Error "identifier not found: x")) ∧
      Eval builtins NewEnvironment (.InfixExpression (.Boolean true) OR (.Identifier "x")) =
        .ok (some (.Error "identifier not found: x"))) :=
  ⟨C18_no_short_circuit builtins NewEnvironment (.Boolean false) (.Identifier "x")
      (some .boolFalse) "identifier not found: x" (by decide!) (by decide) (by decide!),
   C18_no_short_circuit builtins NewEnvironment (.Boolean true) (.Identifier "x")
      (some .boolTrue) "identifier not found: x" (by decide!) (by decide) (by decide!)⟩

/-! ## C20: membership -/

theorem evalInfixExpression_in (l r : Object) :
    (∀ v vs, l = .Integer v → r = .ArrayInteger vs →
      evalInfixExpression IN (some l) (some r) = .ok (some (.Boolean (decide (v ∈ vs))))) ∧
    (∀ v vs, l = .String v → r = .ArrayString vs →
      evalInfixExpression IN (some l) (some r) = .ok (some (.Boolean (decide (v ∈ vs))))) ∧
    (¬ (l.ObjectType = INTEGER_OBJ ∧ r.ObjectType = ARRAY_INTEGER_OBJ) →
      ¬ (l.ObjectType = STRING_OBJ ∧ r.ObjectType = ARRAY_STRING_OBJ) →
      ∃ message, evalInfixExpression IN (some l) (some r) = .ok (some (.Error message))) := by
  refine ⟨?_, ?_, ?_⟩
  · rintro v vs rfl rfl
    simp [evalInfixExpression, evalINInfixExpress, Object.ObjectType, INTEGER_OBJ, STRING_OBJ,
      ARRAY_INTEGER_OBJ, AND, OR, IN]
  · rintro v vs rfl rfl
    simp [evalInfixExpression, evalINInfixExpress, Object.ObjectType, INTEGER_OBJ, STRING_OBJ,
      ARRAY_STRING_OBJ, AND, OR, IN]
  · intro h1 h2
    cases l <;> cases r <;>
      simp_all [evalInfixExpression, evalINInfixExpress, evalIntegerInfixExpression,
        evalStringInfixExpression, unknowOperator, newError, Object.ObjectType,
        INTEGER_OBJ, STRING_OBJ, BOOLEAN_OBJ, ARRAY_INTEGER_OBJ, ARRAY_STRING_OBJ, IDENT_OBJ,
        ERROR_OBJ, FUNCTION_OBJ, AND, OR, IN]

/-- C20: for runtime objects `l` and `r`, neither an Error, an infix `in`
expression whose operands evaluate to `l` and `r` evaluates to the Boolean of
"`l`'s value occurs in `r`" when `l` is an Integer and `r` an ArrayInteger, or
`l` is a String and `r` an ArrayString, and to an Error object for every other
pair of kinds. -/
theorem C20_membership (table : BuiltinTable) (env : Environment) (le re : Expression)
    (l r : Object)
    (hl : Eval table env le = .ok (some l)) (hr : Eval table env re = .ok (some r))
    (hle : l.ObjectType ≠ ERROR_OBJ) (hre : r.ObjectType ≠ ERROR_OBJ) :
    (∀ v vs, l = .Integer v → r = .ArrayInteger vs →
      Eval table env (.InfixExpression le IN re) = .ok (some (.Boolean (decide (v ∈ vs))))) ∧
    (∀ v vs, l = .String v → r = .ArrayString vs →
      Eval table env (.InfixExpression le IN re) = .ok (some (.Boolean (decide (v ∈ vs))))) ∧
    (¬ (l.ObjectType = INTEGER_OBJ ∧ r.ObjectType = ARRAY_INTEGER_OBJ) →
      ¬ (l.ObjectType = STRING_OBJ ∧ r.ObjectType = ARRAY_STRING_OBJ) →
      ∃ message, Eval table env (.InfixExpression le IN re) = .ok (some (.Error message))) := by
  have h : Eval table env (.InfixExpression le IN re) = evalInfixExpression IN (some l) (some r) := by
    simp [Eval, hl, hr, isError, hle, hre]
  rw [h]
  exact evalInfixExpression_in l r

/-- C20 (witness): `1 in [1,2,3]` is true, `"x" in ["a","b"]` is false, and
`1 in ["a","b"]` is an Error object. -/
theorem C20_membership_witness :
    Eval builtins NewEnvironment (.InfixExpression (.Integer 1) IN (.ArrayInteger [1, 2, 3])) =
        .ok (some (.Boolean true)) ∧
      Eval builtins NewEnvironment
          (.InfixExpression (.String "x") IN (.ArrayString ["a", "b"])) =
        .ok (some (.Boolean false)) ∧
      ∃ message,
        Eval builtins NewEnvironment (.InfixExpression (.Integer 1) IN (.ArrayString ["a", "b"])) =
          .ok (some (.Error message)) :=
  ⟨(C20_membership builtins NewEnvironment (.Integer 1) (.ArrayInteger [1, 2, 3]) (.Integer 1)
      (.ArrayInteger [1, 2, 3]) (by simp [Eval]) (by simp [Eval]) (by decide) (by decide)).1
      1 [1, 2, 3] rfl rfl,
   (C20_membership builtins NewEnvironment (.String "x") (.ArrayString ["a", "b"]) (.String "x")
      (.ArrayString ["a", "b"]) (by simp [Eval]) (by simp [Eval]) (by decide) (by decide)).2.1
      "x" ["a", "b"] rfl rfl,
   (C20_membership builtins NewEnvironment (.Integer 1) (.ArrayString ["a", "b"]) (.Integer 1)
      (.ArrayString ["a", "b"]) (by simp [Eval]) (by simp [Eval]) (by decide) (by decide)).2.2
      (by decide) (by decide)⟩

/-! ## C11, C12: type errors that leave no message -/

/-- C11 (the code at the failing input): the program `len(1)` calls `len` with
one argument of type INTEGER, which matches no overload. `CheckType` answers
`ERROR_OBJ` and appends nothing, `ParseProgram` drops that answer, and the
error list stays empty; `Eval` of the program then returns the Error
``argument to `len` not supported, got INTEGER``. -/
theorem C11_len_of_integer_unreported :
    parse "len(1)" = some (.ok
      ({ Expression := .CallExpression (.Identifier "len") [.Integer 1] },
       { l := { input := "len(1)", position := 8, readPosition := 9, ch := '\x00' },
         curToken := { Type_ := EOF, Literal := "" },
         peekToken := { Type_ := EOF, Literal := "" },
         errors := [] })) ∧
    Parser.CheckTypeProgram
        { l := { input := "len(1)", position := 8, readPosition := 9, ch := '\x00' },
          curToken := { Type_ := EOF, Literal := "" },
          peekToken := { Type_ := EOF, Literal := "" },
          errors := [] }
        { Expression := .CallExpression (.Identifier "len") [.Integer 1] } =
      .ok (ERROR_OBJ,
        { l := { input := "len(1)", position := 8, readPosition := 9, ch := '\x00' },
          curToken := { Type_ := EOF, Literal := "" },
          peekToken := { Type_ := EOF, Literal := "" },
          errors := [] }) ∧
    parseErrors "len(true)" = some (.ok []) ∧
    evalProgram builtins { Expression := .CallExpression (.Identifier "len") [.Integer 1] }
        NewEnvironment =
      .ok (some (.Error "argument to `len` not supported, got INTEGER")) := by
  decide!

/-- C12 (the code at the failing inputs): the programs `!1` and `!"a"` negate
an operand of type INTEGER and of type STRING. `CheckType` answers `ERROR_OBJ`
for both and appends nothing: the error list is empty after `ParseProgram`. -/
theorem C12_bang_of_non_boolean_unreported :
    parse "!1" = some (.ok
      ({ Expression := .PrefixExpresion "!" (.Integer 1) },
       { l := { input := "!1", position := 4, readPosition := 5, ch := '\x00' },
         curToken := { Type_ := EOF, Literal := "" },
         peekToken := { Type_ := EOF, Literal := "" },
         errors := [] })) ∧
    Parser.CheckTypeProgram
        { l := { input := "!1", position := 4, readPosition := 5, ch := '\x00' },
          curToken := { Type_ := EOF, Literal := "" },
          peekToken := { Type_ := EOF, Literal := "" },
          errors := [] }
        { Expression := .PrefixExpresion "!" (.Integer 1) } =
      .ok (ERROR_OBJ,
        { l := { input := "!1", position := 4, readPosition := 5, ch := '\x00' },
          curToken := { Type_ := EOF, Literal := "" },
          peekToken := { Type_ := EOF, Literal := "" },
          errors := [] }) ∧
    parseExpressionOf "!\"a\"" = some (.ok (.PrefixExpresion "!" (.String "a"))) ∧
    parseErrors "!\"a\"" = some (.ok []) := by
  decide!

/-! ## C13: rendering and parsing again -/

/-- C13 (the code at the failing input): the parser produces the node
`ArrayString{"a", "b"}` from the text `["a","b"]`; its `String()` is `[a,b]`,
without the quotes, and parsing that text gives no array but three errors and
the expression `Identifier{b}`. The literal `Integer{5}` renders as `5` and
parses again to `Integer{5}`. -/
theorem C13_arrayString_rendering :
    parseExpressionOf "[\"a\",\"b\"]" = some (.ok (.ArrayString ["a", "b"])) ∧
    parseErrors "[\"a\",\"b\"]" = some (.ok []) ∧
    (Expression.ArrayString ["a", "b"]).String_ = .ok "[a,b]" ∧
    parseExpressionOf "[a,b]" = some (.ok (.Identifier "b")) ∧
    parseErrors "[a,b]" = some (.ok
      ["unknow array type", "no prefix parse function for , found",
       "no prefix parse function for ] found"]) ∧
    (Expression.Integer 5).String_ = .ok "5" ∧
    parseExpressionOf "5" = some (.ok (.Integer 5)) ∧
    parseErrors "5" = some (.ok []) := by
  decide!

/-! ## C19: base prefixes -/

/-- C19 (as amended): a number token is a run of decimal digits, so the only
base prefix that reaches `strconv.ParseInt` is a leading `0`: `017` is parsed
to `Integer{15}` with no errors. The text `0x10` is the three tokens `0`, `x`,
`10` and is parsed, with no errors, to a program whose expression is the last
one, `Integer{10}`; likewise `0o17` is parsed to `Integer{17}`. -/
theorem C19_base_prefixes :
    parseExpressionOf "017" = some (.ok (.Integer 15)) ∧
    parseErrors "017" = some (.ok []) ∧
    (NewLexer "0x10").NextToken =
      some ({ Type_ := INT, Literal := "0" },
            { input := "0x10", position := 1, readPosition := 2, ch := 'x' }) ∧
    Lexer.NextToken { input := "0x10", position := 1, readPosition := 2, ch := 'x' } =
      some ({ Type_ := IDENT, Literal := "x" },
            { input := "0x10", position := 2, readPosition := 3, ch := '1' }) ∧
    Lexer.NextToken { input := "0x10", position := 2, readPosition := 3, ch := '1' } =
      some ({ Type_ := INT, Literal := "10" },
            { input := "0x10", position := 4, readPosition := 5, ch := '\x00' }) ∧
    parseExpressionOf "0x10" = some (.ok (.Integer 10)) ∧
    parseErrors "0x10" = some (.ok []) ∧
    parseExpressionOf "0o17" = some (.ok (.Integer 17)) ∧
    parseErrors "0o17" = some (.ok []) := by
  decide!

/-- C19 (counterexample): parsing `0x10` with `ParseProgram` does not yield a
program whose expression is `Integer{16}`, and `0o17` does not yield
`Integer{15}`. -/
theorem C19_counterexample :
    parseExpressionOf "0x10" ≠ some (.ok (.Integer 16)) ∧
      parseExpressionOf "0o17" ≠ some (.ok (.Integer 15)) := by
  decide!

/-! ## C16: identifiers are not reserved words -/

theorem LookupIdent_eq_IDENT (lit : String) (h : LookupIdent lit = IDENT) :
    lit ∉ reserved ∧ keywords lit = none := by
  unfold LookupIdent at h
  cases hk : keywords lit with
  | some t =>
    rw [hk] at h
    simp only at h
    subst h
    unfold keywords at hk
    split_ifs at hk <;> simp at hk <;> exact absurd hk (by decide)
  | none =>
    rw [hk] at h
    simp only at h
    refine ⟨?_, rfl⟩
    intro hr
    rw [if_pos hr] at h
    exact absurd h (by decide)

theorem Lexer.identSound_of_ne (tok : Token) (l : Lexer) (h : tok.Type_ ≠ IDENT) :
    Lexer.IdentSound (some (tok, l)) := by
  intro tok1 l1 h1 hi
  cases h1
  exact absurd hi h

theorem Lexer.identSound_twoByte (l : Lexer) (second : Char) (ty : TokenType) (lit : String)
    (orElse : Token) (h1 : ty ≠ IDENT) (h2 : orElse.Type_ ≠ IDENT) :
    Lexer.IdentSound (some (l.twoByte second ty lit orElse)) := by
  unfold Lexer.twoByte
  split
  · exact Lexer.identSound_of_ne _ _ h1
  · exact Lexer.identSound_of_ne _ _ h2

theorem Lexer.identSound_newToken (ty : TokenType) (ch : Char) (l : Lexer) (h : ty ≠ IDENT) :
    Lexer.IdentSound (some (newToken ty ch, l)) :=
  Lexer.identSound_of_ne _ _ h

theorem Lexer.identSound_twoByte_newToken (l : Lexer) (second : Char) (ty : TokenType)
    (lit : String) (ty2 : TokenType) (h1 : ty ≠ IDENT) (h2 : ty2 ≠ IDENT) :
    Lexer.IdentSound (some (l.twoByte second ty lit (newToken ty2 l.ch))) :=
  Lexer.identSound_twoByte l second ty lit _ h1 h2

theorem Lexer.identSound_string (l : Lexer) :
    Lexer.IdentSound (match l.readString with
      | none => none
      | some (lit, l1) => some ({ Type_ := STRING, Literal := lit }, l1.readChar)) := by
  cases l.readString with
  | none => intro tok l1 h; simp at h
  | some r => exact Lexer.identSound_of_ne _ _ (show STRING ≠ IDENT by decide)

theorem Lexer.identSound_number (l : Lexer) :
    Lexer.IdentSound (match l.readNumber with
      | none => none
      | some (lit, l1) => some ({ Type_ := INT, Literal := lit }, l1)) := by
  cases l.readNumber with
  | none => intro tok l1 h; simp at h
  | some r => exact Lexer.identSound_of_ne _ _ (show INT ≠ IDENT by decide)

theorem Lexer.identSound_identifier (l : Lexer) :
    Lexer.IdentSound (match l.readIdentifier with
      | none => none
      | some (lit, l1) => some ({ Type_ := LookupIdent lit, Literal := lit }, l1)) := by
  cases l.readIdentifier with
  | none => intro tok l1 h; simp at h
  | some r =>
    intro tok l1 h hi
    cases h
    exact LookupIdent_eq_IDENT r.1 hi

theorem Lexer.scanToken_identSound (l : Lexer) : Lexer.IdentSound l.scanToken := by
  unfold Lexer.scanToken
  dsimp only
  repeat' (first
    | exact Lexer.identSound_twoByte l _ _ _ _ (by decide) (by decide)
    | exact Lexer.identSound_twoByte_newToken l _ _ _ _ (by decide) (by decide)
    | exact Lexer.identSound_newToken _ _ _ (by decide)
    | exact Lexer.identSound_of_ne _ _ (by decide)
    | exact Lexer.identSound_string l
    | exact Lexer.identSound_identifier l
    | exact Lexer.identSound_number l
    | (apply ite_induct (P := Lexer.IdentSound) <;> intro _))

theorem Lexer.NextToken_identSound (l : Lexer) : Lexer.IdentSound l.NextToken := by
  unfold Lexer.NextToken
  cases l.skipWhitespace with
  | none => intro tok l1 h; simp at h
  | some l1 => exact Lexer.scanToken_identSound l1

/-- C16: in every state of the lexer, hence on every input text and after any
number of tokens, a token that `NextToken` returns with the type `IDENT` has a
literal that is not in the reserved word set and not in the keyword table. -/
theorem C16_ident_not_reserved (l l1 : Lexer) (tok : Token)
    (h : l.NextToken = some (tok, l1)) (hi : tok.Type_ = IDENT) :
    tok.Literal ∉ reserved ∧ keywords tok.Literal = none :=
  Lexer.NextToken_identSound l tok l1 h hi

/-- C16 (witness): the second token of `go abc` is `{IDENT, "abc"}`, and `abc`
is neither reserved nor a keyword; the first one, for the reserved word `go`,
is `{ILLEGAL, "go"}`. -/
theorem C16_ident_not_reserved_witness :
    ("abc" ∉ reserved ∧ keywords "abc" = none) ∧
      (NewLexer "go abc").NextToken =
        some ({ Type_ := ILLEGAL, Literal := "go" },
              { input := "go abc", position := 2, readPosition := 3, ch := ' ' }) :=
  ⟨C16_ident_not_reserved
      { input := "go abc", position := 2, readPosition := 3, ch := ' ' }
      { input := "go abc", position := 6, readPosition := 7, ch := '\x00' }
      { Type_ := IDENT, Literal := "abc" } (by decide!) (by decide),
   by decide!⟩

/-! ## C15: the end of the input -/

theorem Lexer.afterCalls_WF :
    ∀ (k : Nat) (l l1 : Lexer), l.WF → l.afterCalls k = some l1 → l1.WF := by
  intro k
  induction k with
  | zero =>
    intro l l1 hw h
    simp only [Lexer.afterCalls, Option.some.injEq] at h
    exact h ▸ hw
  | succ k ih =>
    intro l l1 hw h
    unfold Lexer.afterCalls at h
    cases hn : l.NextToken with
    | none => rw [hn] at h; simp at h
    | some r =>
      rw [hn] at h
      exact ih r.2 l1 (Lexer.NextToken_scanned l hw r.1 r.2 hn).1 h

theorem Lexer.NextToken_at_end (l : Lexer) (hw : l.WF) (he : l.input.length ≤ l.position) :
    l.NextToken = some ({ Type_ := EOF, Literal := "" }, l.readChar) := by
  have hz : l.ch = '\x00' := hw.2 he
  have hs : l.skipWhitespace = some l := by
    unfold Lexer.skipWhitespace Lexer.budget
    rw [Lexer.advanceWhile, hz]
    rfl
  unfold Lexer.NextToken
  rw [hs]
  unfold Lexer.scanToken
  dsimp only
  simp only [hz, Char.reduceEq, if_false, if_true]

theorem Lexer.afterCalls_at_end :
    ∀ (j : Nat) (l : Lexer), l.WF → l.input.length ≤ l.position →
      ∃ l2, l.afterCalls j = some l2 ∧
        l2.NextToken = some ({ Type_ := EOF, Literal := "" }, l2.readChar) := by
  intro j
  induction j with
  | zero =>
    intro l hw he
    exact ⟨l, rfl, Lexer.NextToken_at_end l hw he⟩
  | succ j ih =>
    intro l hw he
    have hr : l.readChar.input.length ≤ l.readChar.position := by
      simp only [Lexer.readChar, hw.1]
      omega
    obtain ⟨l2, h2, h3⟩ := ih l.readChar (Lexer.WF_readChar l) hr
    refine ⟨l2, ?_, h3⟩
    unfold Lexer.afterCalls
    rw [Lexer.NextToken_at_end l hw he]
    exact h2

/-- C15: on every input, once the lexer, after any number `k` of calls, has its
position at the end of the input, `NextToken` returns the token `{EOF, ""}`,
and so does every later call: for every number `j` of further calls, the call
after them returns `{EOF, ""}`. -/
theorem C15_EOF_forever (input : String) (k j : Nat) (l : Lexer)
    (hk : (NewLexer input).afterCalls k = some l) (he : l.input.length ≤ l.position) :
    ∃ l2, l.afterCalls j = some l2 ∧
      l2.NextToken = some ({ Type_ := EOF, Literal := "" }, l2.readChar) :=
  Lexer.afterCalls_at_end j l (Lexer.afterCalls_WF k _ l (Lexer.WF_readChar _) hk) he

/-- C15 (witness): on the input `a`, after one call the position is at the end;
the call that follows three further calls returns `{EOF, ""}`. -/
theorem C15_EOF_forever_witness :
    ∃ l2, Lexer.afterCalls 3 { input := "a", position := 1, readPosition := 2, ch := '\x00' } =
        some l2 ∧
      l2.NextToken = some ({ Type_ := EOF, Literal := "" }, l2.readChar) :=
  C15_EOF_forever "a" 1 3 { input := "a", position := 1, readPosition := 2, ch := '\x00' }
    (by decide!) (by decide)

/-! ## C14: the checker run twice -/

theorem Parser.foldl_overloads_unchanged (args : List Expression)
    (hargs : ∀ (p p1 : Parser) (ets rets : List ObjectType) (rt t : ObjectType),
      Parser.checkOverload p args ets rets rt = .ok (t, p1) → p1.errors = [] → p1 = p) :
    ∀ (overloads : List (List ObjectType × List ObjectType)) (init : Parser.Checked)
      (t : ObjectType) (p1 : Parser),
      overloads.foldl
          (fun (state : Parser.Checked) expectArgs =>
            match state with
            | .error e => .error e
            | .ok (returnType, p2) =>
              if returnType ≠ ERROR_OBJ then .ok (returnType, p2)
              else Parser.checkOverload p2 args expectArgs.1 expectArgs.2 returnType)
          init = .ok (t, p1) →
        p1.errors = [] → ∃ t0, init = .ok (t0, p1) := by
  intro overloads
  induction overloads with
  | nil =>
    intro init t p1 h _
    exact ⟨t, h⟩
  | cons x xs ih =>
    intro init t p1 h h1
    rw [List.foldl_cons] at h
    obtain ⟨t1, hstep⟩ := ih _ t p1 h h1
    match init, hstep with
    | .error e, hstep => simp at hstep
    | .ok (rt, p0), hstep =>
      simp only at hstep
      by_cases hrt : rt ≠ ERROR_OBJ
      · rw [if_pos hrt] at hstep
        simp only [Except.ok.injEq, Prod.mk.injEq] at hstep
        exact ⟨rt, by rw [hstep.2]⟩
      · rw [if_neg hrt] at hstep
        have := hargs p0 p1 _ _ _ _ hstep h1
        exact ⟨rt, by rw [this]⟩

mutual
theorem Parser.CheckType_unchanged :
    ∀ (e : Expression) (p p1 : Parser) (t : ObjectType),
      p.CheckType e = .ok (t, p1) → p1.errors = [] → p1 = p
  | .nil, p, p1, t, h, _ => by
    simp only [Parser.CheckType, Except.ok.injEq, Prod.mk.injEq] at h
    exact h.2.symm
  | .Integer _, p, p1, t, h, _ => by
    simp only [Parser.CheckType, Except.ok.injEq, Prod.mk.injEq] at h
    exact h.2.symm
  | .String _, p, p1, t, h, _ => by
    simp only [Parser.CheckType, Except.ok.injEq, Prod.mk.injEq] at h
    exact h.2.symm
  | .Boolean _, p, p1, t, h, _ => by
    simp only [Parser.CheckType, Except.ok.injEq, Prod.mk.injEq] at h
    exact h.2.symm
  | .Identifier _, p, p1, t, h, _ => by
    simp only [Parser.CheckType, Except.ok.injEq, Prod.mk.injEq] at h
    exact h.2.symm
  | .ArrayString _, p, p1, t, h, _ => by
    simp only [Parser.CheckType, Except.ok.injEq, Prod.mk.injEq] at h
    exact h.2.symm
  | .ArrayInteger _, p, p1, t, h, _ => by
    simp only [Parser.CheckType, Except.ok.injEq, Prod.mk.injEq] at h
    exact h.2.symm
  | .PrefixExpresion op right, p, p1, t, h, h1 => by
    have ih := Parser.CheckType_unchanged right
    simp only [Parser.CheckType] at h
    by_cases he : p.errors.length ≠ 0
    · rw [if_pos he] at h
      simp only [Except.ok.injEq, Prod.mk.injEq] at h
      exact h.2.symm
    · rw [if_neg he] at h
      cases hpp : prefixProtos op with
      | none =>
        rw [hpp] at h
        simp only [Except.ok.injEq, Prod.mk.injEq] at h
        rw [← h.2] at h1
        simp at h1
      | some expects =>
        rw [hpp] at h
        cases hc : p.CheckType right with
        | error e => rw [hc] at h; simp at h
        | ok r =>
          obtain ⟨rt, p2⟩ := r
          rw [hc] at h
          have hp2 : p1 = p2 := by
            simp only at h
            split_ifs at h <;> simp only [Except.ok.injEq, Prod.mk.injEq] at h <;> exact h.2.symm
          subst hp2
          exact ih p p1 rt hc h1
  | .InfixExpression left op right, p, p1, t, h, h1 => by
    have ihl := Parser.CheckType_unchanged left
    have ihr := Parser.CheckType_unchanged right
    simp only [Parser.CheckType] at h
    by_cases he : p.errors.length ≠ 0
    · rw [if_pos he] at h
      simp only [Except.ok.injEq, Prod.mk.injEq] at h
      exact h.2.symm
    · rw [if_neg he] at h
      cases hpp : infixProtos op with
      | none =>
        rw [hpp] at h
        simp only [Except.ok.injEq, Prod.mk.injEq] at h
        rw [← h.2] at h1
        simp at h1
      | some expects =>
        rw [hpp] at h
        cases hcl : p.CheckType left with
        | error e => rw [hcl] at h; simp at h
        | ok r =>
          obtain ⟨lt, p2⟩ := r
          rw [hcl] at h
          simp only at h
          cases hcr : p2.CheckType right with
          | error e => rw [hcr] at h; simp at h
          | ok r2 =>
            obtain ⟨rt, p3⟩ := r2
            rw [hcr] at h
            have hp3 : p1 = p3 := by
              simp only at h
              split at h
              · simp only [Except.ok.injEq, Prod.mk.injEq] at h
                exact h.2.symm
              · split at h
                · split at h
                  · simp at h
                  · simp only [Except.ok.injEq, Prod.mk.injEq] at h
                    rw [← h.2] at h1
                    simp at h1
                · split at h
                  · simp only [Except.ok.injEq, Prod.mk.injEq] at h
                    rw [← h.2] at h1
                    simp at h1
                  · simp only [Except.ok.injEq, Prod.mk.injEq] at h
                    exact h.2.symm
            subst hp3
            have h32 := ihr p2 p1 rt hcr h1
            subst h32
            exact ihl p p1 lt hcl h1
  | .CallExpression function args, p, p1, t, h, h1 => by
    have ih := Parser.checkOverload_unchanged args
    simp only [Parser.CheckType] at h
    by_cases he : p.errors.length ≠ 0
    · rw [if_pos he] at h
      simp only [Except.ok.injEq, Prod.mk.injEq] at h
      exact h.2.symm
    · rw [if_neg he] at h
      cases hs : function.String_ with
      | error e => rw [hs] at h; simp at h
      | ok name =>
        rw [hs] at h
        simp only at h
        cases hf : funcProtos name with
        | none =>
          rw [hf] at h
          simp only [Except.ok.injEq, Prod.mk.injEq] at h
          rw [← h.2] at h1
          simp at h1
        | some expects =>
          rw [hf] at h
          cases expects with
          | nil => simp at h
          | cons first rest =>
            simp only at h
            split at h
            · simp only [Except.ok.injEq, Prod.mk.injEq] at h
              rw [← h.2] at h1
              simp at h1
            · obtain ⟨t0, h0⟩ := Parser.foldl_overloads_unchanged args ih _ _ t p1 h h1
              simp only [Except.ok.injEq, Prod.mk.injEq] at h0
              exact h0.2.symm
theorem Parser.checkOverload_unchanged :
    ∀ (args : List Expression) (p p1 : Parser) (ets rets : List ObjectType) (rt t : ObjectType),
      Parser.checkOverload p args ets rets rt = .ok (t, p1) → p1.errors = [] → p1 = p
  | [], p, p1, [], rets, rt, t, h, _ => by
    simp only [Parser.checkOverload, Except.ok.injEq, Prod.mk.injEq] at h
    exact h.2.symm
  | _ :: _, p, p1, [], rets, rt, t, h, _ => by
    simp only [Parser.checkOverload, Except.ok.injEq, Prod.mk.injEq] at h
    exact h.2.symm
  | [], p, p1, _ :: _, rets, rt, t, h, _ => by
    simp [Parser.checkOverload] at h
  | arg :: args, p, p1, et :: ets, rets, rt, t, h, h1 => by
    have iha := Parser.CheckType_unchanged arg
    have ih := Parser.checkOverload_unchanged args
    simp only [Parser.checkOverload] at h
    cases hc : p.CheckType arg with
    | error e => rw [hc] at h; simp at h
    | ok r =>
      obtain ⟨actual, p2⟩ := r
      rw [hc] at h
      simp only at h
      have hp2 : p1 = p2 := by
        split at h
        · simp only [Except.ok.injEq, Prod.mk.injEq] at h
          exact h.2.symm
        · cases ets with
          | nil =>
            simp only at h
            cases rets with
            | nil => simp at h
            | cons r0 rs =>
              simp only [Except.ok.injEq, Prod.mk.injEq] at h
              exact h.2.symm
          | cons et2 ets2 =>
            simp only at h
            exact ih p2 p1 _ _ _ _ h h1
      subst hp2
      exact iha p p1 actual hc h1
end

/-- C14: the checker is idempotent on a valid tree.  Whenever `CheckType` on a
node returns a type `t` and the parser it leaves has an empty error list, that
parser is the one the call started from (so the list was empty before, too), and
a second `CheckType` on the same node returns the same `t` and leaves the same
parser, with its error list still empty. -/
theorem C14_checkType_idempotent (node : Expression) (p p1 : Parser) (t : ObjectType)
    (h : p.CheckType node = .ok (t, p1)) (h1 : p1.errors = []) :
    p.errors = [] ∧ p1.CheckType node = .ok (t, p1) ∧ p1.errors = [] := by
  have hp : p1 = p := Parser.CheckType_unchanged node p p1 t h h1
  subst hp
  exact ⟨h1, h, h1⟩

/-- C14 at the tree of `len(abc) > 1 && S == 123`, which checks to `BOOLEAN`. -/
theorem C14_checkType_idempotent_witness :
    testParser.CheckType testProgram.Expression = .ok (BOOLEAN_OBJ, testParser) ∧
    testParser.errors = [] ∧
    (testParser.errors = [] ∧
      testParser.CheckType testProgram.Expression = .ok (BOOLEAN_OBJ, testParser) ∧
      testParser.errors = []) :=
  ⟨by decide!, rfl,
    C14_checkType_idempotent testProgram.Expression testParser testParser BOOLEAN_OBJ
      (by decide!) rfl⟩

/-! ## C25: `<=` and `>=` on integers -/

/-- C25 (the code at the failing inputs): the texts `1 <= 2` and `2 >= 1` are
parsed and checked with no error, but `evalIntegerInfixExpression` has no case
for `<=` or `>=`: for all integers `a` and `b`, evaluating `a <= b` returns the
Error `unknow operator: INTEGER <= INTEGER`, and `a >= b` the Error
`unknow operator: INTEGER >= INTEGER`. -/
theorem C25_le_ge_not_evaluated :
    parseExpressionOf "1 <= 2" = some (.ok (.InfixExpression (.Integer 1) "<=" (.Integer 2))) ∧
    parseErrors "1 <= 2" = some (.ok []) ∧
    parseExpressionOf "2 >= 1" = some (.ok (.InfixExpression (.Integer 2) ">=" (.Integer 1))) ∧
    parseErrors "2 >= 1" = some (.ok []) ∧
    (∀ (table : BuiltinTable) (env : Environment) (a b : Int),
      Eval table env (.InfixExpression (.Integer a) "<=" (.Integer b)) =
        .ok (some (.Error "unknow operator: INTEGER <= INTEGER"))) ∧
    (∀ (table : BuiltinTable) (env : Environment) (a b : Int),
      Eval table env (.InfixExpression (.Integer a) ">=" (.Integer b)) =
        .ok (some (.Error "unknow operator: INTEGER >= INTEGER"))) ∧
    evalText "1 <= 2" NewEnvironment =
      some (.ok (some (.Error "unknow operator: INTEGER <= INTEGER"))) := by
  refine ⟨by decide!, by decide!, by decide!, by decide!, ?_, ?_, by decide!⟩
  · intro table env a b
    simp [Eval, isError, Object.ObjectType, evalInfixExpression, evalIntegerInfixExpression,
      unknowOperator, newError]
    have h : ¬ (INTEGER_OBJ = ERROR_OBJ) := by decide
    rw [if_neg h, if_neg h]
    decide
  · intro table env a b
    simp [Eval, isError, Object.ObjectType, evalInfixExpression, evalIntegerInfixExpression,
      unknowOperator, newError]
    have h : ¬ (INTEGER_OBJ = ERROR_OBJ) := by decide
    rw [if_neg h, if_neg h]
    decide

/-! ## C22: the operator `!` -/

/-- C22: evaluating `!e`, for an operand `e` that evaluates to a value `r` that
is not an Error, returns the singleton `boolTrue` exactly when `r` is the
singleton `boolFalse`, and the singleton `boolFalse` otherwise: when `r` is the
singleton `boolTrue`, and for every other value, a `*Boolean` that is not one
of the singletons included. A comparison of two integers returns such a fresh
`*Boolean`: for all integers `a` and `b`, `!(a > b)` and `!(a == b)` evaluate
to `boolFalse`. -/
theorem C22_bang_operator (table : BuiltinTable) (env : Environment) :
    (∀ (e : Expression) (r : Option Object),
      Eval table env e = .ok r → isError r = false →
        (r = some .boolFalse →
          Eval table env (.PrefixExpresion "!" e) = .ok (some .boolTrue)) ∧
        (r = some .boolTrue →
          Eval table env (.PrefixExpresion "!" e) = .ok (some .boolFalse)) ∧
        (r ≠ some .boolFalse →
          Eval table env (.PrefixExpresion "!" e) = .ok (some .boolFalse))) ∧
    (∀ a b : Int,
      Eval table env (.InfixExpression (.Integer a) ">" (.Integer b)) =
        .ok (some (.Boolean (decide (a > b)))) ∧
      Eval table env (.PrefixExpresion "!" (.InfixExpression (.Integer a) ">" (.Integer b))) =
        .ok (some .boolFalse)) ∧
    (∀ a b : Int,
      Eval table env (.InfixExpression (.Integer a) "==" (.Integer b)) =
        .ok (some (.Boolean (decide (a = b)))) ∧
      Eval table env (.PrefixExpresion "!" (.InfixExpression (.Integer a) "==" (.Integer b))) =
        .ok (some .boolFalse)) := by
  have hne : ¬ (INTEGER_OBJ = ERROR_OBJ) := by decide
  have hbe : ¬ (BOOLEAN_OBJ = ERROR_OBJ) := by decide
  refine ⟨?_, ?_, ?_⟩
  · intro e r h hr
    have hev : Eval table env (.PrefixExpresion "!" e) =
        .ok (some (evalBangOperatorExpression r)) := by
      simp [Eval, h, hr, evalPrefixOperatorExpression]
    rw [hev]
    refine ⟨?_, ?_, ?_⟩
    · intro h1
      subst h1
      rfl
    · intro h1
      subst h1
      rfl
    · intro h1
      match r, h1 with
      | none, _ => rfl
      | some .boolFalse, h1 => exact absurd rfl h1
      | some .boolTrue, _ => rfl
      | some (.Integer _), _ => rfl
      | some (.String _), _ => rfl
      | some (.Boolean _), _ => rfl
      | some (.ArrayInteger _), _ => rfl
      | some (.ArrayString _), _ => rfl
      | some (.Identifier _), _ => rfl
      | some (.Error _), _ => rfl
      | some (.Builtin _), _ => rfl
  · intro a b
    have h1 : Eval table env (.InfixExpression (.Integer a) ">" (.Integer b)) =
        .ok (some (.Boolean (decide (a > b)))) := by
      simp [Eval, isError, Object.ObjectType, evalInfixExpression, evalIntegerInfixExpression,
        hne]
    refine ⟨h1, ?_⟩
    simp [Eval, isError, Object.ObjectType, evalInfixExpression, evalIntegerInfixExpression,
        hne, hbe, evalPrefixOperatorExpression, evalBangOperatorExpression]
  · intro a b
    have h1 : Eval table env (.InfixExpression (.Integer a) "==" (.Integer b)) =
        .ok (some (.Boolean (decide (a = b)))) := by
      simp [Eval, isError, Object.ObjectType, evalInfixExpression, evalIntegerInfixExpression,
        hne]
    refine ⟨h1, ?_⟩
    simp [Eval, isError, Object.ObjectType, evalInfixExpression, evalIntegerInfixExpression,
        hne, hbe, evalPrefixOperatorExpression, evalBangOperatorExpression]

/-- C22 at `!false`, `!true`, `!5`, and at `!(1 > 2)` parsed from its text. -/
theorem C22_bang_operator_witness :
    Eval builtins NewEnvironment (.PrefixExpresion "!" (.Boolean false)) = .ok (some .boolTrue) ∧
    Eval builtins NewEnvironment (.PrefixExpresion "!" (.Boolean true)) = .ok (some .boolFalse) ∧
    Eval builtins NewEnvironment (.PrefixExpresion "!" (.Integer 5)) = .ok (some .boolFalse) ∧
    evalText "!(1 > 2)" NewEnvironment = some (.ok (some .boolFalse)) :=
  ⟨((C22_bang_operator builtins NewEnvironment).1 (.Boolean false) (some .boolFalse)
      (by simp [Eval, nativeBoolToBooleanObject]) (by decide)).1 rfl,
   ((C22_bang_operator builtins NewEnvironment).1 (.Boolean true) (some .boolTrue)
      (by simp [Eval, nativeBoolToBooleanObject]) (by decide)).2.1 rfl,
   ((C22_bang_operator builtins NewEnvironment).1 (.Integer 5) (some (.Integer 5))
      (by simp [Eval]) (by decide)).2.2 (by decide),
   by decide!⟩

/-! ## C26: checked programs that evaluate to an Error -/

/-- C26 (the code at the failing inputs): the texts `true == true`,
`"a" >= "b"` and `len(1)` contain no identifier other than the callee `len`;
each is parsed to a present expression and `ParseProgram` ends with an empty
error list; `Eval` of each program in an empty environment returns an Error
object. -/
theorem C26_checked_but_error :
    parseExpressionOf "true == true" =
      some (.ok (.InfixExpression (.Boolean true) "==" (.Boolean true))) ∧
    parseErrors "true == true" = some (.ok []) ∧
    evalText "true == true" NewEnvironment =
      some (.ok (some (.Error "unknow operator: BOLLEAN == BOLLEAN"))) ∧
    parseExpressionOf "\"a\" >= \"b\"" =
      some (.ok (.InfixExpression (.String "a") ">=" (.String "b"))) ∧
    parseErrors "\"a\" >= \"b\"" = some (.ok []) ∧
    evalText "\"a\" >= \"b\"" NewEnvironment =
      some (.ok (some (.Error "unknow operator: STRING >= STRING"))) ∧
    parseExpressionOf "len(1)" =
      some (.ok (.CallExpression (.Identifier "len") [.Integer 1])) ∧
    parseErrors "len(1)" = some (.ok []) ∧
    evalText "len(1)" NewEnvironment =
      some (.ok (some (.Error "argument to `len` not supported, got INTEGER"))) := by
  decide!

/-! ## C21: grouping by precedence -/

theorem Parser.parseExpression_operand (n : Nat) (p : Parser) (precedence : Nat)
    (e : Expression) (h : simpleOperand p.curToken = some e) :
    Parser.parseExpression (n + 1) p precedence = Parser.parseExpressionLoop n p precedence e := by
  unfold simpleOperand at h
  by_cases h1 : p.curToken.Type_ = IDENT
  · rw [if_pos h1] at h
    cases h
    have hf : prefixParseFns p.curToken.Type_ = some .parseIdentifier := by rw [h1]; decide
    simp only [Parser.parseExpression, hf, Parser.parseIdentifier]
  rw [if_neg h1] at h
  by_cases h2 : p.curToken.Type_ = INT
  · rw [if_pos h2] at h
    have hf : prefixParseFns p.curToken.Type_ = some .parseInteger := by rw [h2]; decide
    cases hv : ParseInt p.curToken.Literal 0 with
    | error err => rw [hv] at h; cases h
    | ok value =>
      rw [hv] at h
      cases h
      simp only [Parser.parseExpression, hf, Parser.parseInteger, hv]
  rw [if_neg h2] at h
  by_cases h3 : p.curToken.Type_ = STRING
  · rw [if_pos h3] at h
    cases h
    have hf : prefixParseFns p.curToken.Type_ = some .parseString := by rw [h3]; decide
    simp only [Parser.parseExpression, hf, Parser.parseString]
  rw [if_neg h3] at h
  by_cases h4 : p.curToken.Type_ = TRUE
  · rw [if_pos h4] at h
    cases h
    have hf : prefixParseFns p.curToken.Type_ = some .parseBoolean := by rw [h4]; decide
    have hb : p.curTokenIs TRUE = true := by simp [Parser.curTokenIs, h4]
    simp only [Parser.parseExpression, hf, Parser.parseBoolean, hb]
  rw [if_neg h4] at h
  by_cases h5 : p.curToken.Type_ = FALSE
  · rw [if_pos h5] at h
    cases h
    have hf : prefixParseFns p.curToken.Type_ = some .parseBoolean := by rw [h5]; decide
    have hb : p.curTokenIs TRUE = false := by
      simp only [Parser.curTokenIs, h5]
      decide
    simp only [Parser.parseExpression, hf, Parser.parseBoolean, hb]
  rw [if_neg h5] at h
  cases h

theorem Parser.parseExpressionLoop_at_EOF (n : Nat) (p : Parser) (precedence : Nat)
    (e : Expression) (h : p.peekToken.Type_ = EOF) :
    Parser.parseExpressionLoop (n + 1) p precedence e = some (e, p) := by
  simp [Parser.parseExpressionLoop, Parser.peekTokenIs, h]

theorem Parser.parseExpressionLoop_stop (n : Nat) (p : Parser) (precedence : Nat)
    (e : Expression) (h : ¬ precedence < precedenceOf p.peekToken.Type_) :
    Parser.parseExpressionLoop (n + 1) p precedence e = some (e, p) := by
  have h1 : ¬ precedence < p.peekPrecedence := h
  simp [Parser.parseExpressionLoop, h1]

theorem groupingOperators_spec :
    ∀ op ∈ groupingOperators,
      op ≠ EOF ∧ infixParseFns op = some .parseInfixExpression ∧ LOWEST < precedenceOf op := by
  decide

theorem groupingOperators_order :
    ∀ op1 ∈ groupingOperators, ∀ op2 ∈ groupingOperators,
      (precedenceOf op1 < precedenceOf op2 ↔ specLevel op1 < specLevel op2) := by
  decide

theorem Parser.parseExpressionLoop_operator (n : Nat) (p : Parser) (precedence : Nat)
    (left : Expression) (tok : Token) (l1 : Lexer)
    (hop : p.peekToken.Type_ ∈ groupingOperators)
    (hlt : precedence < precedenceOf p.peekToken.Type_)
    (hn : p.l.NextToken = some (tok, l1)) :
    Parser.parseExpressionLoop (n + 1) p precedence left =
      match Parser.parseInfixExpression n
        { l := l1, curToken := p.peekToken, peekToken := tok, errors := p.errors } left with
      | none => none
      | some (e1, p2) => Parser.parseExpressionLoop n p2 precedence e1 := by
  obtain ⟨hne, hf, _⟩ := groupingOperators_spec _ hop
  have h1 : precedence < p.peekPrecedence := hlt
  have h2 : p.peekTokenIs EOF = false := by simp [Parser.peekTokenIs, hne]
  simp only [Parser.parseExpressionLoop, h2, h1, hf, Parser.nextToken, hn]
  simp only [Bool.not_false, decide_True, Bool.and_self, if_true]

theorem Parser.parseInfixExpression_next (n : Nat) (p : Parser) (left : Expression)
    (tok : Token) (l1 : Lexer) (hn : p.l.NextToken = some (tok, l1)) :
    Parser.parseInfixExpression (n + 1) p left =
      match Parser.parseExpression n
        { l := l1, curToken := p.peekToken, peekToken := tok, errors := p.errors }
        (precedenceOf p.curToken.Type_) with
      | none => none
      | some (right, p2) => some (.InfixExpression left p.curToken.Literal right, p2) := by
  simp only [Parser.parseInfixExpression, Parser.nextToken, hn]
  rfl

theorem Parser.parseExpression_grouping (n : Nat) (p : Parser) (op1 op2 : TokenType)
    (a b c : Expression) (tb tc tend : Token) (l1 l2 l3 l4 : Lexer)
    (hop1 : op1 ∈ groupingOperators) (hop2 : op2 ∈ groupingOperators)
    (ha : simpleOperand p.curToken = some a)
    (hpeek : p.peekToken = { Type_ := op1, Literal := op1 })
    (h1 : p.l.NextToken = some (tb, l1)) (hb : simpleOperand tb = some b)
    (h2 : l1.NextToken = some ({ Type_ := op2, Literal := op2 }, l2))
    (h3 : l2.NextToken = some (tc, l3)) (hc : simpleOperand tc = some c)
    (h4 : l3.NextToken = some (tend, l4)) (hend : tend.Type_ = EOF) :
    Parser.parseExpression (n + 8) p LOWEST =
      some (grouped op1 op2 a b c,
        { l := l4, curToken := tc, peekToken := tend, errors := p.errors }) := by
  obtain ⟨_, _, hlow1⟩ := groupingOperators_spec op1 hop1
  obtain ⟨_, _, hlow2⟩ := groupingOperators_spec op2 hop2
  have hop1p : p.peekToken.Type_ ∈ groupingOperators := by rw [hpeek]; exact hop1
  have hlow1p : LOWEST < precedenceOf p.peekToken.Type_ := by rw [hpeek]; exact hlow1
  have e1 := Parser.parseExpression_operand (n + 7) p LOWEST a ha
  have e2 := Parser.parseExpressionLoop_operator (n + 6) p LOWEST a tb l1 hop1p hlow1p h1
  have e3 := Parser.parseInfixExpression_next (n + 5)
    { l := l1, curToken := p.peekToken, peekToken := tb, errors := p.errors } a _ l2 h2
  have e4 := Parser.parseExpression_operand (n + 4)
    { l := l2, curToken := tb, peekToken := { Type_ := op2, Literal := op2 }, errors := p.errors }
    (precedenceOf p.peekToken.Type_) b hb
  have e10 := Parser.parseExpressionLoop_at_EOF (n + 5)
    { l := l4, curToken := tc, peekToken := tend, errors := p.errors } LOWEST
  have hp1 : p.peekToken.Type_ = op1 := by rw [hpeek]
  have hp2 : p.peekToken.Literal = op1 := by rw [hpeek]
  by_cases hlt : precedenceOf op1 < precedenceOf op2
  · have hs : specLevel op1 < specLevel op2 := (groupingOperators_order op1 hop1 op2 hop2).1 hlt
    have e5 := Parser.parseExpressionLoop_operator (n + 3)
      { l := l2, curToken := tb, peekToken := { Type_ := op2, Literal := op2 },
        errors := p.errors }
      (precedenceOf p.peekToken.Type_) b tc l3 hop2 (by rw [hp1]; exact hlt) h3
    have e6 := Parser.parseInfixExpression_next (n + 2)
      { l := l3, curToken := { Type_ := op2, Literal := op2 }, peekToken := tc,
        errors := p.errors } b tend l4 h4
    have e7 := Parser.parseExpression_operand (n + 1)
      { l := l4, curToken := tc, peekToken := tend, errors := p.errors } (precedenceOf op2) c hc
    have e8 := Parser.parseExpressionLoop_at_EOF n
      { l := l4, curToken := tc, peekToken := tend, errors := p.errors } (precedenceOf op2) c hend
    have e9 := Parser.parseExpressionLoop_at_EOF (n + 2)
      { l := l4, curToken := tc, peekToken := tend, errors := p.errors }
      (precedenceOf p.peekToken.Type_) (.InfixExpression b op2 c) hend
    rw [e1, e2, e3, e4, e5, e6, e7, e8]
    simp only
    rw [e9]
    simp only
    rw [e10 _ hend, hp2]
    simp only [grouped, if_pos hs]
  · have hs : ¬ specLevel op1 < specLevel op2 :=
      fun h => hlt ((groupingOperators_order op1 hop1 op2 hop2).2 h)
    have e5 := Parser.parseExpressionLoop_stop (n + 3)
      { l := l2, curToken := tb, peekToken := { Type_ := op2, Literal := op2 },
        errors := p.errors }
      (precedenceOf p.peekToken.Type_) b (by rw [hp1]; exact hlt)
    have e6 := Parser.parseExpressionLoop_operator (n + 5)
      { l := l2, curToken := tb, peekToken := { Type_ := op2, Literal := op2 },
        errors := p.errors }
      LOWEST (.InfixExpression a op1 b) tc l3 hop2 hlow2 h3
    have e7 := Parser.parseInfixExpression_next (n + 4)
      { l := l3, curToken := { Type_ := op2, Literal := op2 }, peekToken := tc,
        errors := p.errors } (.InfixExpression a op1 b) tend l4 h4
    have e8 := Parser.parseExpression_operand (n + 3)
      { l := l4, curToken := tc, peekToken := tend, errors := p.errors } (precedenceOf op2) c hc
    have e9 := Parser.parseExpressionLoop_at_EOF (n + 2)
      { l := l4, curToken := tc, peekToken := tend, errors := p.errors } (precedenceOf op2) c hend
    have e11 := Parser.parseExpressionLoop_at_EOF (n + 4)
      { l := l4, curToken := tc, peekToken := tend, errors := p.errors } LOWEST
      (.InfixExpression (.InfixExpression a op1 b) op2 c) hend
    rw [e1, e2, e3, e4, e5]
    simp only
    rw [hp2, e6, e7, e8, e9]
    simp only
    rw [e11]
    simp only [grouped, if_neg hs]

/-- C21: grouping by precedence. For operators `op1` and `op2` among `&&`,
`||`, `==`, `!=`, `<`, `<=`, `>`, `>=`, `in` and simple operands (single-token
identifiers, integers, strings, booleans) `a`, `b`, `c`: a parser whose tokens
are `a op1 b op2 c` and then `EOF` parses, with any budget of at least 8 and
leaving the error list as it was, the tree `(a op1 (b op2 c))` when `op2` is
strictly higher than `op1` in the order
`(&&, ||) < (==, !=) < (<, <=, >, >=) < in`, and `((a op1 b) op2 c)` otherwise.
On the texts `a op1 b op2 c` themselves, for all 81 pairs of operators, the
pipeline returns that tree, and `x in [1,2] && y` is parsed as
`((x in [1,2]) && y)`. -/
theorem C21_precedence_grouping :
    (∀ (n : Nat) (p : Parser) (op1 op2 : TokenType) (a b c : Expression)
        (tb tc tend : Token) (l1 l2 l3 l4 : Lexer),
      op1 ∈ groupingOperators → op2 ∈ groupingOperators →
      simpleOperand p.curToken = some a →
      p.peekToken = { Type_ := op1, Literal := op1 } →
      p.l.NextToken = some (tb, l1) → simpleOperand tb = some b →
      l1.NextToken = some ({ Type_ := op2, Literal := op2 }, l2) →
      l2.NextToken = some (tc, l3) → simpleOperand tc = some c →
      l3.NextToken = some (tend, l4) → tend.Type_ = EOF →
      Parser.parseExpression (n + 8) p LOWEST =
        some (grouped op1 op2 a b c,
          { l := l4, curToken := tc, peekToken := tend, errors := p.errors })) ∧
    (∀ op1 ∈ groupingOperators, ∀ op2 ∈ groupingOperators,
      parseExpressionOf ("a " ++ op1 ++ " b " ++ op2 ++ " c") =
        some (.ok (grouped op1 op2 (.Identifier "a") (.Identifier "b") (.Identifier "c")))) ∧
    parseExpressionOf "x in [1,2] && y" =
      some (.ok (.InfixExpression
        (.InfixExpression (.Identifier "x") "in" (.ArrayInteger [1, 2])) "&&"
        (.Identifier "y"))) := by
  refine ⟨?_, by decide!, by decide!⟩
  intro n p op1 op2 a b c tb tc tend l1 l2 l3 l4 hop1 hop2 ha hpeek h1 hb h2 h3 hc h4 hend
  exact Parser.parseExpression_grouping n p op1 op2 a b c tb tc tend l1 l2 l3 l4
    hop1 hop2 ha hpeek h1 hb h2 h3 hc h4 hend

/-- C21 at the text `x < y && z`: the parser that `NewParser` builds on it has
the tokens `x`, `<`, `y`, `&&`, `z`, `EOF`, and parses `((x < y) && z)`. -/
theorem C21_precedence_grouping_witness :
    NewParser (NewLexer "x < y && z") =
      some { l := { input := "x < y && z", position := 3, readPosition := 4, ch := ' ' },
             curToken := { Type_ := IDENT, Literal := "x" },
             peekToken := { Type_ := LT, Literal := LT },
             errors := [] } ∧
    Parser.parseExpression (0 + 8)
        { l := { input := "x < y && z", position := 3, readPosition := 4, ch := ' ' },
          curToken := { Type_ := IDENT, Literal := "x" },
          peekToken := { Type_ := LT, Literal := LT },
          errors := [] } LOWEST =
      some (grouped LT AND (.Identifier "x") (.Identifier "y") (.Identifier "z"),
        { l := { input := "x < y && z", position := 11, readPosition := 12, ch := '\x00' },
          curToken := { Type_ := IDENT, Literal := "z" },
          peekToken := { Type_ := EOF, Literal := "" },
          errors := [] }) ∧
    grouped LT AND (.Identifier "x") (.Identifier "y") (.Identifier "z") =
      .InfixExpression (.InfixExpression (.Identifier "x") "<" (.Identifier "y")) "&&"
        (.Identifier "z") :=
  ⟨by decide!,
   C21_precedence_grouping.1 0
     { l := { input := "x < y && z", position := 3, readPosition := 4, ch := ' ' },
       curToken := { Type_ := IDENT, Literal := "x" },
       peekToken := { Type_ := LT, Literal := LT },
       errors := [] }
     LT AND (.Identifier "x") (.Identifier "y") (.Identifier "z")
     { Type_ := IDENT, Literal := "y" } { Type_ := IDENT, Literal := "z" }
     { Type_ := EOF, Literal := "" }
     { input := "x < y && z", position := 5, readPosition := 6, ch := ' ' }
     { input := "x < y && z", position := 8, readPosition := 9, ch := ' ' }
     { input := "x < y && z", position := 10, readPosition := 11, ch := '\x00' }
     { input := "x < y && z", position := 11, readPosition := 12, ch := '\x00' }
     (by decide) (by decide) (by decide!) rfl (by decide!) (by decide!) (by decide!)
     (by decide!) (by decide!) (by decide!) rfl,
   by decide!⟩

/-! ## C23: several top-level expressions (the loop) -/

theorem lastPresent_cons (stmt : Expression) (rest : List Expression) (dflt : Expression) :
    lastPresent (stmt :: rest) dflt =
      lastPresent rest (match stmt with
        | .nil => dflt
        | e => e) := by
  unfold lastPresent
  rw [List.reverse_cons, List.find?_append]
  cases hf : rest.reverse.find? Expression.isPresent with
  | some e => simp
  | none => cases stmt <;> simp [Expression.isPresent]

theorem Parser.parseProgramLoop_topLevel :
    ∀ (n : Nat) (p : Parser) (program : Program),
      Parser.parseProgramLoop n p program =
        match Parser.topLevel n p with
        | none => none
        | some (stmts, p1) => some ({ Expression := lastPresent stmts program.Expression }, p1)
  | 0, _, _ => by simp [Parser.parseProgramLoop, Parser.topLevel]
  | n + 1, p, program => by
    rw [Parser.parseProgramLoop, Parser.topLevel]
    by_cases hc : p.curToken.Type_ ≠ EOF
    · rw [if_pos hc, if_pos hc]
      cases hl : Parser.parseExpression n p LOWEST with
      | none => rfl
      | some x =>
        obtain ⟨stmt, p1⟩ := x
        simp only
        cases hn : p1.nextToken with
        | none => rfl
        | some p2 =>
          simp only
          rw [Parser.parseProgramLoop_topLevel n p2]
          cases ht : Parser.topLevel n p2 with
          | none => rfl
          | some y =>
            obtain ⟨rest, p3⟩ := y
            simp only [lastPresent_cons]
            cases stmt <;> rfl
    · rw [if_neg hc, if_neg hc]
      simp [lastPresent]

/-! ## C24: an empty error list and the tree -/

theorem Parser.nextToken_errors (p p1 : Parser) (h : p.nextToken = some p1) :
    p1.errors = p.errors := by
  unfold Parser.nextToken at h
  cases hn : p.l.NextToken with
  | none => rw [hn] at h; cases h
  | some r =>
    obtain ⟨tok, l1⟩ := r
    rw [hn] at h
    cases h
    rfl

theorem Parser.expectPeek_errors (p p1 : Parser) (t : TokenType) (b : Bool)
    (h : p.expectPeek t = some (b, p1)) (he : p1.errors = []) :
    p.errors = [] ∧ b = true := by
  unfold Parser.expectPeek at h
  by_cases ht : p.peekTokenIs t = true
  · rw [if_pos ht] at h
    cases hn : p.nextToken with
    | none => rw [hn] at h; cases h
    | some p2 =>
      rw [hn] at h
      cases h
      rw [Parser.nextToken_errors p p1 hn] at he
      exact ⟨he, rfl⟩
  · rw [if_neg ht] at h
    cases h
    simp [Parser.peekError] at he

theorem Parser.parseArrayStringLoop_errors :
    ∀ (n : Nat) (p p1 : Parser) (value r : List String),
      Parser.parseArrayStringLoop n p value = some (r, p1) → p1.errors = [] → p.errors = []
  | 0, _, _, _, _, h, _ => by simp [Parser.parseArrayStringLoop] at h
  | n + 1, p, p1, value, r, h, he => by
    simp only [Parser.parseArrayStringLoop] at h
    by_cases hb : p.peekTokenIs RBRACKET = true
    · rw [if_pos hb] at h
      cases h
      exact he
    · rw [if_neg hb] at h
      cases hn : p.nextToken with
      | none => rw [hn] at h; cases h
      | some p2 =>
        rw [hn] at h
        simp only at h
        rw [← Parser.nextToken_errors p p2 hn]
        by_cases hc : p2.peekTokenIs COMMA = true
        · rw [if_pos hc] at h
          cases hn2 : p2.nextToken with
          | none => rw [hn2] at h; cases h
          | some p3 =>
            rw [hn2] at h
            simp only at h
            rw [← Parser.nextToken_errors p2 p3 hn2]
            exact Parser.parseArrayStringLoop_errors n p3 p1 _ r h he
        · rw [if_neg hc] at h
          cases hx : p2.expectPeek RBRACKET with
          | none => rw [hx] at h; cases h
          | some x =>
            obtain ⟨b, p3⟩ := x
            rw [hx] at h
            cases h
            exact (Parser.expectPeek_errors p2 p1 RBRACKET b hx he).1

theorem Parser.parseArrayIntegerLoop_errors :
    ∀ (n : Nat) (p p1 : Parser) (value : List Int) (r : Option (List Int)),
      Parser.parseArrayIntegerLoop n p value = some (r, p1) → p1.errors = [] →
        p.errors = [] ∧ r ≠ none
  | 0, _, _, _, _, h, _ => by simp [Parser.parseArrayIntegerLoop] at h
  | n + 1, p, p1, value, r, h, he => by
    simp only [Parser.parseArrayIntegerLoop] at h
    by_cases hb : p.peekTokenIs RBRACKET = true
    · rw [if_pos hb] at h
      cases h
      exact ⟨he, by simp⟩
    · rw [if_neg hb] at h
      cases hn : p.nextToken with
      | none => rw [hn] at h; cases h
      | some p2 =>
        rw [hn] at h
        simp only at h
        rw [← Parser.nextToken_errors p p2 hn]
        cases hv : ParseInt p2.curToken.Literal 10 with
        | error err =>
          rw [hv] at h
          cases h
          simp at he
        | ok i =>
          rw [hv] at h
          simp only at h
          by_cases hc : p2.peekTokenIs COMMA = true
          · rw [if_pos hc] at h
            cases hn2 : p2.nextToken with
            | none => rw [hn2] at h; cases h
            | some p3 =>
              rw [hn2] at h
              simp only at h
              rw [← Parser.nextToken_errors p2 p3 hn2]
              exact Parser.parseArrayIntegerLoop_errors n p3 p1 _ r h he
          · rw [if_neg hc] at h
            cases hx : p2.expectPeek RBRACKET with
            | none => rw [hx] at h; cases h
            | some x =>
              obtain ⟨b, p3⟩ := x
              rw [hx] at h
              cases h
              exact ⟨(Parser.expectPeek_errors p2 p1 RBRACKET b hx he).1, by simp⟩

theorem Parser.parseArray_sound (n : Nat) (p : Parser) : Parser.Sound p (Parser.parseArray n p) := by
  intro e p1 h he
  unfold Parser.parseArray at h
  by_cases hb : p.peekTokenIs RBRACKET = true
  · rw [if_pos hb] at h
    cases hn : p.nextToken with
    | none => rw [hn] at h; cases h
    | some p2 =>
      rw [hn] at h
      cases h
      simp at he
  rw [if_neg hb] at h
  by_cases hs : p.peekTokenIs STRING = true
  · rw [if_pos hs] at h
    cases hl : Parser.parseArrayStringLoop n p [] with
    | none => rw [hl] at h; cases h
    | some x =>
      obtain ⟨value, p2⟩ := x
      rw [hl] at h
      cases h
      exact ⟨Parser.parseArrayStringLoop_errors n p p1 [] value hl he, rfl⟩
  rw [if_neg hs] at h
  by_cases hi : p.peekTokenIs INT = true
  · rw [if_pos hi] at h
    cases hl : Parser.parseArrayIntegerLoop n p [] with
    | none => rw [hl] at h; cases h
    | some x =>
      obtain ⟨value, p2⟩ := x
      rw [hl] at h
      cases value with
      | none =>
        cases h
        exact absurd rfl (Parser.parseArrayIntegerLoop_errors n p p1 [] none hl he).2
      | some v =>
        cases h
        exact ⟨(Parser.parseArrayIntegerLoop_errors n p p1 [] (some v) hl he).1, rfl⟩
  rw [if_neg hi] at h
  cases h
  simp at he

theorem Expression.completeList_append (xs : List Expression) (e : Expression) :
    Expression.completeList (xs ++ [e]) =
      (Expression.completeList xs && Expression.complete e) := by
  induction xs with
  | nil => simp [Expression.completeList]
  | cons x xs ih => simp [Expression.completeList, ih, Bool.and_assoc]

theorem Parser.soundAt_zero : Parser.SoundAt 0 := by
  refine ⟨?_, ?_, ?_, ?_, ?_, ?_, ?_, ?_⟩ <;> intros <;> intro _ _ h _
  · simp [Parser.parseExpression] at h
  · simp [Parser.parseExpressionLoop] at h
  · simp [Parser.presePrefixExpression] at h
  · simp [Parser.parseInfixExpression] at h
  · simp [Parser.parseGroupedExpression] at h
  · simp [Parser.parseCallExpression] at h
  · simp [Parser.parseCallArguments] at h
  · simp [Parser.parseCallArgumentsLoop] at h

theorem Parser.parseExpression_sound (n : Nat) (h : Parser.SoundAt n) (p : Parser)
    (precedence : Nat) : Parser.Sound p (Parser.parseExpression (n + 1) p precedence) := by
  intro e p1 hr he
  simp only [Parser.parseExpression] at hr
  cases hf : prefixParseFns p.curToken.Type_ with
  | none =>
    rw [hf] at hr
    cases hr
    simp [Parser.noPrefixParseFnError] at he
  | some fn =>
    rw [hf] at hr
    simp only at hr
    cases fn with
    | parseIdentifier =>
      simp only [Parser.parseIdentifier] at hr
      obtain ⟨h1, h2⟩ := h.2.1 p precedence _ e p1 hr he
      exact ⟨h1, h2 rfl⟩
    | parseInteger =>
      simp only [Parser.parseInteger] at hr
      cases hv : ParseInt p.curToken.Literal 0 with
      | error err =>
        rw [hv] at hr
        simp only at hr
        have := (h.2.1 _ precedence _ e p1 hr he).1
        simp at this
      | ok value =>
        rw [hv] at hr
        simp only at hr
        obtain ⟨h1, h2⟩ := h.2.1 p precedence _ e p1 hr he
        exact ⟨h1, h2 rfl⟩
    | parseString =>
      simp only [Parser.parseString] at hr
      obtain ⟨h1, h2⟩ := h.2.1 p precedence _ e p1 hr he
      exact ⟨h1, h2 rfl⟩
    | parseBoolean =>
      simp only [Parser.parseBoolean] at hr
      obtain ⟨h1, h2⟩ := h.2.1 p precedence _ e p1 hr he
      exact ⟨h1, h2 rfl⟩
    | parseArray =>
      simp only at hr
      cases hl : p.parseArray n with
      | none => rw [hl] at hr; cases hr
      | some x =>
        obtain ⟨left, p2⟩ := x
        rw [hl] at hr
        simp only at hr
        obtain ⟨h1, h2⟩ := h.2.1 p2 precedence left e p1 hr he
        obtain ⟨h3, h4⟩ := Parser.parseArray_sound n p left p2 hl h1
        exact ⟨h3, h2 h4⟩
    | presePrefixExpression =>
      simp only at hr
      cases hl : Parser.presePrefixExpression n p with
      | none => rw [hl] at hr; cases hr
      | some x =>
        obtain ⟨left, p2⟩ := x
        rw [hl] at hr
        simp only at hr
        obtain ⟨h1, h2⟩ := h.2.1 p2 precedence left e p1 hr he
        obtain ⟨h3, h4⟩ := h.2.2.1 p left p2 hl h1
        exact ⟨h3, h2 h4⟩
    | parseGroupedExpression =>
      simp only at hr
      cases hl : Parser.parseGroupedExpression n p with
      | none => rw [hl] at hr; cases hr
      | some x =>
        obtain ⟨left, p2⟩ := x
        rw [hl] at hr
        simp only at hr
        obtain ⟨h1, h2⟩ := h.2.1 p2 precedence left e p1 hr he
        obtain ⟨h3, h4⟩ := h.2.2.2.2.1 p left p2 hl h1
        exact ⟨h3, h2 h4⟩

theorem Parser.parseExpressionLoop_sound (n : Nat) (h : Parser.SoundAt n) (p : Parser)
    (precedence : Nat) (left : Expression) :
    Parser.SoundFrom p left (Parser.parseExpressionLoop (n + 1) p precedence left) := by
  intro e p1 hr he
  simp only [Parser.parseExpressionLoop] at hr
  by_cases hc : (!p.peekTokenIs EOF && decide (precedence < p.peekPrecedence)) = true
  · rw [if_pos hc] at hr
    cases hf : infixParseFns p.peekToken.Type_ with
    | none =>
      rw [hf] at hr
      cases hr
      exact ⟨he, id⟩
    | some fn =>
      rw [hf] at hr
      simp only at hr
      cases hn : p.nextToken with
      | none => rw [hn] at hr; cases hr
      | some p2 =>
        rw [hn] at hr
        simp only at hr
        rw [← Parser.nextToken_errors p p2 hn]
        cases fn with
        | parseInfixExpression =>
          simp only at hr
          cases hl : Parser.parseInfixExpression n p2 left with
          | none => rw [hl] at hr; cases hr
          | some x =>
            obtain ⟨left1, p3⟩ := x
            rw [hl] at hr
            simp only at hr
            obtain ⟨h1, h2⟩ := h.2.1 p3 precedence left1 e p1 hr he
            obtain ⟨h3, h4⟩ := h.2.2.2.1 p2 left left1 p3 hl h1
            exact ⟨h3, fun hc => h2 (h4 hc)⟩
        | parseCallExpression =>
          simp only at hr
          cases hl : Parser.parseCallExpression n p2 left with
          | none => rw [hl] at hr; cases hr
          | some x =>
            obtain ⟨left1, p3⟩ := x
            rw [hl] at hr
            simp only at hr
            obtain ⟨h1, h2⟩ := h.2.1 p3 precedence left1 e p1 hr he
            obtain ⟨h3, h4⟩ := h.2.2.2.2.2.1 p2 left left1 p3 hl h1
            exact ⟨h3, fun hc => h2 (h4 hc)⟩
  · rw [if_neg hc] at hr
    cases hr
    exact ⟨he, id⟩

theorem Parser.presePrefixExpression_sound (n : Nat) (h : Parser.SoundAt n) (p : Parser) :
    Parser.Sound p (Parser.presePrefixExpression (n + 1) p) := by
  intro e p1 hr he
  simp only [Parser.presePrefixExpression] at hr
  cases hn : p.nextToken with
  | none => rw [hn] at hr; cases hr
  | some p2 =>
    rw [hn] at hr
    simp only at hr
    rw [← Parser.nextToken_errors p p2 hn]
    cases hl : Parser.parseExpression n p2 PREFIX with
    | none => rw [hl] at hr; cases hr
    | some x =>
      obtain ⟨right, p3⟩ := x
      rw [hl] at hr
      cases hr
      exact h.1 p2 PREFIX right p1 hl he

theorem Parser.parseInfixExpression_sound (n : Nat) (h : Parser.SoundAt n) (p : Parser)
    (left : Expression) :
    Parser.SoundFrom p left (Parser.parseInfixExpression (n + 1) p left) := by
  intro e p1 hr he
  simp only [Parser.parseInfixExpression] at hr
  cases hn : p.nextToken with
  | none => rw [hn] at hr; cases hr
  | some p2 =>
    rw [hn] at hr
    simp only at hr
    rw [← Parser.nextToken_errors p p2 hn]
    cases hl : Parser.parseExpression n p2 p.curPrecedence with
    | none => rw [hl] at hr; cases hr
    | some x =>
      obtain ⟨right, p3⟩ := x
      rw [hl] at hr
      cases hr
      obtain ⟨h1, h2⟩ := h.1 p2 p.curPrecedence right p1 hl he
      exact ⟨h1, fun hc => by simp [Expression.complete, hc, h2]⟩

theorem Parser.parseGroupedExpression_sound (n : Nat) (h : Parser.SoundAt n) (p : Parser) :
    Parser.Sound p (Parser.parseGroupedExpression (n + 1) p) := by
  intro e p1 hr he
  simp only [Parser.parseGroupedExpression] at hr
  cases hn : p.nextToken with
  | none => rw [hn] at hr; cases hr
  | some p2 =>
    rw [hn] at hr
    simp only at hr
    rw [← Parser.nextToken_errors p p2 hn]
    cases hl : Parser.parseExpression n p2 LOWEST with
    | none => rw [hl] at hr; cases hr
    | some x =>
      obtain ⟨exp, p3⟩ := x
      rw [hl] at hr
      simp only at hr
      cases hx : p3.expectPeek RPAREN with
      | none => rw [hx] at hr; cases hr
      | some y =>
        obtain ⟨b, p4⟩ := y
        rw [hx] at hr
        cases b with
        | false =>
          cases hr
          exact absurd (Parser.expectPeek_errors p3 p1 RPAREN false hx he).2 (by decide)
        | true =>
          cases hr
          exact h.1 p2 LOWEST e p3 hl (Parser.expectPeek_errors p3 p1 RPAREN true hx he).1

theorem Parser.parseCallExpression_sound (n : Nat) (h : Parser.SoundAt n) (p : Parser)
    (function : Expression) :
    Parser.SoundFrom p function (Parser.parseCallExpression (n + 1) p function) := by
  intro e p1 hr he
  simp only [Parser.parseCallExpression] at hr
  cases hl : Parser.parseCallArguments n p with
  | none => rw [hl] at hr; cases hr
  | some x =>
    obtain ⟨args, p2⟩ := x
    rw [hl] at hr
    cases hr
    obtain ⟨h1, h2⟩ := h.2.2.2.2.2.2.1 p args p1 hl he
    exact ⟨h1, fun hc => by simp [Expression.complete, hc, h2]⟩

theorem Parser.parseCallArgumentsLoop_sound (n : Nat) (h : Parser.SoundAt n) (p : Parser)
    (args0 : List Expression) :
    Parser.SoundArgsFrom p args0 (Parser.parseCallArgumentsLoop (n + 1) p args0) := by
  intro args p1 hr he
  simp only [Parser.parseCallArgumentsLoop] at hr
  by_cases hc : p.peekTokenIs COMMA = true
  · rw [if_pos hc] at hr
    cases hn : p.nextToken with
    | none => rw [hn] at hr; cases hr
    | some p2 =>
      rw [hn] at hr
      simp only at hr
      rw [← Parser.nextToken_errors p p2 hn]
      cases hn2 : p2.nextToken with
      | none => rw [hn2] at hr; cases hr
      | some p3 =>
        rw [hn2] at hr
        simp only at hr
        rw [← Parser.nextToken_errors p2 p3 hn2]
        cases hl : Parser.parseExpression n p3 LOWEST with
        | none => rw [hl] at hr; cases hr
        | some x =>
          obtain ⟨arg, p4⟩ := x
          rw [hl] at hr
          simp only at hr
          obtain ⟨h1, h2⟩ := h.2.2.2.2.2.2.2 p4 (args0 ++ [arg]) args p1 hr he
          obtain ⟨h3, h4⟩ := h.1 p3 LOWEST arg p4 hl h1
          refine ⟨h3, fun hc => h2 ?_⟩
          rw [Expression.completeList_append, hc, h4]
          rfl
  · rw [if_neg hc] at hr
    cases hr
    exact ⟨he, id⟩

theorem Parser.parseCallArguments_sound (n : Nat) (h : Parser.SoundAt n) (p : Parser) :
    Parser.SoundArgs p (Parser.parseCallArguments (n + 1) p) := by
  intro args p1 hr he
  simp only [Parser.parseCallArguments] at hr
  by_cases hc : p.peekTokenIs RPAREN = true
  · rw [if_pos hc] at hr
    cases hn : p.nextToken with
    | none => rw [hn] at hr; cases hr
    | some p2 =>
      rw [hn] at hr
      cases hr
      rw [← Parser.nextToken_errors p p1 hn]
      exact ⟨he, rfl⟩
  · rw [if_neg hc] at hr
    cases hn : p.nextToken with
    | none => rw [hn] at hr; cases hr
    | some p2 =>
      rw [hn] at hr
      simp only at hr
      rw [← Parser.nextToken_errors p p2 hn]
      cases hl : Parser.parseExpression n p2 LOWEST with
      | none => rw [hl] at hr; cases hr
      | some x =>
        obtain ⟨arg, p3⟩ := x
        rw [hl] at hr
        simp only at hr
        cases hl2 : Parser.parseCallArgumentsLoop n p3 [arg] with
        | none => rw [hl2] at hr; cases hr
        | some y =>
          obtain ⟨args1, p4⟩ := y
          rw [hl2] at hr
          simp only at hr
          cases hx : p4.expectPeek RPAREN with
          | none => rw [hx] at hr; cases hr
          | some z =>
            obtain ⟨b, p5⟩ := z
            rw [hx] at hr
            cases b with
            | false =>
              cases hr
              exact absurd (Parser.expectPeek_errors p4 p1 RPAREN false hx he).2 (by decide)
            | true =>
              cases hr
              have h4 := (Parser.expectPeek_errors p4 p1 RPAREN true hx he).1
              obtain ⟨h5, h6⟩ := h.2.2.2.2.2.2.2 p3 [arg] args p4 hl2 h4
              obtain ⟨h7, h8⟩ := h.1 p2 LOWEST arg p3 hl h5
              refine ⟨h7, h6 ?_⟩
              simp [Expression.completeList, h8]

theorem Parser.soundAt : ∀ n, Parser.SoundAt n
  | 0 => Parser.soundAt_zero
  | n + 1 =>
    have h := Parser.soundAt n
    ⟨Parser.parseExpression_sound n h, Parser.parseExpressionLoop_sound n h,
     Parser.presePrefixExpression_sound n h, Parser.parseInfixExpression_sound n h,
     Parser.parseGroupedExpression_sound n h, Parser.parseCallExpression_sound n h,
     Parser.parseCallArguments_sound n h, Parser.parseCallArgumentsLoop_sound n h⟩

theorem Parser.parseProgramLoop_sound :
    ∀ (n : Nat) (p p1 : Parser) (program program1 : Program),
      Parser.parseProgramLoop n p program = some (program1, p1) → p1.errors = [] →
        p.errors = [] ∧
        (program.Expression.complete = true → program1.Expression.complete = true) ∧
        (p.curToken.Type_ ≠ EOF → program1.Expression.complete = true) ∧
        (p.curToken.Type_ = EOF → program1 = program)
  | 0, _, _, _, _, h, _ => by simp [Parser.parseProgramLoop] at h
  | n + 1, p, p1, program, program1, h, he => by
    rw [Parser.parseProgramLoop] at h
    by_cases hc : p.curToken.Type_ ≠ EOF
    · rw [if_pos hc] at h
      cases hl : Parser.parseExpression n p LOWEST with
      | none => rw [hl] at h; cases h
      | some x =>
        obtain ⟨stmt, p2⟩ := x
        rw [hl] at h
        simp only at h
        cases hn : p2.nextToken with
        | none => rw [hn] at h; cases h
        | some p3 =>
          rw [hn] at h
          simp only at h
          obtain ⟨h1, h2, _, _⟩ := Parser.parseProgramLoop_sound n p3 p1 _ program1 h he
          rw [Parser.nextToken_errors p2 p3 hn] at h1
          obtain ⟨h3, h4⟩ := (Parser.soundAt n).1 p LOWEST stmt p2 hl h1
          have h5 : program1.Expression.complete = true := by
            apply h2
            cases stmt <;> first | exact h4 | (simp [Expression.complete] at h4)
          exact ⟨h3, fun _ => h5, fun _ => h5, fun h6 => absurd h6 hc⟩
    · rw [if_neg hc] at h
      cases h
      exact ⟨he, id, fun h6 => absurd h6 hc, fun _ => rfl⟩

theorem Parser.CheckTypeProgram_unchanged (p p1 : Parser) (program : Program) (t : ObjectType)
    (h : p.CheckTypeProgram program = .ok (t, p1)) (he : p1.errors = []) : p1 = p := by
  unfold Parser.CheckTypeProgram at h
  by_cases hc : p.errors.length ≠ 0
  · rw [if_pos hc] at h
    cases h
    rfl
  · rw [if_neg hc] at h
    exact Parser.CheckType_unchanged program.Expression p p1 t h he

theorem NewParser_curToken (l : Lexer) (p : Parser) (h : NewParser l = some p) :
    p.errors = [] ∧ ∃ tok l1, l.NextToken = some (tok, l1) ∧ p.curToken = tok := by
  unfold NewParser at h
  simp only [Parser.nextToken] at h
  cases h1 : l.NextToken with
  | none => rw [h1] at h; cases h
  | some x =>
    obtain ⟨tok, l1⟩ := x
    rw [h1] at h
    simp only at h
    cases h2 : l1.NextToken with
    | none => rw [h2] at h; cases h
    | some y =>
      obtain ⟨tok2, l2⟩ := y
      rw [h2] at h
      cases h
      exact ⟨rfl, tok, l1, rfl, rfl⟩

/-- What `ParseProgram` leaves when its error list is empty: the parser is the
one the loop ended in, and the tree is `nil` when the first token is `EOF` and
complete otherwise. -/
theorem parse_complete (input : String) (program : Program) (p : Parser)
    (h : parse input = some (.ok (program, p))) (he : p.errors = []) :
    ∃ tok l1, (NewLexer input).NextToken = some (tok, l1) ∧
      (tok.Type_ = EOF → program.Expression = .nil) ∧
      (tok.Type_ ≠ EOF → program.Expression.complete = true) ∧
      ∃ t, p.CheckTypeProgram program = .ok (t, p) := by
  unfold parse at h
  cases h0 : NewParser (NewLexer input) with
  | none => rw [h0] at h; cases h
  | some p0 =>
    rw [h0] at h
    simp only [Parser.ParseProgram] at h
    obtain ⟨_, tok, l1, hn, hcur⟩ := NewParser_curToken _ p0 h0
    cases hl : Parser.parseProgramLoop p0.budget p0 { Expression := .nil } with
    | none => rw [hl] at h; cases h
    | some x =>
      obtain ⟨program1, p1⟩ := x
      rw [hl] at h
      simp only at h
      cases hc : p1.CheckTypeProgram program1 with
      | error err => rw [hc] at h; cases h
      | ok y =>
        obtain ⟨t, p2⟩ := y
        rw [hc] at h
        cases h
        have h12 := Parser.CheckTypeProgram_unchanged p1 p program t hc he
        subst h12
        obtain ⟨_, _, h3, h4⟩ := Parser.parseProgramLoop_sound _ p0 p _ program hl he
        rw [hcur] at h3 h4
        refine ⟨tok, l1, hn, ?_, h3, t, hc⟩
        intro h5
        rw [h4 h5]

mutual
theorem Parser.CheckType_checked :
    ∀ (e : Expression) (p p1 : Parser) (t : ObjectType),
      p.CheckType e = .ok (t, p1) → p1.errors = [] → e.checked = true
  | .nil, _, _, _, _, _ => rfl
  | .Integer _, _, _, _, _, _ => rfl
  | .String _, _, _, _, _, _ => rfl
  | .Boolean _, _, _, _, _, _ => rfl
  | .Identifier _, _, _, _, _, _ => rfl
  | .ArrayString _, _, _, _, _, _ => rfl
  | .ArrayInteger _, _, _, _, _, _ => rfl
  | .PrefixExpresion op right, p, p1, t, h, h1 => by
    have ih := Parser.CheckType_checked right
    have hp := Parser.CheckType_unchanged _ p p1 t h h1
    subst hp
    simp only [Parser.CheckType] at h
    have he : ¬ p1.errors.length ≠ 0 := by simp [h1]
    rw [if_neg he] at h
    cases hpp : prefixProtos op with
    | none =>
      rw [hpp] at h
      simp only [Except.ok.injEq, Prod.mk.injEq] at h
      have h2 := congrArg Parser.errors h.2
      simp [h1] at h2
    | some expects =>
      rw [hpp] at h
      cases hc : p1.CheckType right with
      | error e => rw [hc] at h; simp at h
      | ok r =>
        obtain ⟨rt, p2⟩ := r
        rw [hc] at h
        have hp2 : p1 = p2 := by
          simp only at h
          split_ifs at h <;> simp only [Except.ok.injEq, Prod.mk.injEq] at h <;> exact h.2.symm
        subst hp2
        simp only [Expression.checked]
        exact ih p1 p1 rt hc h1
  | .InfixExpression left op right, p, p1, t, h, h1 => by
    have ihl := Parser.CheckType_checked left
    have ihr := Parser.CheckType_checked right
    have hp := Parser.CheckType_unchanged _ p p1 t h h1
    subst hp
    simp only [Parser.CheckType] at h
    have he : ¬ p1.errors.length ≠ 0 := by simp [h1]
    rw [if_neg he] at h
    cases hpp : infixProtos op with
    | none =>
      rw [hpp] at h
      simp only [Except.ok.injEq, Prod.mk.injEq] at h
      have h2 := congrArg Parser.errors h.2
      simp [h1] at h2
    | some expects =>
      rw [hpp] at h
      cases hcl : p1.CheckType left with
      | error e => rw [hcl] at h; simp at h
      | ok r =>
        obtain ⟨lt, p2⟩ := r
        rw [hcl] at h
        simp only at h
        cases hcr : p2.CheckType right with
        | error e => rw [hcr] at h; simp at h
        | ok r2 =>
          obtain ⟨rt, p3⟩ := r2
          rw [hcr] at h
          have hp3 : p1 = p3 := by
            simp only at h
            split at h
            · simp only [Except.ok.injEq, Prod.mk.injEq] at h
              exact h.2.symm
            · split at h
              · split at h
                · simp at h
                · simp only [Except.ok.injEq, Prod.mk.injEq] at h
                  have h2 := congrArg Parser.errors h.2
                  simp [h1] at h2
              · split at h
                · simp only [Except.ok.injEq, Prod.mk.injEq] at h
                  have h2 := congrArg Parser.errors h.2
                  simp [h1] at h2
                · simp only [Except.ok.injEq, Prod.mk.injEq] at h
                  exact h.2.symm
          subst hp3
          have h32 := Parser.CheckType_unchanged right p2 p1 rt hcr h1
          subst h32
          simp only [Expression.checked, hpp, Option.isSome_some, Bool.true_and, Bool.and_eq_true]
          exact ⟨ihl p1 p1 lt hcl h1, ihr p1 p1 rt hcr h1⟩
  | .CallExpression function args, p, p1, t, h, h1 => by
    have ih := Parser.checkOverload_checked args
    have hp := Parser.CheckType_unchanged _ p p1 t h h1
    subst hp
    simp only [Parser.CheckType] at h
    have he : ¬ p1.errors.length ≠ 0 := by simp [h1]
    rw [if_neg he] at h
    cases hs : function.String_ with
    | error e => rw [hs] at h; simp at h
    | ok name =>
      rw [hs] at h
      simp only at h
      cases hf : funcProtos name with
      | none =>
        rw [hf] at h
        simp only [Except.ok.injEq, Prod.mk.injEq] at h
        have h2 := congrArg Parser.errors h.2
        simp [h1] at h2
      | some expects =>
        rw [hf] at h
        simp only [Expression.checked, hs, hf, Option.isSome_some, Bool.true_and]
        unfold funcProtos at hf
        split_ifs at hf
        cases hf
        simp only at h
        split at h
        · simp only [Except.ok.injEq, Prod.mk.injEq] at h
          have h2 := congrArg Parser.errors h.2
          simp [h1] at h2
        · rename_i hlen
          match args, ih, h, hlen with
          | [], _, _, hlen => simp at hlen
          | _ :: _ :: _, _, _, hlen => simp at hlen
          | [arg], ih, h, _ =>
            rw [List.foldl_cons] at h
            have hne : ¬ (ERROR_OBJ ≠ ERROR_OBJ) := by simp
            simp only [if_neg hne] at h
            obtain ⟨t0, h0⟩ := Parser.foldl_overloads_unchanged [arg]
              (Parser.checkOverload_unchanged [arg]) _ _ t p1 h h1
            have := ih p1 p1 _ _ _ t0 h0 h1 (by simp)
            simpa [Expression.checkedList] using this
theorem Parser.checkOverload_checked :
    ∀ (args : List Expression) (p p1 : Parser) (ets rets : List ObjectType) (rt t : ObjectType),
      Parser.checkOverload p args ets rets rt = .ok (t, p1) → p1.errors = [] → ets ≠ [] →
        (args.head?.map Expression.checked).getD true = true
  | [], _, _, _, _, _, _, _, _, _ => rfl
  | _ :: _, _, _, [], _, _, _, _, _, hne => absurd rfl hne
  | arg :: args, p, p1, et :: ets, rets, rt, t, h, h1, _ => by
    have iha := Parser.CheckType_checked arg
    have hp := Parser.checkOverload_unchanged _ p p1 _ _ _ t h h1
    subst hp
    simp only [Parser.checkOverload] at h
    cases hc : p1.CheckType arg with
    | error e => rw [hc] at h; simp at h
    | ok r =>
      obtain ⟨actual, p2⟩ := r
      rw [hc] at h
      simp only at h
      have hp2 : p2.errors = [] := by
        split at h
        · simp only [Except.ok.injEq, Prod.mk.injEq] at h
          rw [h.2]; exact h1
        · cases ets with
          | nil =>
            simp only at h
            cases rets with
            | nil => simp at h
            | cons r0 rs =>
              simp only [Except.ok.injEq, Prod.mk.injEq] at h
              rw [h.2]; exact h1
          | cons et2 ets2 =>
            simp only at h
            rw [← Parser.checkOverload_unchanged _ p2 p1 _ _ _ _ h h1]
            exact h1
      simp only [List.head?_cons, Option.map_some', Option.getD_some]
      exact iha p1 p2 actual hc hp2
end

theorem String.append_paren_ne_len (s : String) : s ++ ")" ≠ "len" := by
  intro h
  have h1 := congrArg String.data h
  have h2 := congrArg List.getLast? h1
  simp at h2

theorem Expression.checked_of_String_len (e : Expression) (name : GoString)
    (h : e.String_ = .ok name) (hf : (funcProtos name).isSome = true) : e.checked = true := by
  have hn : name = "len" := by
    unfold funcProtos at hf
    split_ifs at hf with h1
    · exact h1
    · simp at hf
  subst hn
  cases e with
  | CallExpression f args =>
    simp only [Expression.String_] at h
    cases hs : Expression.stringArgs args with
    | error err => rw [hs] at h; cases h
    | ok rendered =>
      rw [hs] at h
      simp only at h
      cases hfs : f.String_ with
      | error err => rw [hfs] at h; cases h
      | ok fs =>
        rw [hfs] at h
        simp only [Except.ok.injEq] at h
        exact absurd h (String.append_paren_ne_len _)
  | PrefixExpresion op right =>
    simp only [Expression.String_] at h
    cases hs : right.String_ with
    | error err => rw [hs] at h; cases h
    | ok rs =>
      rw [hs] at h
      simp only [Except.ok.injEq] at h
      exact absurd h (String.append_paren_ne_len _)
  | InfixExpression left op right =>
    simp only [Expression.String_] at h
    cases hl : left.String_ with
    | error err => rw [hl] at h; cases h
    | ok ls =>
      rw [hl] at h
      simp only at h
      cases hr : right.String_ with
      | error err => rw [hr] at h; cases h
      | ok rs =>
        rw [hr] at h
        simp only [Except.ok.injEq] at h
        exact absurd h (String.append_paren_ne_len _)
  | _ => rfl

theorem evalIntegerInfixExpression_some (op : TokenType) (a b : Int) (h : op ≠ "/") :
    ∃ o, evalIntegerInfixExpression op (.Integer a) (.Integer b) = .ok (some o) ∧
      o.plain = true := by
  unfold evalIntegerInfixExpression
  simp only
  split_ifs <;> simp [Object.plain, unknowOperator, newError]

theorem evalStringInfixExpression_some (op : TokenType) (a b : String) :
    ∃ o, evalStringInfixExpression op (.String a) (.String b) = .ok (some o) ∧
      o.plain = true := by
  unfold evalStringInfixExpression
  simp only
  split_ifs <;> simp [Object.plain, unknowOperator, newError]

theorem evalINInfixExpress_some (l r : Object) :
    ∃ o, evalINInfixExpress (some l) (some r) = .ok (some o) ∧ o.plain = true := by
  cases l <;> cases r <;>
    simp [evalINInfixExpress, Object.ObjectType, Object.plain, unknowOperator, newError,
      INTEGER_OBJ, STRING_OBJ, BOOLEAN_OBJ, ARRAY_INTEGER_OBJ, ARRAY_STRING_OBJ, FUNCTION_OBJ,
      ERROR_OBJ, IDENT_OBJ]

theorem infixProtos_ne_quotient (op : TokenType) (h : (infixProtos op).isSome = true) :
    op ≠ "/" := by
  intro h1
  subst h1
  revert h
  decide

theorem nativeBoolToBooleanObject_plain (b : Bool) :
    (nativeBoolToBooleanObject b).plain = true := by
  cases b <;> rfl

theorem Object.eq_Integer_of_ObjectType (o : Object) (h : o.ObjectType = INTEGER_OBJ) :
    ∃ v, o = .Integer v := by
  cases o <;>
    simp [Object.ObjectType, INTEGER_OBJ, STRING_OBJ, BOOLEAN_OBJ, ARRAY_INTEGER_OBJ,
      ARRAY_STRING_OBJ, FUNCTION_OBJ, ERROR_OBJ, IDENT_OBJ] at h ⊢

theorem Object.eq_String_of_ObjectType (o : Object) (h : o.ObjectType = STRING_OBJ) :
    ∃ v, o = .String v := by
  cases o <;>
    simp [Object.ObjectType, INTEGER_OBJ, STRING_OBJ, BOOLEAN_OBJ, ARRAY_INTEGER_OBJ,
      ARRAY_STRING_OBJ, FUNCTION_OBJ, ERROR_OBJ, IDENT_OBJ] at h ⊢

theorem evalInfixExpression_some (op : TokenType) (l r : Object) (h : op ≠ "/") :
    ∃ o, evalInfixExpression op (some l) (some r) = .ok (some o) ∧ o.plain = true := by
  have key : ∃ o, (if op = AND then
        (.ok (some (nativeBoolToBooleanObject
          (objectToNativeBoolean (some l) && objectToNativeBoolean (some r)))) :
          Except GoString (Option Object))
      else if op = OR then
        .ok (some (nativeBoolToBooleanObject
          (objectToNativeBoolean (some l) || objectToNativeBoolean (some r))))
      else if op = IN then evalINInfixExpress (some l) (some r)
      else .ok (unknowOperator l.ObjectType op r.ObjectType)) = .ok (some o) ∧
      o.plain = true := by
    split_ifs
    · exact ⟨_, rfl, nativeBoolToBooleanObject_plain _⟩
    · exact ⟨_, rfl, nativeBoolToBooleanObject_plain _⟩
    · exact evalINInfixExpress_some l r
    · exact ⟨_, rfl, rfl⟩
  unfold evalInfixExpression
  simp only
  by_cases h1 : l.ObjectType = INTEGER_OBJ
  · by_cases h2 : r.ObjectType = INTEGER_OBJ
    · simp only [if_pos h1, h2, beq_self_eq_true]
      obtain ⟨a, rfl⟩ := Object.eq_Integer_of_ObjectType l h1
      obtain ⟨b, rfl⟩ := Object.eq_Integer_of_ObjectType r h2
      exact evalIntegerInfixExpression_some op _ _ h
    · have h3 : (r.ObjectType == INTEGER_OBJ) = false := by simpa using h2
      have h4 : ¬ (l.ObjectType = STRING_OBJ) := by rw [h1]; decide
      simp only [if_pos h1, h3, if_neg h4]
      exact key
  · by_cases h3 : l.ObjectType = STRING_OBJ
    · by_cases h4 : r.ObjectType = STRING_OBJ
      · simp only [if_neg h1, if_pos h3, h4, beq_self_eq_true]
        obtain ⟨a, rfl⟩ := Object.eq_String_of_ObjectType l h3
        obtain ⟨b, rfl⟩ := Object.eq_String_of_ObjectType r h4
        exact evalStringInfixExpression_some op _ _
      · have h5 : (r.ObjectType == STRING_OBJ) = false := by simpa using h4
        simp only [if_neg h1, if_pos h3, h5]
        exact key
    · simp only [if_neg h1, if_neg h3]
      exact key

theorem lenBuiltin_some (args : List (Option Object)) (h : ∀ x ∈ args, x ≠ none) :
    ∃ o, lenBuiltin args = .ok (some o) ∧ o.plain = true := by
  unfold lenBuiltin
  match args, h with
  | [], _ => exact ⟨_, rfl, rfl⟩
  | _ :: _ :: _, _ => exact ⟨_, rfl, rfl⟩
  | [none], h => exact absurd rfl (h none (by simp))
  | [some o], _ => cases o <;> exact ⟨_, rfl, rfl⟩

theorem applyFunction_some (fn : Object) (args : List (Option Object))
    (hfn : fn.plain = true) (h : ∀ x ∈ args, x ≠ none) :
    ∃ o, applyFunction builtins (some fn) args = .ok (some o) ∧ o.plain = true := by
  cases fn with
  | Builtin name =>
    simp only [Object.plain] at hfn
    have hn : name = "len" := by
      simp only [builtins, RegisterBuiltin] at hfn
      split_ifs at hfn with h1
      · exact h1
      · simp at hfn
    subst hn
    have hb : builtins "len" = some lenBuiltin := by simp [builtins, RegisterBuiltin]
    simp only [applyFunction, hb]
    exact lenBuiltin_some args h
  | _ => exact ⟨_, rfl, rfl⟩

theorem evalIdentifier_some (env : Environment) (henv : env.plain) (name : String) :
    ∃ o, evalIdentifier builtins name env = some o ∧ o.plain = true := by
  unfold evalIdentifier Environment.Get
  cases hs : env.store name with
  | some obj =>
    obtain ⟨o, ho, hp⟩ := henv name obj hs
    exact ⟨o, ho, hp⟩
  | none =>
    simp only
    cases ht : builtins name with
    | some f => exact ⟨_, rfl, by simp [Object.plain, ht]⟩
    | none => exact ⟨_, rfl, rfl⟩

theorem evalPrefixOperatorExpression_some (op : TokenType) (r : Object) :
    ∃ o, evalPrefixOperatorExpression op (some r) = .ok (some o) ∧ o.plain = true := by
  unfold evalPrefixOperatorExpression
  split_ifs
  · refine ⟨_, rfl, ?_⟩
    cases r <;> rfl
  · exact ⟨_, rfl, rfl⟩

mutual
theorem Eval_some (env : Environment) (henv : env.plain) :
    ∀ (e : Expression), e.complete = true → e.checked = true →
      ∃ o, Eval builtins env e = .ok (some o) ∧ o.plain = true
  | .nil, hc, _ => by simp [Expression.complete] at hc
  | .Integer v, _, _ => ⟨.Integer v, by simp [Eval], rfl⟩
  | .String v, _, _ => ⟨.String v, by simp [Eval], rfl⟩
  | .ArrayString v, _, _ => ⟨.ArrayString v, by simp [Eval], rfl⟩
  | .ArrayInteger v, _, _ => ⟨.ArrayInteger v, by simp [Eval], rfl⟩
  | .Boolean v, _, _ =>
    ⟨nativeBoolToBooleanObject v, by simp [Eval], nativeBoolToBooleanObject_plain v⟩
  | .Identifier name, _, _ => by
    obtain ⟨o, h1, h2⟩ := evalIdentifier_some env henv name
    exact ⟨o, by simp [Eval, h1], h2⟩
  | .PrefixExpresion op right, hc, hk => by
    simp only [Expression.complete] at hc
    simp only [Expression.checked] at hk
    obtain ⟨ro, h1, h2⟩ := Eval_some env henv right hc hk
    simp only [Eval, h1]
    by_cases he : isError (some ro) = true
    · rw [if_pos he]
      exact ⟨ro, rfl, h2⟩
    · rw [if_neg he]
      exact evalPrefixOperatorExpression_some op ro
  | .InfixExpression left op right, hc, hk => by
    simp only [Expression.complete, Bool.and_eq_true] at hc
    simp only [Expression.checked, Bool.and_eq_true] at hk
    obtain ⟨lo, h1, h2⟩ := Eval_some env henv left hc.1 hk.1.2
    obtain ⟨ro, h3, h4⟩ := Eval_some env henv right hc.2 hk.2
    simp only [Eval, h1, h3]
    by_cases hel : isError (some lo) = true
    · rw [if_pos hel]
      exact ⟨lo, rfl, h2⟩
    · rw [if_neg hel]
      by_cases her : isError (some ro) = true
      · rw [if_pos her]
        exact ⟨ro, rfl, h4⟩
      · rw [if_neg her]
        exact evalInfixExpression_some op lo ro (infixProtos_ne_quotient op hk.1.1)
  | .CallExpression function args, hc, hk => by
    simp only [Expression.complete, Bool.and_eq_true] at hc
    simp only [Expression.checked, Bool.and_eq_true] at hk
    have hfk : function.checked = true := by
      cases hs : function.String_ with
      | error err => rw [hs] at hk; simp at hk
      | ok name =>
        rw [hs] at hk
        exact Expression.checked_of_String_len function name hs hk.1
    obtain ⟨fo, h1, h2⟩ := Eval_some env henv function hc.1 hfk
    obtain ⟨vals, h3, h4⟩ := evalExpressions_some env henv args [] hc.2 hk.2 (by simp)
    have h5 : ∀ x ∈ vals, x ≠ none := by
      intro x hx
      obtain ⟨o, ho, _⟩ := h4 x hx
      simp [ho]
    simp only [Eval, h1, h3]
    by_cases hef : isError (some fo) = true
    · rw [if_pos hef]
      exact ⟨fo, rfl, h2⟩
    · rw [if_neg hef]
      match vals, h4, h5 with
      | [], _, h5 => exact applyFunction_some fo _ h2 h5
      | _ :: _ :: _, _, h5 => exact applyFunction_some fo _ h2 h5
      | [arg], h4, h5 =>
        simp only
        by_cases hea : isError arg = true
        · rw [if_pos hea]
          obtain ⟨o, ho, hp⟩ := h4 arg (by simp)
          exact ⟨o, by rw [ho], hp⟩
        · rw [if_neg hea]
          exact applyFunction_some fo _ h2 h5
theorem evalExpressions_some (env : Environment) (henv : env.plain) :
    ∀ (args : List Expression) (acc : List (Option Object)),
      Expression.completeList args = true → Expression.checkedList args = true →
      (∀ x ∈ acc, ∃ o, x = some o ∧ o.plain = true) →
      ∃ vals, evalExpressions builtins env args acc = .ok vals ∧
        ∀ x ∈ vals, ∃ o, x = some o ∧ o.plain = true
  | [], acc, _, _, hacc => ⟨acc, by simp [evalExpressions], hacc⟩
  | e :: rest, acc, hc, hk, hacc => by
    simp only [Expression.completeList, Bool.and_eq_true] at hc
    simp only [Expression.checkedList, Bool.and_eq_true] at hk
    obtain ⟨o, h1, h2⟩ := Eval_some env henv e hc.1 hk.1
    simp only [evalExpressions, h1]
    by_cases he : isError (some o) = true
    · rw [if_pos he]
      refine ⟨_, rfl, ?_⟩
      intro x hx
      simp only [List.mem_singleton] at hx
      exact ⟨o, hx, h2⟩
    · rw [if_neg he]
      apply evalExpressions_some env henv rest _ hc.2 hk.2
      intro x hx
      simp only [List.mem_append, List.mem_singleton] at hx
      rcases hx with hx | hx
      · exact hacc x hx
      · exact ⟨o, hx, h2⟩
end

theorem NewEnvironment_plain : NewEnvironment.plain := by
  intro name obj h
  simp [NewEnvironment] at h

/-- C24 (as amended): for every input text on which `ParseProgram` ends with an
empty error list: when the first token of the text is not `EOF`, the Program's
Expression is present and contains no missing sub-expression, and `Eval` of the
program, in any environment whose bindings are objects (not `nil`; a builtin
among them being a registered one), returns an object rather than `nil`; when
the first token is `EOF` (the empty text, a text of white space), the Program's
Expression is `nil` and `Eval` of the program returns `nil`. -/
theorem C24_empty_errors_complete_tree (input : String) (program : Program) (p : Parser)
    (env : Environment)
    (h : parse input = some (.ok (program, p))) (he : p.errors = []) (henv : env.plain) :
    ∃ tok l1, (NewLexer input).NextToken = some (tok, l1) ∧
      (tok.Type_ ≠ EOF →
        program.Expression.complete = true ∧
        ∃ o, evalProgram builtins program env = .ok (some o)) ∧
      (tok.Type_ = EOF →
        program.Expression = .nil ∧ evalProgram builtins program env = .ok none) := by
  obtain ⟨tok, l1, hn, hnil, hcomplete, t, hcheck⟩ := parse_complete input program p h he
  refine ⟨tok, l1, hn, ?_, ?_⟩
  · intro hne
    have hc := hcomplete hne
    refine ⟨hc, ?_⟩
    have hk : program.Expression.checked = true := by
      unfold Parser.CheckTypeProgram at hcheck
      have hl : ¬ p.errors.length ≠ 0 := by simp [he]
      rw [if_neg hl] at hcheck
      exact Parser.CheckType_checked program.Expression p p t hcheck he
    obtain ⟨o, ho, _⟩ := Eval_some env henv program.Expression hc hk
    exact ⟨o, ho⟩
  · intro heq
    have h1 := hnil heq
    refine ⟨h1, ?_⟩
    simp [evalProgram, h1, Eval]

/-- C24 at the text `1 < 2` and the empty environment. -/
theorem C24_empty_errors_complete_tree_witness :
    parse "1 < 2" = some (.ok
      ({ Expression := .InfixExpression (.Integer 1) "<" (.Integer 2) },
       { l := { input := "1 < 2", position := 7, readPosition := 8, ch := '\x00' },
         curToken := { Type_ := EOF, Literal := "" },
         peekToken := { Type_ := EOF, Literal := "" },
         errors := [] })) ∧
    NewEnvironment.plain ∧
    ∃ tok l1, (NewLexer "1 < 2").NextToken = some (tok, l1) ∧
      (tok.Type_ ≠ EOF →
        (Expression.InfixExpression (.Integer 1) "<" (.Integer 2)).complete = true ∧
        ∃ o, evalProgram builtins
          { Expression := .InfixExpression (.Integer 1) "<" (.Integer 2) } NewEnvironment =
            .ok (some o)) ∧
      (tok.Type_ = EOF →
        Expression.InfixExpression (.Integer 1) "<" (.Integer 2) = .nil ∧
        evalProgram builtins
          { Expression := .InfixExpression (.Integer 1) "<" (.Integer 2) } NewEnvironment =
            .ok none) :=
  ⟨by decide!, NewEnvironment_plain,
   C24_empty_errors_complete_tree "1 < 2"
     { Expression := .InfixExpression (.Integer 1) "<" (.Integer 2) }
     { l := { input := "1 < 2", position := 7, readPosition := 8, ch := '\x00' },
       curToken := { Type_ := EOF, Literal := "" },
       peekToken := { Type_ := EOF, Literal := "" },
       errors := [] }
     NewEnvironment (by decide!) rfl NewEnvironment_plain⟩

/-- C24 (counterexample): on the empty text `ParseProgram` ends with an empty
error list and a Program whose Expression is `nil`, and `Eval` of that program
returns `nil`; the same on a text of white space. -/
theorem C24_counterexample :
    parseErrors "" = some (.ok []) ∧
    parseExpressionOf "" = some (.ok .nil) ∧
    evalText "" NewEnvironment = some (.ok none) ∧
    parseErrors "  " = some (.ok []) ∧
    parseExpressionOf "  " = some (.ok .nil) ∧
    evalText "  " NewEnvironment = some (.ok none) := by
  decide!

/-! ## C23: the expression that the Program holds -/

theorem Parser.topLevel_sound :
    ∀ (n : Nat) (p p1 : Parser) (stmts : List Expression),
      Parser.topLevel n p = some (stmts, p1) → p1.errors = [] →
        p.errors = [] ∧ ∀ e ∈ stmts, e.complete = true
  | 0, _, _, _, h, _ => by simp [Parser.topLevel] at h
  | n + 1, p, p1, stmts, h, he => by
    rw [Parser.topLevel] at h
    by_cases hc : p.curToken.Type_ ≠ EOF
    · rw [if_pos hc] at h
      cases hl : Parser.parseExpression n p LOWEST with
      | none => rw [hl] at h; cases h
      | some x =>
        obtain ⟨stmt, p2⟩ := x
        rw [hl] at h
        simp only at h
        cases hn : p2.nextToken with
        | none => rw [hn] at h; cases h
        | some p3 =>
          rw [hn] at h
          simp only at h
          cases ht : Parser.topLevel n p3 with
          | none => rw [ht] at h; cases h
          | some y =>
            obtain ⟨rest, p4⟩ := y
            rw [ht] at h
            cases h
            obtain ⟨h1, h2⟩ := Parser.topLevel_sound n p3 p1 rest ht he
            rw [Parser.nextToken_errors p2 p3 hn] at h1
            obtain ⟨h3, h4⟩ := (Parser.soundAt n).1 p LOWEST stmt p2 hl h1
            refine ⟨h3, ?_⟩
            intro e hm
            rcases List.mem_cons.1 hm with rfl | hm
            · exact h4
            · exact h2 e hm
    · rw [if_neg hc] at h
      cases h
      exact ⟨he, fun e hm => by simp at hm⟩

theorem Expression.isPresent_of_complete (e : Expression) (h : e.complete = true) :
    e.isPresent = true := by
  cases e <;> first | rfl | simp [Expression.complete] at h

theorem lastPresent_of_complete (stmts : List Expression) (dflt : Expression)
    (h : ∀ e ∈ stmts, e.complete = true) :
    lastPresent stmts dflt = stmts.getLast?.getD dflt := by
  unfold lastPresent
  rw [List.getLast?_eq_head?_reverse]
  cases hr : stmts.reverse with
  | nil => rfl
  | cons e rest =>
    have he : e ∈ stmts := by
      rw [← List.mem_reverse, hr]
      exact List.mem_cons_self e rest
    simp [List.find?, Expression.isPresent_of_complete e (h e he)]

/-- C23 (as amended): the Program that `ParseProgram` returns holds the last
result of the successive calls `parseExpression(LOWEST)` of the loop that is
not `nil`, whether or not an error was recorded inside that call, and no
other: every earlier expression is discarded (a program with no such
expression holds `nil`). When `ParseProgram` ends with an empty error list,
every top-level expression was parsed to a tree with no missing
sub-expression, and the Program holds the last top-level expression. On `1 2`
the top-level expressions are `1` and `2` and the Program holds `Integer{2}`;
on `a b c` it holds `Identifier{c}`; on `1 ]`, where the second call fails and
returns `nil`, it holds `Integer{1}`. -/
theorem C23_last_expression_kept :
    (∀ (input : String) (program : Program) (p : Parser),
      parse input = some (.ok (program, p)) →
        ∃ stmts, topLevelOf input = some stmts ∧
          program.Expression = lastPresent stmts .nil) ∧
    topLevelOf "1 2" = some [.Integer 1, .Integer 2] ∧
    parseExpressionOf "1 2" = some (.ok (.Integer 2)) ∧
    topLevelOf "a b c" = some [.Identifier "a", .Identifier "b", .Identifier "c"] ∧
    parseExpressionOf "a b c" = some (.ok (.Identifier "c")) ∧
    topLevelOf "1 ]" = some [.Integer 1, .nil] ∧
    parseExpressionOf "1 ]" = some (.ok (.Integer 1)) ∧
    (∀ (input : String) (program : Program) (p : Parser),
      parse input = some (.ok (program, p)) → p.errors = [] →
        ∃ stmts, topLevelOf input = some stmts ∧
          (∀ e ∈ stmts, e.complete = true) ∧
          program.Expression = stmts.getLast?.getD .nil) := by
  have key : ∀ (input : String) (program : Program) (p : Parser),
      parse input = some (.ok (program, p)) →
        ∃ p0 stmts p1 t, NewParser (NewLexer input) = some p0 ∧
          p0.topLevel p0.budget = some (stmts, p1) ∧
          topLevelOf input = some stmts ∧
          program.Expression = lastPresent stmts .nil ∧
          p1.CheckTypeProgram program = .ok (t, p) := by
    intro input program p h
    unfold parse at h
    unfold topLevelOf
    cases h0 : NewParser (NewLexer input) with
    | none => rw [h0] at h; cases h
    | some p0 =>
      rw [h0] at h
      simp only [Parser.ParseProgram, Parser.parseProgramLoop_topLevel] at h
      simp only
      cases ht : p0.topLevel p0.budget with
      | none => rw [ht] at h; cases h
      | some x =>
        obtain ⟨stmts, p1⟩ := x
        rw [ht] at h
        simp only at h
        cases hc : p1.CheckTypeProgram { Expression := lastPresent stmts .nil } with
        | error err => rw [hc] at h; cases h
        | ok y =>
          obtain ⟨t, p2⟩ := y
          rw [hc] at h
          cases h
          exact ⟨p0, stmts, p1, t, rfl, ht, rfl, rfl, hc⟩
  refine ⟨?_, by decide!, by decide!, by decide!, by decide!, by decide!, by decide!, ?_⟩
  · intro input program p h
    obtain ⟨_, stmts, _, _, _, _, h1, h2, _⟩ := key input program p h
    exact ⟨stmts, h1, h2⟩
  · intro input program p h he
    obtain ⟨p0, stmts, p1, t, _, ht, h1, h2, hc⟩ := key input program p h
    have hp := Parser.CheckTypeProgram_unchanged p1 p program t hc he
    subst hp
    obtain ⟨_, h3⟩ := Parser.topLevel_sound _ p0 p stmts ht he
    refine ⟨stmts, h1, h3, ?_⟩
    rw [h2, lastPresent_of_complete stmts .nil h3]

/-- C23 at the text `1 2`. -/
theorem C23_last_expression_kept_witness :
    parse "1 2" = some (.ok
      ({ Expression := .Integer 2 },
       { l := { input := "1 2", position := 5, readPosition := 6, ch := '\x00' },
         curToken := { Type_ := EOF, Literal := "" },
         peekToken := { Type_ := EOF, Literal := "" },
         errors := [] })) ∧
    (∃ stmts, topLevelOf "1 2" = some stmts ∧
      (Program.mk (.Integer 2)).Expression = lastPresent stmts .nil) ∧
    (∃ stmts, topLevelOf "1 2" = some stmts ∧
      (∀ e ∈ stmts, e.complete = true) ∧
      (Program.mk (.Integer 2)).Expression = stmts.getLast?.getD .nil) :=
  ⟨by decide!,
   C23_last_expression_kept.1 "1 2" { Expression := .Integer 2 }
     { l := { input := "1 2", position := 5, readPosition := 6, ch := '\x00' },
       curToken := { Type_ := EOF, Literal := "" },
       peekToken := { Type_ := EOF, Literal := "" },
       errors := [] }
     (by decide!),
   C23_last_expression_kept.2.2.2.2.2.2.2 "1 2" { Expression := .Integer 2 }
     { l := { input := "1 2", position := 5, readPosition := 6, ch := '\x00' },
       curToken := { Type_ := EOF, Literal := "" },
       peekToken := { Type_ := EOF, Literal := "" },
       errors := [] }
     (by decide!) rfl⟩

/-- C23 (counterexample): on the text `1 !` the first top-level expression,
`1`, is parsed with no error (as the text `1` alone is), and the second, `!`
with nothing after it, is not: the error `no prefix parse function for EOF
found` is recorded. The Program holds the second, the node `PrefixExpresion`
with the operator `!` and a missing operand, not `Integer{1}`. -/
theorem C23_counterexample :
    topLevelOf "1 !" = some [.Integer 1, .PrefixExpresion "!" .nil] ∧
    parseExpressionOf "1 !" = some (.ok (.PrefixExpresion "!" .nil)) ∧
    parseExpressionOf "1 !" ≠ some (.ok (.Integer 1)) ∧
    parseErrors "1 !" = some (.ok ["no prefix parse function for EOF found"]) ∧
    parseExpressionOf "1" = some (.ok (.Integer 1)) ∧
    parseErrors "1" = some (.ok []) ∧
    parseErrors "!" = some (.ok ["no prefix parse function for EOF found"]) := by
  decide!

end Conditions
